import Mathlib

/-!
Verification development for the core matching engine of the
production-lob-matching-engine repository: a price-time-priority limit order
book (`src/order_book.cpp`), its brute-force reference oracle
(`src/reference_order_book.cpp`), the multi-symbol engine front-end
(`src/matching_engine.cpp`) and the binary depth-snapshot codec
(`src/binary_serializer.cpp`).

The embedding is shallow: every C++ class becomes a Lean structure, member
functions become pure functions threading the state explicitly.  Machine
integers are modelled as `Nat` (`uint64_t`: all subtractions in the source are
guarded so no wrap occurs on the modelled paths) and `Int` (the `int64_t` price type:
the book only compares prices, never computes with them).  `std::string`
symbols are modelled as byte lists.  `std::map` price ladders are sorted
association lists, `std::unordered_map<Nat, unique_ptr<Order>>` is an
association list keyed by order id; the C++ `Order*` pointers stored in the
per-level FIFO deques are modelled as the order ids they point to, with the
id index as the backing store (under the book's documented invariant that
every id keys exactly one live order, this is the same object graph).
-/

namespace LOB

/-- `Side` from `include/lob/types.hpp`. -/
inductive Side
  | buy
  | sell
deriving DecidableEq, Repr

/-- `OrderType` from `include/lob/types.hpp`. -/
inductive OrderType
  | limit
  | market
deriving DecidableEq, Repr

/-- `TimeInForce` from `include/lob/types.hpp`. -/
inductive TimeInForce
  | day
  | ioc
  | fok
  | gtc
  | gtd
deriving DecidableEq, Repr

/-- `STPPolicy` from `include/lob/types.hpp`. -/
inductive STPPolicy
  | none
  | cancelIncoming
  | cancelResting
  | cancelBoth
deriving DecidableEq, Repr

/- The C++ scalar types (`types.hpp`): `OrderId`, `TraderId`, `TradeId`,
`Quantity`, `Timestamp` are `uint64_t` and are modelled as `Nat`; `Price` is
`int64_t`, modelled as `Int`.  The raw `Nat`/`Int` spellings are used in every
signature below (arithmetic automation does not unfold abbreviations). -/
/-- `std::string` symbols, as byte sequences. -/
abbrev Symbol := List Nat

/-- Sentinel `INVALID_PRICE = -1` from `types.hpp`. -/
def INVALID_PRICE : Int := -1
/-- Sentinel `INVALID_TRADER_ID = 0` from `types.hpp`. -/
def INVALID_TRADER_ID : Nat := 0

/-- `Order` from `include/lob/order.hpp`, restricted to the fields the core
reads (`post_only`, `hidden`, `display_quantity` are declared "for future
use" and never read anywhere in the source). -/
structure Order where
  order_id : Nat := 0
  trader_id : Nat := 0
  symbol : Symbol := []
  side : Side := Side.buy
  order_type : OrderType := OrderType.limit
  price : Int := INVALID_PRICE
  quantity : Nat := 0
  remaining_quantity : Nat := 0
  time_in_force : TimeInForce := TimeInForce.day
  timestamp : Nat := 0
deriving DecidableEq, Repr

/-- `Order`'s in-class member initializers (`Order order;` in C++). -/
def defaultOrder : Order := {}

/-- `TradeEvent` from `include/lob/events.hpp`. -/
structure TradeEvent where
  trade_id : Nat := 0
  symbol : Symbol := []
  price : Int := INVALID_PRICE
  quantity : Nat := 0
  aggressor_side : Side := Side.buy
  aggressive_order_id : Nat := 0
  passive_order_id : Nat := 0
  aggressive_trader_id : Nat := 0
  passive_trader_id : Nat := 0
  timestamp : Nat := 0
  sequence_number : Nat := 0
deriving DecidableEq, Repr

/-- `PriceLevelQueue` from `include/lob/order_book.hpp`: FIFO deque of
resting-order references (ids here) plus the cached running total. -/
structure PriceLevelQueue where
  orders_ : List Nat := []
  total_quantity_ : Nat := 0
deriving DecidableEq, Repr

/-- `PriceLevelQueue::add_order`: push the order to the back and add its
remaining quantity to the cached total. -/
def PriceLevelQueue.add_order (q : PriceLevelQueue) (o : Order) : PriceLevelQueue :=
  { orders_ := q.orders_ ++ [o.order_id]
    total_quantity_ := q.total_quantity_ + o.remaining_quantity }

/-- `PriceLevelQueue::remove_order`: erase the first queue entry for the
order (C++ searches for the pointer; ids stand in for pointers) and subtract
its current remaining quantity from the cached total. -/
def PriceLevelQueue.remove_order (q : PriceLevelQueue) (o : Order) : PriceLevelQueue :=
  if o.order_id ∈ q.orders_ then
    { orders_ := q.orders_.erase o.order_id
      total_quantity_ := q.total_quantity_ - o.remaining_quantity }
  else q

/-- A price ladder: `std::map<Int, PriceLevelQueue>`, kept as a list sorted
by the map's comparator (descending for bids, ascending for asks). -/
abbrev Ladder := List (Int × PriceLevelQueue)

/-- Map lookup `ladder.find(p)`. -/
def ladderFind (p : Int) : Ladder → Option PriceLevelQueue
  | [] => Option.none
  | (q, lvl) :: rest => if p = q then some lvl else ladderFind p rest

/-- Map erase `ladder.erase(p)` (first entry with that key). -/
def ladderErase (p : Int) : Ladder → Ladder
  | [] => []
  | (q, lvl) :: rest => if p = q then rest else (q, lvl) :: ladderErase p rest

/-- `ladder[price].add_order(order)`: `std::map::operator[]` inserts a
default-constructed level at the comparator's position if the key is absent,
then the order is appended.  `before` is the map comparator. -/
def ladderAdd (before : Int → Int → Bool) (o : Order) : Ladder → Ladder
  | [] => [(o.price, PriceLevelQueue.add_order {} o)]
  | (q, lvl) :: rest =>
    if o.price = q then (q, lvl.add_order o) :: rest
    else if before o.price q then (o.price, PriceLevelQueue.add_order {} o) :: (q, lvl) :: rest
    else (q, lvl) :: ladderAdd before o rest

/-- The per-side body of `OrderBook::remove_from_book`: find the level at the
order's price, erase the order from its queue, and erase the level if the
queue became empty. -/
def ladderRemove (o : Order) : Ladder → Ladder
  | [] => []
  | (q, lvl) :: rest =>
    if o.price = q then
      let lvl' := lvl.remove_order o
      if lvl'.orders_ = [] then rest else (q, lvl') :: rest
    else (q, lvl) :: ladderRemove o rest

/-- Lookup in the order index `orders_` (association-list model of
`std::unordered_map<Nat, unique_ptr<Order>>::find`). -/
def lookupId (id : Nat) : List (Nat × Order) → Option Order
  | [] => Option.none
  | (k, o) :: rest => if id = k then some o else lookupId id rest

/-- `orders_[id] = order`: overwrite the entry for `id` if present (destroying
the previous order), append otherwise.  No duplicate-id check exists in the
source. -/
def upsertId (id : Nat) (o : Order) : List (Nat × Order) → List (Nat × Order)
  | [] => [(id, o)]
  | (k, u) :: rest => if id = k then (k, o) :: rest else (k, u) :: upsertId id o rest

/-- `orders_.erase(id)`: remove the first entry for `id`. -/
def eraseId (id : Nat) : List (Nat × Order) → List (Nat × Order)
  | [] => []
  | (k, o) :: rest => if id = k then rest else (k, o) :: eraseId id rest

/-- `OrderBook` state from `include/lob/order_book.hpp`.  `bids_` is sorted by
`std::greater` (best bid first), `asks_` by `std::less` (best ask first). -/
structure OrderBook where
  symbol_ : Symbol
  stp_policy_ : STPPolicy
  bids_ : Ladder := []
  asks_ : Ladder := []
  orders_ : List (Nat × Order) := []
  next_trade_id_ : Nat := 1
  trade_count_ : Nat := 0
  total_volume_ : Nat := 0
deriving DecidableEq, Repr

/-- `OrderBook::OrderBook(symbol, stp_policy)`. -/
def OrderBook.init (sym : Symbol) (stp : STPPolicy) : OrderBook :=
  { symbol_ := sym, stp_policy_ := stp }

/-- `OrderBook::would_self_trade`. -/
def would_self_trade (stp : STPPolicy) (incoming resting : Order) : Bool :=
  if stp = STPPolicy.none then false
  else incoming.trader_id == resting.trader_id && incoming.trader_id != INVALID_TRADER_ID

/-- The price-cross exit test of `match_limit_order`: a BUY stops when its
price is below the level, a SELL stops when its price is above the level. -/
def crossFails (o : Order) (p : Int) : Bool :=
  match o.side with
  | Side.buy => decide (o.price < p)
  | Side.sell => decide (p < o.price)

/-- The book fields read and written by the matching loops: the opposing
ladder, the id index, and the three counters. -/
structure MatchAcc where
  opp : Ladder
  index : List (Nat × Order)
  next_trade_id_ : Nat
  trade_count_ : Nat
  total_volume_ : Nat
deriving DecidableEq, Repr

/-- `OrderBook::create_trade`: stamps the next (post-incremented) trade id and
the pre-increment `trade_count_` as the book-level sequence number. -/
def create_trade (sym : Symbol) (acc : MatchAcc) (aggressive passive : Order)
    (quantity : Nat) (price : Int) (ts : Nat) : TradeEvent :=
  { trade_id := acc.next_trade_id_
    symbol := sym
    price := price
    quantity := quantity
    aggressor_side := aggressive.side
    aggressive_order_id := aggressive.order_id
    passive_order_id := passive.order_id
    aggressive_trader_id := aggressive.trader_id
    passive_trader_id := passive.trader_id
    timestamp := ts
    sequence_number := acc.trade_count_ }

/-- Termination measure for the matching loops: one unit per opposing level
plus one per queued order reference. -/
def oppMeasure : Ladder → Nat
  | [] => 0
  | (_, lvl) :: rest => lvl.orders_.length + 1 + oppMeasure rest

/--
The matching loops of `OrderBook::match_limit_order` and
`OrderBook::match_market_order` (four syntactically identical nested
while-loops in the source, differing only in the side being walked and in the
presence of the price-cross exit, which only LIMIT orders have).  One
recursive call corresponds to one resumption of the loop after the opposing
side lost an entry; the paths that exit both loops return directly.

Modelling notes, keyed to the source:
* the `lookupId _ = none` and mismatched-`resting` branches dereference a
  stale pointer in C++ and are unreachable while the book invariant (every
  queued reference is a live index entry whose key, side and price agree
  with its queue position) holds; the model gives them harmless exits.
* `handle_self_trade` under `CANCEL_RESTING`/`CANCEL_BOTH` calls
  `remove_from_book(resting)`, which removes `resting` from the front of the
  very level being matched and erases the level if it became empty; the
  model performs that removal in place.
* `queue.pop_front()` does not reduce the cached `total_quantity_`, and
  neither does a partial fill; the staleness is reproduced faithfully.
-/
def matchLoop (sym : Symbol) (stp : STPPolicy) (ts : Nat) (ord : Order) (acc : MatchAcc) :
    MatchAcc × Order × List TradeEvent :=
  if ord.remaining_quantity = 0 then (acc, ord, [])
  else
    match hopp : acc.opp with
    | [] => (acc, ord, [])
    | (p, lvl) :: restLevels =>
      if ord.order_type = OrderType.limit ∧ crossFails ord p then (acc, ord, [])
      else
        match hq : lvl.orders_ with
        | [] => matchLoop sym stp ts ord { acc with opp := restLevels }
        | oid :: qrest =>
          match lookupId oid acc.index with
          | Option.none =>
            matchLoop sym stp ts ord
              { acc with opp := (p, { lvl with orders_ := qrest }) :: restLevels }
          | some resting =>
            if would_self_trade stp ord resting then
              match stp with
              | STPPolicy.none => (acc, ord, [])
              | STPPolicy.cancelIncoming =>
                (acc, { ord with remaining_quantity := 0 }, [])
              | STPPolicy.cancelResting =>
                if resting.order_id = oid ∧ resting.side ≠ ord.side ∧ resting.price = p then
                  matchLoop sym stp ts ord
                    { acc with
                        opp := if (lvl.remove_order resting).orders_ = [] then restLevels
                          else (p, lvl.remove_order resting) :: restLevels
                        index := eraseId resting.order_id acc.index }
                else (acc, ord, [])
              | STPPolicy.cancelBoth =>
                if resting.order_id = oid ∧ resting.side ≠ ord.side ∧ resting.price = p then
                  ({ acc with
                      opp := if (lvl.remove_order resting).orders_ = [] then restLevels
                        else (p, lvl.remove_order resting) :: restLevels
                      index := eraseId resting.order_id acc.index },
                    { ord with remaining_quantity := 0 }, [])
                else (acc, { ord with remaining_quantity := 0 }, [])
            else
              let trade_qty := min ord.remaining_quantity resting.remaining_quantity
              let trade := create_trade sym acc ord resting trade_qty p ts
              let ord' := { ord with remaining_quantity := ord.remaining_quantity - trade_qty }
              let resting' :=
                { resting with remaining_quantity := resting.remaining_quantity - trade_qty }
              let acc1 := { acc with
                  index := upsertId oid resting' acc.index
                  next_trade_id_ := acc.next_trade_id_ + 1
                  trade_count_ := acc.trade_count_ + 1
                  total_volume_ := acc.total_volume_ + trade_qty }
              if resting'.remaining_quantity = 0 then
                let lvl' := { lvl with orders_ := qrest }
                let acc2 := { acc1 with
                    opp := (p, lvl') :: restLevels
                    index := eraseId resting.order_id acc1.index }
                if ord'.remaining_quantity = 0 then
                  let accOut :=
                    if lvl'.orders_ = [] then { acc2 with opp := restLevels } else acc2
                  (accOut, ord', [trade])
                else
                  let r := matchLoop sym stp ts ord' acc2
                  (r.1, r.2.1, trade :: r.2.2)
              else
                (acc1, ord', [trade])
termination_by oppMeasure acc.opp
decreasing_by
  · simp only [hopp, oppMeasure, hq, List.length_nil]
    omega
  · simp only [hopp, oppMeasure, hq, List.length_cons]
    omega
  · rename_i hsane
    obtain ⟨hid, hside, hprice⟩ := hsane
    have hmem : resting.order_id ∈ lvl.orders_ := by
      rw [hq, hid]
      exact List.mem_cons_self _ _
    have hlen := List.length_erase_of_mem hmem
    have hpos : 0 < lvl.orders_.length := by rw [hq]; simp
    simp only [hopp, oppMeasure, PriceLevelQueue.remove_order, if_pos hmem]
    split
    · omega
    · simp only [oppMeasure]
      omega
  · simp only [hopp, oppMeasure, hq, List.length_cons]
    omega

/-- `OrderBook::add_to_book`: append the order to the FIFO queue at its price
on its side, creating the level at the map comparator's position if absent. -/
def OrderBook.add_to_book (b : OrderBook) (o : Order) : OrderBook :=
  match o.side with
  | Side.buy => { b with bids_ := ladderAdd (fun x y => decide (y < x)) o b.bids_ }
  | Side.sell => { b with asks_ := ladderAdd (fun x y => decide (x < y)) o b.asks_ }

/-- `OrderBook::remove_from_book`. -/
def OrderBook.remove_from_book (b : OrderBook) (o : Order) : OrderBook :=
  match o.side with
  | Side.buy => { b with bids_ := ladderRemove o b.bids_ }
  | Side.sell => { b with asks_ := ladderRemove o b.asks_ }

/-- `OrderBook::match_order`: run the matching loop against the opposing side
and write the loop's view of the book back into the state. -/
def OrderBook.match_order (b : OrderBook) (o : Order) (ts : Nat) :
    OrderBook × Order × List TradeEvent :=
  let opp := match o.side with
    | Side.buy => b.asks_
    | Side.sell => b.bids_
  let r := matchLoop b.symbol_ b.stp_policy_ ts o
      { opp := opp, index := b.orders_, next_trade_id_ := b.next_trade_id_,
        trade_count_ := b.trade_count_, total_volume_ := b.total_volume_ }
  let b' := match o.side with
    | Side.buy =>
      { b with
          asks_ := r.1.opp
          orders_ := r.1.index
          next_trade_id_ := r.1.next_trade_id_
          trade_count_ := r.1.trade_count_
          total_volume_ := r.1.total_volume_ }
    | Side.sell =>
      { b with
          bids_ := r.1.opp
          orders_ := r.1.index
          next_trade_id_ := r.1.next_trade_id_
          trade_count_ := r.1.trade_count_
          total_volume_ := r.1.total_volume_ }
  (b', r.2.1, r.2.2)

/-- `OrderBook::add_order`, additionally exposing the incoming order's final
state (the local `*order_raw` at return, which the C++ interface discards). -/
def OrderBook.add_order_full (b : OrderBook) (o : Order) (ts : Nat) :
    OrderBook × List TradeEvent × Order :=
  let r := b.match_order o ts
  let b1 := r.1
  let o1 := r.2.1
  let trades := r.2.2
  if o1.remaining_quantity > 0 then
    if o1.time_in_force = TimeInForce.ioc then (b1, trades, o1)
    else if o1.time_in_force = TimeInForce.fok then (b1, [], o1)
    else
      let b2 := { b1 with orders_ := upsertId o1.order_id o1 b1.orders_ }
      (b2.add_to_book o1, trades, o1)
  else (b1, trades, o1)

/-- `OrderBook::add_order`. -/
def OrderBook.add_order (b : OrderBook) (o : Order) (ts : Nat) :
    OrderBook × List TradeEvent :=
  let r := b.add_order_full o ts
  (r.1, r.2.1)

/-- `OrderBook::cancel_order`. -/
def OrderBook.cancel_order (b : OrderBook) (id : Nat) : OrderBook × Bool :=
  match lookupId id b.orders_ with
  | Option.none => (b, false)
  | some o =>
    let b1 := b.remove_from_book o
    ({ b1 with orders_ := eraseId id b1.orders_ }, true)

/-- `OrderBook::replace_order`: remove the old order from ladder and index,
rebuild it with the new price and quantity (all other fields copied), and feed
it back through `add_order`. -/
def OrderBook.replace_order (b : OrderBook) (id : Nat) (new_price : Int)
    (new_quantity : Nat) (ts : Nat) : OrderBook × List TradeEvent :=
  match lookupId id b.orders_ with
  | Option.none => (b, [])
  | some old =>
    let b1 := b.remove_from_book old
    let new_order := { old with
        price := new_price
        quantity := new_quantity
        remaining_quantity := new_quantity }
    let b2 := { b1 with orders_ := eraseId id b1.orders_ }
    b2.add_order new_order ts

/-- `OrderBook::get_best_bid`. -/
def OrderBook.get_best_bid (b : OrderBook) : Option Int :=
  b.bids_.head?.map Prod.fst

/-- `OrderBook::get_best_ask`. -/
def OrderBook.get_best_ask (b : OrderBook) : Option Int :=
  b.asks_.head?.map Prod.fst

/-- `PriceLevel` from `include/lob/market_data.hpp`. -/
structure PriceLevel where
  price : Int := INVALID_PRICE
  quantity : Nat := 0
  order_count : Nat := 0
deriving DecidableEq, Repr

/-- `DepthSnapshot` from `include/lob/market_data.hpp`. -/
structure DepthSnapshot where
  symbol : Symbol := []
  bids : List PriceLevel := []
  asks : List PriceLevel := []
  timestamp : Nat := 0
  sequence_number : Nat := 0
deriving DecidableEq, Repr

/-- `OrderBook::get_depth_snapshot`: the first `depth_levels` ladder entries
per side, reporting each level's cached `total_quantity_` and queue length;
`sequence_number` is the book's `trade_count_`. -/
def OrderBook.get_depth_snapshot (b : OrderBook) (depth_levels : Nat) (ts : Nat) :
    DepthSnapshot :=
  { symbol := b.symbol_
    timestamp := ts
    sequence_number := b.trade_count_
    bids := (b.bids_.take depth_levels).map
      (fun e => { price := e.1, quantity := e.2.total_quantity_, order_count := e.2.orders_.length })
    asks := (b.asks_.take depth_levels).map
      (fun e => { price := e.1, quantity := e.2.total_quantity_, order_count := e.2.orders_.length }) }

/-- `ReferenceOrderBook` state from `include/lob/reference_order_book.hpp`
(`src/unnamed/part_001`): a flat vector of live orders in insertion order. -/
structure ReferenceOrderBook where
  symbol_ : Symbol
  stp_policy_ : STPPolicy
  orders_ : List Order := []
  next_trade_id_ : Nat := 1
deriving DecidableEq, Repr

/-- `ReferenceOrderBook::ReferenceOrderBook(symbol, stp_policy)`. -/
def ReferenceOrderBook.init (sym : Symbol) (stp : STPPolicy) : ReferenceOrderBook :=
  { symbol_ := sym, stp_policy_ := stp }

/-- `ReferenceOrderBook::can_trade`. -/
def ref_can_trade (incoming resting : Order) : Bool :=
  if incoming.order_type = OrderType.market ∨ resting.order_type = OrderType.market then true
  else
    match incoming.side with
    | Side.buy => decide (resting.price ≤ incoming.price)
    | Side.sell => decide (incoming.price ≤ resting.price)

/-- `ReferenceOrderBook::would_self_trade` (same body as the book's). -/
def ref_would_self_trade (stp : STPPolicy) (incoming resting : Order) : Bool :=
  if stp = STPPolicy.none then false
  else incoming.trader_id == resting.trader_id && incoming.trader_id != INVALID_TRADER_ID

/-- One iteration of the `find_best_match` scan: skip same-side, empty and
non-crossing orders, keep the first candidate, replace it on a strictly
better price or an equal price with a strictly earlier timestamp. -/
def fbmStep (incoming : Order) (best : Option Order) (o : Order) : Option Order :=
  if o.side = incoming.side ∨ o.remaining_quantity = 0 then best
  else if ¬ ref_can_trade incoming o then best
  else
    match best with
    | Option.none => some o
    | some b =>
      match incoming.side with
      | Side.buy =>
        if o.price < b.price then some o
        else if o.price = b.price ∧ o.timestamp < b.timestamp then some o
        else some b
      | Side.sell =>
        if b.price < o.price then some o
        else if o.price = b.price ∧ o.timestamp < b.timestamp then some o
        else some b

/-- `ReferenceOrderBook::find_best_match`: linear scan over the live orders. -/
def find_best_match (incoming : Order) (orders : List Order) : Option Order :=
  orders.foldl (fbmStep incoming) Option.none

/-- `std::vector::erase` of the first order with the given id (the body of
`ReferenceOrderBook::cancel_order`). -/
def refEraseFirst (id : Nat) : List Order → List Order
  | [] => []
  | o :: rest => if o.order_id = id then rest else o :: refEraseFirst id rest

/-- In-place mutation of the first order with the given id (C++ writes
through the `Order*` returned by `find_best_match`). -/
def refUpdateFirst (id : Nat) (f : Order → Order) : List Order → List Order
  | [] => []
  | o :: rest => if o.order_id = id then f o :: rest else o :: refUpdateFirst id f rest

/-- `ReferenceOrderBook::cancel_order`. -/
def ReferenceOrderBook.cancel_order (b : ReferenceOrderBook) (id : Nat) :
    ReferenceOrderBook × Bool :=
  if b.orders_.any (fun o => o.order_id == id) then
    ({ b with orders_ := refEraseFirst id b.orders_ }, true)
  else (b, false)

/-- `ReferenceOrderBook::create_trade`: like the book's but without the
book-level sequence number (left at its default). -/
def ref_create_trade (sym : Symbol) (ntid : Nat) (aggressive passive : Order)
    (quantity : Nat) (price : Int) (ts : Nat) : TradeEvent :=
  { trade_id := ntid
    symbol := sym
    price := price
    quantity := quantity
    aggressor_side := aggressive.side
    aggressive_order_id := aggressive.order_id
    passive_order_id := passive.order_id
    aggressive_trader_id := aggressive.trader_id
    passive_trader_id := passive.trader_id
    timestamp := ts }

/-- The while-loop of `ReferenceOrderBook::match_order`.  The two recursive
calls are guarded by a length check that the source discharges by
construction (`find_best_match` returns an element of the vector, so erasing
its id shortens the vector); the guard only serves the termination proof and
the `else` branches are unreachable. -/
def refMatchLoop (sym : Symbol) (stp : STPPolicy) (ts : Nat) (incoming : Order)
    (orders : List Order) (ntid : Nat) : List Order × Nat × Order × List TradeEvent :=
  if incoming.remaining_quantity = 0 then (orders, ntid, incoming, [])
  else
    match find_best_match incoming orders with
    | Option.none => (orders, ntid, incoming, [])
    | some best =>
      if ref_would_self_trade stp incoming best then
        match stp with
        | STPPolicy.none => (orders, ntid, incoming, [])
        | STPPolicy.cancelIncoming =>
          (orders, ntid, { incoming with remaining_quantity := 0 }, [])
        | STPPolicy.cancelResting =>
          let orders' := refEraseFirst best.order_id orders
          if h : orders'.length < orders.length then
            refMatchLoop sym stp ts incoming orders' ntid
          else (orders', ntid, incoming, [])
        | STPPolicy.cancelBoth =>
          (refEraseFirst best.order_id orders, ntid, { incoming with remaining_quantity := 0 }, [])
      else
        let trade_qty := min incoming.remaining_quantity best.remaining_quantity
        let trade := ref_create_trade sym ntid incoming best trade_qty best.price ts
        let incoming' := { incoming with remaining_quantity := incoming.remaining_quantity - trade_qty }
        let orders1 := refUpdateFirst best.order_id
          (fun o => { o with remaining_quantity := o.remaining_quantity - trade_qty }) orders
        if best.remaining_quantity - trade_qty = 0 then
          let orders2 := refEraseFirst best.order_id orders1
          if incoming'.remaining_quantity = 0 then (orders2, ntid + 1, incoming', [trade])
          else
            if h : orders2.length < orders.length then
              let r := refMatchLoop sym stp ts incoming' orders2 (ntid + 1)
              (r.1, r.2.1, r.2.2.1, trade :: r.2.2.2)
            else (orders2, ntid + 1, incoming', [trade])
        else (orders1, ntid + 1, incoming', [trade])
termination_by orders.length

/-- `ReferenceOrderBook::match_order`. -/
def ReferenceOrderBook.match_order (b : ReferenceOrderBook) (o : Order) (ts : Nat) :
    ReferenceOrderBook × Order × List TradeEvent :=
  let r := refMatchLoop b.symbol_ b.stp_policy_ ts o b.orders_ b.next_trade_id_
  ({ b with orders_ := r.1, next_trade_id_ := r.2.1 }, r.2.2.1, r.2.2.2)

/-- `ReferenceOrderBook::add_order`, exposing the incoming order's final
state like `OrderBook.add_order_full`. -/
def ReferenceOrderBook.add_order_full (b : ReferenceOrderBook) (o : Order) (ts : Nat) :
    ReferenceOrderBook × List TradeEvent × Order :=
  let r := b.match_order o ts
  let b1 := r.1
  let o1 := r.2.1
  let trades := r.2.2
  if o1.remaining_quantity > 0 then
    if o1.time_in_force = TimeInForce.ioc then (b1, trades, o1)
    else if o1.time_in_force = TimeInForce.fok then (b1, [], o1)
    else ({ b1 with orders_ := b1.orders_ ++ [o1] }, trades, o1)
  else (b1, trades, o1)

/-- `ReferenceOrderBook::add_order`. -/
def ReferenceOrderBook.add_order (b : ReferenceOrderBook) (o : Order) (ts : Nat) :
    ReferenceOrderBook × List TradeEvent :=
  let r := b.add_order_full o ts
  (r.1, r.2.1)

/-- `ReferenceOrderBook::replace_order`: cancel, then `add_order` a
*default-constructed* order carrying only the id, price and quantity (the
original's side, trader, type and time-in-force are not copied). -/
def ReferenceOrderBook.replace_order (b : ReferenceOrderBook) (id : Nat)
    (new_price : Int) (new_quantity : Nat) (ts : Nat) :
    ReferenceOrderBook × List TradeEvent :=
  let c := b.cancel_order id
  if c.2 = false then (b, [])
  else
    c.1.add_order { defaultOrder with
      order_id := id
      price := new_price
      quantity := new_quantity
      remaining_quantity := new_quantity } ts

/-- `ReferenceOrderBook::get_best_bid`: linear scan with the
`INVALID_PRICE` accumulator. -/
def ReferenceOrderBook.get_best_bid (b : ReferenceOrderBook) : Option Int :=
  let best := b.orders_.foldl
    (fun best o =>
      if o.side = Side.buy ∧ 0 < o.remaining_quantity then
        if best = INVALID_PRICE ∨ best < o.price then o.price else best
      else best) INVALID_PRICE
  if best ≠ INVALID_PRICE then some best else Option.none

/-- `ReferenceOrderBook::get_best_ask`. -/
def ReferenceOrderBook.get_best_ask (b : ReferenceOrderBook) : Option Int :=
  let best := b.orders_.foldl
    (fun best o =>
      if o.side = Side.sell ∧ 0 < o.remaining_quantity then
        if best = INVALID_PRICE ∨ o.price < best then o.price else best
      else best) INVALID_PRICE
  if best ≠ INVALID_PRICE then some best else Option.none

/-- Sorted-map aggregation used by `ReferenceOrderBook::get_depth_snapshot`
(`std::map` keyed by the comparator `before`, summing quantities). -/
def aggAdd (before : Int → Int → Bool) (p : Int) (q : Nat) :
    List (Int × Nat) → List (Int × Nat)
  | [] => [(p, q)]
  | (x, v) :: rest =>
    if p = x then (x, v + q) :: rest
    else if before p x then (p, q) :: (x, v) :: rest
    else (x, v) :: aggAdd before p q rest

/-- `ReferenceOrderBook::get_depth_snapshot`: aggregate live quantities per
price at query time; every reported level has `order_count = 1` and the
snapshot's `sequence_number` keeps its default. -/
def ReferenceOrderBook.get_depth_snapshot (b : ReferenceOrderBook) (depth_levels : Nat)
    (ts : Nat) : DepthSnapshot :=
  let bid_map := b.orders_.foldl
    (fun m o =>
      if o.side = Side.buy ∧ 0 < o.remaining_quantity then
        aggAdd (fun x y => decide (y < x)) o.price o.remaining_quantity m
      else m) []
  let ask_map := b.orders_.foldl
    (fun m o =>
      if o.side = Side.sell ∧ 0 < o.remaining_quantity then
        aggAdd (fun x y => decide (x < y)) o.price o.remaining_quantity m
      else m) []
  { symbol := b.symbol_
    timestamp := ts
    bids := (bid_map.take depth_levels).map
      (fun e => { price := e.1, quantity := e.2, order_count := 1 })
    asks := (ask_map.take depth_levels).map
      (fun e => { price := e.1, quantity := e.2, order_count := 1 }) }

/-- `ResultCode` from `include/lob/types.hpp` (the codes the modelled paths
can produce). -/
inductive ResultCode
  | SUCCESS
  | REJECTED_INVALID_SYMBOL
  | REJECTED_INVALID_PRICE
  | REJECTED_INVALID_QUANTITY
  | REJECTED_ORDER_NOT_FOUND
deriving DecidableEq, Repr

/-- `SymbolConfig` from `include/lob/matching_engine.hpp`. -/
structure SymbolConfig where
  symbol : Symbol := []
  tick_size : Int := 1
  lot_size : Nat := 1
  min_quantity : Nat := 1
  stp_policy : STPPolicy := STPPolicy.cancelIncoming
deriving DecidableEq, Repr

/-- `SymbolConfig::is_valid`. -/
def SymbolConfig.is_valid (c : SymbolConfig) : Bool :=
  c.symbol ≠ [] && 0 < c.tick_size && 0 < c.lot_size && 0 < c.min_quantity

/-- `ReplaceRequest`: fields as read by `MatchingEngine::handle(ReplaceRequest)`
(`messages.hpp` itself is not among the provided sources; the shape is fully
determined by that use). -/
structure ReplaceRequest where
  order_id : Nat := 0
  symbol : Symbol := []
  new_price : Int := INVALID_PRICE
  new_quantity : Nat := 0
deriving DecidableEq, Repr

/-- `OrderReplacedEvent` from `include/lob/events.hpp`. -/
structure OrderReplacedEvent where
  old_order_id : Nat := 0
  new_order_id : Nat := 0
  symbol : Symbol := []
  new_price : Int := INVALID_PRICE
  new_quantity : Nat := 0
  timestamp : Nat := 0
  sequence_number : Nat := 0
deriving DecidableEq, Repr

/-- `OrderRejectedEvent` from `include/lob/events.hpp` (message string not
modelled). -/
structure OrderRejectedEvent where
  order_id : Nat := 0
  symbol : Symbol := []
  reason : ResultCode := ResultCode.SUCCESS
  timestamp : Nat := 0
  sequence_number : Nat := 0
deriving DecidableEq, Repr

/-- `OrderResponse`: the fields the replace path touches (`accepts` and
`cancels` are never written by `handle(ReplaceRequest)`). -/
structure OrderResponse where
  order_id : Nat := 0
  result : ResultCode := ResultCode.SUCCESS
  rejects : List OrderRejectedEvent := []
  replaces : List OrderReplacedEvent := []
  trades : List TradeEvent := []
deriving DecidableEq, Repr

/-- Symbol-keyed association-list lookup (`std::unordered_map` keyed by the
symbol string). -/
def lookupSym {α : Type} (s : Symbol) : List (Symbol × α) → Option α
  | [] => Option.none
  | (k, v) :: rest => if s = k then some v else lookupSym s rest

/-- Symbol-keyed association-list overwrite-or-append. -/
def upsertSym {α : Type} (s : Symbol) (v : α) : List (Symbol × α) → List (Symbol × α)
  | [] => [(s, v)]
  | (k, u) :: rest => if s = k then (k, v) :: rest else (k, u) :: upsertSym s v rest

/-- `MatchingEngine` state from `include/lob/matching_engine.hpp`, restricted
to the order-path state (event log, telemetry, trade tapes and listeners are
write-only sinks for the modelled claims). -/
structure MatchingEngine where
  symbol_configs_ : List (Symbol × SymbolConfig) := []
  order_books_ : List (Symbol × OrderBook) := []
  sequence_number_ : Nat := 0
deriving DecidableEq, Repr

/-- `MatchingEngine::has_symbol`. -/
def MatchingEngine.has_symbol (e : MatchingEngine) (s : Symbol) : Bool :=
  (lookupSym s e.symbol_configs_).isSome

/-- `MatchingEngine::add_symbol`. -/
def MatchingEngine.add_symbol (e : MatchingEngine) (c : SymbolConfig) :
    MatchingEngine × Bool :=
  if ¬ c.is_valid then (e, false)
  else if (lookupSym c.symbol e.symbol_configs_).isSome then (e, false)
  else
    ({ e with
        symbol_configs_ := upsertSym c.symbol c e.symbol_configs_
        order_books_ := upsertSym c.symbol (OrderBook.init c.symbol c.stp_policy) e.order_books_ },
      true)

/-- `MatchingEngine::validate_replace`. -/
def MatchingEngine.validate_replace (e : MatchingEngine) (req : ReplaceRequest) : ResultCode :=
  if ¬ e.has_symbol req.symbol then ResultCode.REJECTED_INVALID_SYMBOL
  else if req.new_price ≤ 0 then ResultCode.REJECTED_INVALID_PRICE
  else if req.new_quantity = 0 then ResultCode.REJECTED_INVALID_QUANTITY
  else ResultCode.SUCCESS

/-- `MatchingEngine::handle(const ReplaceRequest&)`.  On validation failure
only `result` is set (no rejection event is pushed on this path, unlike the
new-order and cancel paths).  On success the book is invoked and an
`OrderReplacedEvent` is emitted *unconditionally* — whether or not the order
id existed — with `++sequence_number_` stamps for the event and each trade.
The engine's steady-clock timestamp is the `ts` argument. -/
def MatchingEngine.handleReplace (e : MatchingEngine) (req : ReplaceRequest) (ts : Nat) :
    MatchingEngine × OrderResponse :=
  let v := e.validate_replace req
  if v ≠ ResultCode.SUCCESS then (e, { order_id := req.order_id, result := v })
  else
    let book := (lookupSym req.symbol e.order_books_).getD
      (OrderBook.init req.symbol STPPolicy.cancelIncoming)
    let r := book.replace_order req.order_id req.new_price req.new_quantity ts
    let seq1 := e.sequence_number_ + 1
    let ev : OrderReplacedEvent :=
      { old_order_id := req.order_id
        new_order_id := req.order_id
        symbol := req.symbol
        new_price := req.new_price
        new_quantity := req.new_quantity
        timestamp := ts
        sequence_number := seq1 }
    let stamped := r.2.enum.map (fun it => { it.2 with sequence_number := seq1 + 1 + it.1 })
    ({ e with
        order_books_ := upsertSym req.symbol r.1 e.order_books_
        sequence_number_ := seq1 + r.2.length },
      { order_id := req.order_id
        result := ResultCode.SUCCESS
        replaces := [ev]
        trades := stamped })

/-- Big-endian byte string of `v mod 2^(8n)` in `n` bytes: the wire image of
an `htons`/`htonl`/`htonll`-converted field of the packed header written on
the little-endian hosts the repository targets. -/
def beBytes : Nat → Nat → List Nat
  | 0, _ => []
  | n + 1, v => beBytes n (v / 256) ++ [v % 256]

/-- Big-endian byte-string value (`ntohs`/`ntohl`/`ntohll` of a packed
field). -/
def beVal (l : List Nat) : Nat :=
  l.foldl (fun a b => a * 256 + b % 256) 0

/-- The `int64_t → uint64_t` two's-complement conversion applied when the
price is passed through `htonll`. -/
def priceToU64 (p : Int) : Nat :=
  (p.emod (2 ^ 64)).toNat

/-- The `uint64_t → int64_t` two's-complement conversion applied when a
decoded price is stored back into `PriceLevel::price`. -/
def u64ToPrice (n : Nat) : Int :=
  if n < 2 ^ 63 then (n : Int) else (n : Int) - 2 ^ 64

/-- One 16-byte `BinaryPriceLevel` record of `DepthSnapshot::to_binary`. -/
def encodeLevel (lvl : PriceLevel) : List Nat :=
  beBytes 8 (priceToU64 lvl.price) ++ beBytes 8 lvl.quantity

/-- `DepthSnapshot::to_binary` (`src/binary_serializer.cpp`): 32-byte packed
big-endian header (magic `LOB1`, version 1, truncated `symbol_len`, reserved
0, `num_bids`, `num_asks`, timestamp, sequence number), then the raw symbol
bytes, the bid records, the ask records, and a zero placeholder CRC. -/
def DepthSnapshot.to_binary (s : DepthSnapshot) : List Nat :=
  beBytes 4 0x4C4F4231 ++ beBytes 2 1 ++ [s.symbol.length % 256] ++ [0] ++
  beBytes 4 s.bids.length ++ beBytes 4 s.asks.length ++
  beBytes 8 s.timestamp ++ beBytes 8 s.sequence_number ++
  s.symbol ++
  (s.bids.map encodeLevel).flatten ++ (s.asks.map encodeLevel).flatten ++
  [0, 0, 0, 0]

/-- The bounds-checked level-reading loop of `DepthSnapshot::from_binary`:
read 16-byte records until the requested count is reached or fewer than 16
bytes remain (`offset + sizeof(BinaryPriceLevel) > data.size()` break);
`order_count` is not stored in the format and is set to 0. -/
def readLevels : Nat → List Nat → List PriceLevel
  | 0, _ => []
  | n + 1, data =>
    if data.length < 16 then []
    else
      { price := u64ToPrice (beVal (data.take 8))
        quantity := beVal ((data.drop 8).take 8)
        order_count := 0 } :: readLevels n (data.drop 16)

/-- `DepthSnapshot::from_binary`: default snapshot on short data or a bad
magic (the version is *not* checked); then header fields at their packed
offsets, `symbol_len` bytes of symbol, and the two level loops, the ask loop
resuming at the offset where the bid loop stopped. -/
def DepthSnapshot.from_binary (data : List Nat) : DepthSnapshot :=
  if data.length < 32 then {}
  else if beVal (data.take 4) ≠ 0x4C4F4231 then {}
  else
    let symbol_len := data.getD 6 0
    let num_bids := beVal ((data.drop 8).take 4)
    let num_asks := beVal ((data.drop 12).take 4)
    let ts := beVal ((data.drop 16).take 8)
    let seq := beVal ((data.drop 24).take 8)
    let sym := (data.drop 32).take symbol_len
    let rest := data.drop (32 + symbol_len)
    let bids := readLevels num_bids rest
    let asks := readLevels num_asks (rest.drop (16 * bids.length))
    { symbol := sym, bids := bids, asks := asks, timestamp := ts, sequence_number := seq }

/-- Order literal in the style of the repository's tests (`remaining_quantity`
starts equal to `quantity`). -/
def mkOrder (id tr : Nat) (s : Side) (ty : OrderType) (p : Int) (q : Nat)
    (tif : TimeInForce) (ts : Nat) : Order :=
  { order_id := id, trader_id := tr, side := s, order_type := ty, price := p,
    quantity := q, remaining_quantity := q, time_in_force := tif, timestamp := ts }

/-- Total filled quantity of a trade list. -/
def sumFills (trades : List TradeEvent) : Nat :=
  (trades.map (fun t => t.quantity)).sum

/-- The opposing side. -/
def opposite : Side → Side
  | Side.buy => Side.sell
  | Side.sell => Side.buy

/-- Number of queue entries holding `id` across a ladder. -/
def ladderOcc (id : Nat) (L : Ladder) : Nat :=
  (L.map (fun e => e.2.orders_.count id)).sum

/-- Ladder sorted by `std::greater` (bids: strictly descending prices). -/
def sortedDesc (L : Ladder) : Prop :=
  L.Chain' (fun x y => y.1 < x.1)

/-- Ladder sorted by `std::less` (asks: strictly ascending prices). -/
def sortedAsc (L : Ladder) : Prop :=
  L.Chain' (fun x y => x.1 < y.1)

/-- Executable check for `sortedDesc`. -/
def sortedDescB : Ladder → Bool
  | [] => true
  | [_] => true
  | x :: y :: rest => (decide (y.1 < x.1)) && sortedDescB (y :: rest)

/-- Executable check for `sortedAsc`. -/
def sortedAscB : Ladder → Bool
  | [] => true
  | [_] => true
  | x :: y :: rest => (decide (x.1 < y.1)) && sortedAscB (y :: rest)

instance sortedDescDecidable (L : Ladder) : Decidable (sortedDesc L) :=
  decidable_of_iff (sortedDescB L = true) (by
    induction L with
    | nil => simp [sortedDescB, sortedDesc]
    | cons x rest ih =>
      cases rest with
      | nil => simp [sortedDescB, sortedDesc]
      | cons y rest2 =>
        rw [show sortedDescB (x :: y :: rest2) =
            ((decide (y.1 < x.1)) && sortedDescB (y :: rest2)) from rfl]
        rw [Bool.and_eq_true, decide_eq_true_eq, ih]
        unfold sortedDesc
        exact Iff.intro (fun h => List.chain'_cons.mpr h) (fun h => List.chain'_cons.mp h))

instance sortedAscDecidable (L : Ladder) : Decidable (sortedAsc L) :=
  decidable_of_iff (sortedAscB L = true) (by
    induction L with
    | nil => simp [sortedAscB, sortedAsc]
    | cons x rest ih =>
      cases rest with
      | nil => simp [sortedAscB, sortedAsc]
      | cons y rest2 =>
        rw [show sortedAscB (x :: y :: rest2) =
            ((decide (x.1 < y.1)) && sortedAscB (y :: rest2)) from rfl]
        rw [Bool.and_eq_true, decide_eq_true_eq, ih]
        unfold sortedAsc
        exact Iff.intro (fun h => List.chain'_cons.mpr h) (fun h => List.chain'_cons.mp h))

/-- Every bid price is strictly below every ask price (the non-crossed-book
invariant, stated for all levels, not just the heads). -/
def allCross (b : OrderBook) : Prop :=
  ∀ p ∈ b.bids_.map Prod.fst, ∀ q ∈ b.asks_.map Prod.fst, p < q

/-- Well-formedness of the order book's object graph, the invariants §3 of
the specification lists for the book: unique index keys, key = stored id,
sorted ladders, every queue reference live on the matching side and price
with positive remainder, every index entry referenced by exactly one queue
slot, and the book not crossed. -/
structure BookWF (b : OrderBook) : Prop where
  keys_nodup : (b.orders_.map Prod.fst).Nodup
  keyed : ∀ e ∈ b.orders_, e.2.order_id = e.1
  bids_sorted : sortedDesc b.bids_
  asks_sorted : sortedAsc b.asks_
  bids_live : ∀ e ∈ b.bids_, ∀ id ∈ e.2.orders_,
    ∃ o, lookupId id b.orders_ = some o ∧ o.side = Side.buy ∧ o.price = e.1 ∧
      0 < o.remaining_quantity
  asks_live : ∀ e ∈ b.asks_, ∀ id ∈ e.2.orders_,
    ∃ o, lookupId id b.orders_ = some o ∧ o.side = Side.sell ∧ o.price = e.1 ∧
      0 < o.remaining_quantity
  occ_one : ∀ id, (lookupId id b.orders_).isSome →
    ladderOcc id b.bids_ + ladderOcc id b.asks_ = 1
  cross_ok : allCross b

/-- The part of `BookWF` the matching loop manipulates, phrased over the
loop's working state: `own` is the incoming side's (untouched) ladder,
`acc.opp` the opposing ladder being consumed. -/
structure AccWF (ownSide : Side) (own : Ladder) (acc : MatchAcc) : Prop where
  keys_nodup : (acc.index.map Prod.fst).Nodup
  keyed : ∀ e ∈ acc.index, e.2.order_id = e.1
  own_live : ∀ e ∈ own, ∀ id ∈ e.2.orders_,
    ∃ o, lookupId id acc.index = some o ∧ o.side = ownSide ∧ o.price = e.1 ∧
      0 < o.remaining_quantity
  opp_live : ∀ e ∈ acc.opp, ∀ id ∈ e.2.orders_,
    ∃ o, lookupId id acc.index = some o ∧ o.side = opposite ownSide ∧ o.price = e.1 ∧
      0 < o.remaining_quantity
  occ_one : ∀ id, (lookupId id acc.index).isSome →
    ladderOcc id own + ladderOcc id acc.opp = 1

/-- A request against one book: the three mutating `OrderBook` operations. -/
inductive BookOp
  | add (o : Order) (ts : Nat)
  | cancel (id : Nat)
  | replace (id : Nat) (new_price : Int) (new_quantity : Nat) (ts : Nat)

/-- Apply one operation to the book. -/
def applyOp (b : OrderBook) : BookOp → OrderBook
  | BookOp.add o ts => (b.add_order o ts).1
  | BookOp.cancel id => (b.cancel_order id).1
  | BookOp.replace id p q ts => (b.replace_order id p q ts).1

/-- Apply a request stream left to right. -/
def applyOps (b : OrderBook) (ops : List BookOp) : OrderBook :=
  ops.foldl applyOp b

/-- Legality of one request: a new order must carry an id that is not
currently resident (the data model's ids-identify-orders assumption; claim
C10 is about what happens without it). -/
def opFresh (b : OrderBook) : BookOp → Prop
  | BookOp.add o _ => lookupId o.order_id b.orders_ = Option.none
  | BookOp.cancel _ => True
  | BookOp.replace _ _ _ _ => True

/-- A legal request stream: every order id is fresh at its submission. -/
def StreamOK (b : OrderBook) : List BookOp → Prop
  | [] => True
  | op :: ops => opFresh b op ∧ StreamOK (applyOp b op) ops

/-- The FIFO queue resident at price `p` of a ladder (empty if no level). -/
def queueAt (L : Ladder) (p : Int) : List Nat :=
  ((ladderFind p L).getD {}).orders_

/-- The (trade id, price, quantity, aggressive id, passive id, aggressor
side) tuple of §8's cross-engine law. -/
def tradeTuple (t : TradeEvent) : Nat × Int × Nat × Nat × Nat × Side :=
  (t.trade_id, t.price, t.quantity, t.aggressive_order_id, t.passive_order_id, t.aggressor_side)

-- Allow definitional unfolding of the two well-founded recursive matching
-- loops, so concrete runs of the books evaluate inside the kernel.
unseal matchLoop refMatchLoop

/-! ### Step equations for the matching loop

One lemma per control path of `matchLoop`, used by every induction below. -/

theorem matchLoop_rem0 (sym : Symbol) (stp : STPPolicy) (ts : Nat) (ord : Order)
    (acc : MatchAcc) (h : ord.remaining_quantity = 0) :
    matchLoop sym stp ts ord acc = (acc, ord, []) := by
  rw [matchLoop]
  simp [h]

theorem matchLoop_oppEmpty (sym : Symbol) (stp : STPPolicy) (ts : Nat) (ord : Order)
    (acc : MatchAcc) (h0 : ¬ ord.remaining_quantity = 0) (hopp : acc.opp = []) :
    matchLoop sym stp ts ord acc = (acc, ord, []) := by
  rw [matchLoop]
  rw [if_neg h0]
  split
  next => rfl
  next p1 lvl1 rest1 heq => rw [hopp] at heq; exact absurd heq (by simp)

theorem matchLoop_crossExit (sym : Symbol) (stp : STPPolicy) (ts : Nat) (ord : Order)
    (acc : MatchAcc) (p : Int) (lvl : PriceLevelQueue) (restLevels : Ladder)
    (h0 : ¬ ord.remaining_quantity = 0)
    (hopp : acc.opp = (p, lvl) :: restLevels)
    (hc : ord.order_type = OrderType.limit ∧ crossFails ord p = true) :
    matchLoop sym stp ts ord acc = (acc, ord, []) := by
  rw [matchLoop]
  rw [if_neg h0]
  split
  next heq => exact absurd (hopp ▸ heq) (by simp)
  next p1 lvl1 rest1 heq =>
    rw [hopp] at heq
    injection heq with hhd htl
    injection hhd with hp hlvl
    subst hp; subst hlvl; subst htl
    rw [if_pos hc]

theorem matchLoop_emptyLevel (sym : Symbol) (stp : STPPolicy) (ts : Nat) (ord : Order)
    (acc : MatchAcc) (p : Int) (lvl : PriceLevelQueue) (restLevels : Ladder)
    (h0 : ¬ ord.remaining_quantity = 0)
    (hopp : acc.opp = (p, lvl) :: restLevels)
    (hnc : ¬ (ord.order_type = OrderType.limit ∧ crossFails ord p = true))
    (hq : lvl.orders_ = []) :
    matchLoop sym stp ts ord acc = matchLoop sym stp ts ord { acc with opp := restLevels } := by
  conv_lhs => rw [matchLoop]
  rw [if_neg h0]
  split
  next heq => exact absurd (hopp ▸ heq) (by simp)
  next p1 lvl1 rest1 heq =>
    rw [hopp] at heq
    injection heq with hhd htl
    injection hhd with hp hlvl
    subst hp; subst hlvl; subst htl
    rw [if_neg hnc]
    split
    next => rfl
    next oid qrest heq2 => rw [hq] at heq2; exact absurd heq2 (by simp)

theorem matchLoop_staleRef (sym : Symbol) (stp : STPPolicy) (ts : Nat) (ord : Order)
    (acc : MatchAcc) (p : Int) (lvl : PriceLevelQueue) (restLevels : Ladder)
    (oid : Nat) (qrest : List Nat)
    (h0 : ¬ ord.remaining_quantity = 0)
    (hopp : acc.opp = (p, lvl) :: restLevels)
    (hnc : ¬ (ord.order_type = OrderType.limit ∧ crossFails ord p = true))
    (hq : lvl.orders_ = oid :: qrest)
    (hlk : lookupId oid acc.index = Option.none) :
    matchLoop sym stp ts ord acc =
      matchLoop sym stp ts ord
        { acc with opp := (p, { lvl with orders_ := qrest }) :: restLevels } := by
  conv_lhs => rw [matchLoop]
  rw [if_neg h0]
  split
  next heq => exact absurd (hopp ▸ heq) (by simp)
  next p1 lvl1 rest1 heq =>
    rw [hopp] at heq
    injection heq with hhd htl
    injection hhd with hp hlvl
    subst hp; subst hlvl; subst htl
    rw [if_neg hnc]
    split
    next heq2 => exact absurd (hq ▸ heq2) (by simp)
    next oid1 qrest1 heq2 =>
      rw [hq] at heq2
      injection heq2 with hh ht
      subst hh; subst ht
      rw [hlk]

theorem matchLoop_stpIncoming (sym : Symbol) (ts : Nat) (ord : Order)
    (acc : MatchAcc) (p : Int) (lvl : PriceLevelQueue) (restLevels : Ladder)
    (oid : Nat) (qrest : List Nat) (resting : Order)
    (h0 : ¬ ord.remaining_quantity = 0)
    (hopp : acc.opp = (p, lvl) :: restLevels)
    (hnc : ¬ (ord.order_type = OrderType.limit ∧ crossFails ord p = true))
    (hq : lvl.orders_ = oid :: qrest)
    (hlk : lookupId oid acc.index = some resting)
    (hst : would_self_trade STPPolicy.cancelIncoming ord resting = true) :
    matchLoop sym STPPolicy.cancelIncoming ts ord acc =
      (acc, { ord with remaining_quantity := 0 }, []) := by
  rw [matchLoop]
  rw [if_neg h0]
  split
  next heq => exact absurd (hopp ▸ heq) (by simp)
  next p1 lvl1 rest1 heq =>
    rw [hopp] at heq
    injection heq with hhd htl
    injection hhd with hp hlvl
    subst hp; subst hlvl; subst htl
    rw [if_neg hnc]
    split
    next heq2 => exact absurd (hq ▸ heq2) (by simp)
    next oid1 qrest1 heq2 =>
      rw [hq] at heq2
      injection heq2 with hh ht
      subst hh; subst ht
      rw [hlk]
      simp only [hst, if_true]

theorem matchLoop_stpRestingSane (sym : Symbol) (ts : Nat) (ord : Order)
    (acc : MatchAcc) (p : Int) (lvl : PriceLevelQueue) (restLevels : Ladder)
    (oid : Nat) (qrest : List Nat) (resting : Order)
    (h0 : ¬ ord.remaining_quantity = 0)
    (hopp : acc.opp = (p, lvl) :: restLevels)
    (hnc : ¬ (ord.order_type = OrderType.limit ∧ crossFails ord p = true))
    (hq : lvl.orders_ = oid :: qrest)
    (hlk : lookupId oid acc.index = some resting)
    (hst : would_self_trade STPPolicy.cancelResting ord resting = true)
    (hg : resting.order_id = oid ∧ resting.side ≠ ord.side ∧ resting.price = p) :
    matchLoop sym STPPolicy.cancelResting ts ord acc =
      matchLoop sym STPPolicy.cancelResting ts ord
        { acc with
            opp := if (lvl.remove_order resting).orders_ = [] then restLevels
              else (p, lvl.remove_order resting) :: restLevels
            index := eraseId resting.order_id acc.index } := by
  conv_lhs => rw [matchLoop]
  rw [if_neg h0]
  split
  next heq => exact absurd (hopp ▸ heq) (by simp)
  next p1 lvl1 rest1 heq =>
    rw [hopp] at heq
    injection heq with hhd htl
    injection hhd with hp hlvl
    subst hp; subst hlvl; subst htl
    rw [if_neg hnc]
    split
    next heq2 => exact absurd (hq ▸ heq2) (by simp)
    next oid1 qrest1 heq2 =>
      rw [hq] at heq2
      injection heq2 with hh ht
      subst hh; subst ht
      rw [hlk]
      simp only [hst, if_true]
      rw [if_pos hg]

theorem matchLoop_stpRestingCorrupt (sym : Symbol) (ts : Nat) (ord : Order)
    (acc : MatchAcc) (p : Int) (lvl : PriceLevelQueue) (restLevels : Ladder)
    (oid : Nat) (qrest : List Nat) (resting : Order)
    (h0 : ¬ ord.remaining_quantity = 0)
    (hopp : acc.opp = (p, lvl) :: restLevels)
    (hnc : ¬ (ord.order_type = OrderType.limit ∧ crossFails ord p = true))
    (hq : lvl.orders_ = oid :: qrest)
    (hlk : lookupId oid acc.index = some resting)
    (hst : would_self_trade STPPolicy.cancelResting ord resting = true)
    (hg : ¬ (resting.order_id = oid ∧ resting.side ≠ ord.side ∧ resting.price = p)) :
    matchLoop sym STPPolicy.cancelResting ts ord acc = (acc, ord, []) := by
  rw [matchLoop]
  rw [if_neg h0]
  split
  next heq => exact absurd (hopp ▸ heq) (by simp)
  next p1 lvl1 rest1 heq =>
    rw [hopp] at heq
    injection heq with hhd htl
    injection hhd with hp hlvl
    subst hp; subst hlvl; subst htl
    rw [if_neg hnc]
    split
    next heq2 => exact absurd (hq ▸ heq2) (by simp)
    next oid1 qrest1 heq2 =>
      rw [hq] at heq2
      injection heq2 with hh ht
      subst hh; subst ht
      rw [hlk]
      simp only [hst, if_true]
      rw [if_neg hg]

theorem matchLoop_stpBothSane (sym : Symbol) (ts : Nat) (ord : Order)
    (acc : MatchAcc) (p : Int) (lvl : PriceLevelQueue) (restLevels : Ladder)
    (oid : Nat) (qrest : List Nat) (resting : Order)
    (h0 : ¬ ord.remaining_quantity = 0)
    (hopp : acc.opp = (p, lvl) :: restLevels)
    (hnc : ¬ (ord.order_type = OrderType.limit ∧ crossFails ord p = true))
    (hq : lvl.orders_ = oid :: qrest)
    (hlk : lookupId oid acc.index = some resting)
    (hst : would_self_trade STPPolicy.cancelBoth ord resting = true)
    (hg : resting.order_id = oid ∧ resting.side ≠ ord.side ∧ resting.price = p) :
    matchLoop sym STPPolicy.cancelBoth ts ord acc =
      ({ acc with
          opp := if (lvl.remove_order resting).orders_ = [] then restLevels
            else (p, lvl.remove_order resting) :: restLevels
          index := eraseId resting.order_id acc.index },
        { ord with remaining_quantity := 0 }, []) := by
  rw [matchLoop]
  rw [if_neg h0]
  split
  next heq => exact absurd (hopp ▸ heq) (by simp)
  next p1 lvl1 rest1 heq =>
    rw [hopp] at heq
    injection heq with hhd htl
    injection hhd with hp hlvl
    subst hp; subst hlvl; subst htl
    rw [if_neg hnc]
    split
    next heq2 => exact absurd (hq ▸ heq2) (by simp)
    next oid1 qrest1 heq2 =>
      rw [hq] at heq2
      injection heq2 with hh ht
      subst hh; subst ht
      rw [hlk]
      simp only [hst, if_true]
      rw [if_pos hg]

theorem matchLoop_stpBothCorrupt (sym : Symbol) (ts : Nat) (ord : Order)
    (acc : MatchAcc) (p : Int) (lvl : PriceLevelQueue) (restLevels : Ladder)
    (oid : Nat) (qrest : List Nat) (resting : Order)
    (h0 : ¬ ord.remaining_quantity = 0)
    (hopp : acc.opp = (p, lvl) :: restLevels)
    (hnc : ¬ (ord.order_type = OrderType.limit ∧ crossFails ord p = true))
    (hq : lvl.orders_ = oid :: qrest)
    (hlk : lookupId oid acc.index = some resting)
    (hst : would_self_trade STPPolicy.cancelBoth ord resting = true)
    (hg : ¬ (resting.order_id = oid ∧ resting.side ≠ ord.side ∧ resting.price = p)) :
    matchLoop sym STPPolicy.cancelBoth ts ord acc =
      (acc, { ord with remaining_quantity := 0 }, []) := by
  rw [matchLoop]
  rw [if_neg h0]
  split
  next heq => exact absurd (hopp ▸ heq) (by simp)
  next p1 lvl1 rest1 heq =>
    rw [hopp] at heq
    injection heq with hhd htl
    injection hhd with hp hlvl
    subst hp; subst hlvl; subst htl
    rw [if_neg hnc]
    split
    next heq2 => exact absurd (hq ▸ heq2) (by simp)
    next oid1 qrest1 heq2 =>
      rw [hq] at heq2
      injection heq2 with hh ht
      subst hh; subst ht
      rw [hlk]
      simp only [hst, if_true]
      rw [if_neg hg]

theorem matchLoop_fill (sym : Symbol) (stp : STPPolicy) (ts : Nat) (ord : Order)
    (acc : MatchAcc) (p : Int) (lvl : PriceLevelQueue) (restLevels : Ladder)
    (oid : Nat) (qrest : List Nat) (resting : Order)
    (h0 : ¬ ord.remaining_quantity = 0)
    (hopp : acc.opp = (p, lvl) :: restLevels)
    (hnc : ¬ (ord.order_type = OrderType.limit ∧ crossFails ord p = true))
    (hq : lvl.orders_ = oid :: qrest)
    (hlk : lookupId oid acc.index = some resting)
    (hst : ¬ would_self_trade stp ord resting = true) :
    matchLoop sym stp ts ord acc =
      (let trade_qty := min ord.remaining_quantity resting.remaining_quantity
      let trade := create_trade sym acc ord resting trade_qty p ts
      let ord' := { ord with remaining_quantity := ord.remaining_quantity - trade_qty }
      let resting' := { resting with remaining_quantity := resting.remaining_quantity - trade_qty }
      let acc1 := { acc with
          index := upsertId oid resting' acc.index
          next_trade_id_ := acc.next_trade_id_ + 1
          trade_count_ := acc.trade_count_ + 1
          total_volume_ := acc.total_volume_ + trade_qty }
      if resting'.remaining_quantity = 0 then
        let lvl' := { lvl with orders_ := qrest }
        let acc2 := { acc1 with
            opp := (p, lvl') :: restLevels
            index := eraseId resting.order_id acc1.index }
        if ord'.remaining_quantity = 0 then
          let accOut := if lvl'.orders_ = [] then { acc2 with opp := restLevels } else acc2
          (accOut, ord', [trade])
        else
          let r := matchLoop sym stp ts ord' acc2
          (r.1, r.2.1, trade :: r.2.2)
      else (acc1, ord', [trade])) := by
  conv_lhs => rw [matchLoop]
  rw [if_neg h0]
  split
  next heq => exact absurd (hopp ▸ heq) (by simp)
  next p1 lvl1 rest1 heq =>
    rw [hopp] at heq
    injection heq with hhd htl
    injection hhd with hp hlvl
    subst hp; subst hlvl; subst htl
    rw [if_neg hnc]
    split
    next heq2 => exact absurd (hq ▸ heq2) (by simp)
    next oid1 qrest1 heq2 =>
      rw [hq] at heq2
      injection heq2 with hh ht
      subst hh; subst ht
      rw [hlk]
      rw [Bool.not_eq_true] at hst
      simp only [hst, Bool.false_eq_true, if_false]

/-! ### Association-list library -/

theorem lookupId_upsertId_self (id : Nat) (o : Order) (l : List (Nat × Order)) :
    lookupId id (upsertId id o l) = some o := by
  induction l with
  | nil => simp [upsertId, lookupId]
  | cons e rest ih =>
    by_cases h : id = e.1
    · simp [upsertId, lookupId, h]
    · simp [upsertId, lookupId, h, ih]

theorem lookupId_upsertId_ne (id id' : Nat) (o : Order) (l : List (Nat × Order))
    (h : id ≠ id') :
    lookupId id (upsertId id' o l) = lookupId id l := by
  induction l with
  | nil => simp [upsertId, lookupId, h]
  | cons e rest ih =>
    by_cases h1 : id' = e.1
    · subst h1
      simp [upsertId, lookupId, h, ih]
    · by_cases h2 : id = e.1
      · simp [upsertId, lookupId, h1, h2]
      · simp [upsertId, lookupId, h1, h2, ih]

theorem lookupId_eraseId_ne (id id' : Nat) (l : List (Nat × Order)) (h : id ≠ id') :
    lookupId id (eraseId id' l) = lookupId id l := by
  induction l with
  | nil => simp [eraseId]
  | cons e rest ih =>
    by_cases h1 : id' = e.1
    · subst h1
      simp [eraseId, lookupId, h, ih]
    · by_cases h2 : id = e.1
      · simp [eraseId, lookupId, h1, h2]
      · simp [eraseId, lookupId, h1, h2, ih]

theorem lookupId_mem {id : Nat} {o : Order} {l : List (Nat × Order)}
    (h : lookupId id l = some o) : (id, o) ∈ l := by
  induction l with
  | nil => simp [lookupId] at h
  | cons e rest ih =>
    obtain ⟨k, v⟩ := e
    by_cases h1 : id = k
    · subst h1
      simp only [lookupId, if_pos rfl] at h
      injection h with h
      subst h
      exact List.mem_cons_self _ _
    · simp only [lookupId, if_neg h1] at h
      exact List.mem_cons_of_mem _ (ih h)

theorem lookupId_eraseId_self {id : Nat} {l : List (Nat × Order)}
    (h : (l.map Prod.fst).Nodup) :
    lookupId id (eraseId id l) = Option.none := by
  induction l with
  | nil => simp [eraseId, lookupId]
  | cons e rest ih =>
    obtain ⟨k, v⟩ := e
    simp only [List.map_cons, List.nodup_cons] at h
    by_cases h1 : id = k
    · subst h1
      simp only [eraseId, if_pos rfl]
      cases hlk : lookupId id rest with
      | none => exact hlk
      | some o =>
        exact absurd (List.mem_map_of_mem Prod.fst (lookupId_mem hlk)) (by simpa using h.1)
    · simp [eraseId, lookupId, h1, ih h.2]

theorem keys_upsertId_present (id : Nat) (o : Order) (l : List (Nat × Order))
    (h : (lookupId id l).isSome) :
    (upsertId id o l).map Prod.fst = l.map Prod.fst := by
  induction l with
  | nil => simp [lookupId] at h
  | cons e rest ih =>
    by_cases h1 : id = e.1
    · simp [upsertId, h1]
    · simp only [lookupId, if_neg h1] at h
      simp [upsertId, h1, ih h]

theorem keys_eraseId_sublist (id : Nat) (l : List (Nat × Order)) :
    List.Sublist ((eraseId id l).map Prod.fst) (l.map Prod.fst) := by
  induction l with
  | nil => simp [eraseId]
  | cons e rest ih =>
    by_cases h1 : id = e.1
    · simp only [eraseId, if_pos h1, List.map_cons]
      exact (List.sublist_cons_self _ _)
    · simp only [eraseId, if_neg h1, List.map_cons]
      exact ih.cons₂ _

theorem keyed_upsertId {l : List (Nat × Order)} {id : Nat} {o : Order}
    (h : ∀ e ∈ l, e.2.order_id = e.1) (ho : o.order_id = id) :
    ∀ e ∈ upsertId id o l, e.2.order_id = e.1 := by
  induction l with
  | nil =>
    intro e he
    simp only [upsertId, List.mem_singleton] at he
    subst he
    exact ho
  | cons x rest ih =>
    intro e he
    by_cases h1 : id = x.1
    · simp only [upsertId, if_pos h1, List.mem_cons] at he
      rcases he with rfl | he
      · rw [ho, h1]
      · exact h e (List.mem_cons_of_mem _ he)
    · simp only [upsertId, if_neg h1, List.mem_cons] at he
      rcases he with rfl | he
      · exact h x (List.mem_cons_self _ _)
      · exact ih (fun y hy => h y (List.mem_cons_of_mem _ hy)) e he

theorem mem_eraseId {l : List (Nat × Order)} {id : Nat} {e : Nat × Order}
    (h : e ∈ eraseId id l) : e ∈ l := by
  induction l with
  | nil => simpa [eraseId] using h
  | cons x rest ih =>
    by_cases h1 : id = x.1
    · simp only [eraseId, if_pos h1] at h
      exact List.mem_cons_of_mem _ h
    · simp only [eraseId, if_neg h1, List.mem_cons] at h
      rcases h with rfl | h
      · exact List.mem_cons_self _ _
      · exact List.mem_cons_of_mem _ (ih h)

theorem keyed_eraseId {l : List (Nat × Order)} {id : Nat}
    (h : ∀ e ∈ l, e.2.order_id = e.1) :
    ∀ e ∈ eraseId id l, e.2.order_id = e.1 :=
  fun e he => h e (mem_eraseId he)

theorem keyed_resting {l : List (Nat × Order)} {oid : Nat} {o : Order}
    (h : ∀ e ∈ l, e.2.order_id = e.1) (hlk : lookupId oid l = some o) :
    o.order_id = oid :=
  h (oid, o) (lookupId_mem hlk)

/-! ### Occurrence counting and sorted-ladder toolkit -/

/-- Sortedness of a ladder is insensitive to the head level's queue. -/
theorem chain'_replace_head_level {R : Int → Int → Prop} {p : Int} {a b : PriceLevelQueue}
    {l : Ladder} (h : List.Chain' (fun x y => R x.1 y.1) ((p, a) :: l)) :
    List.Chain' (fun x y => R x.1 y.1) ((p, b) :: l) := by
  cases l with
  | nil => simp
  | cons e rest =>
    rw [List.chain'_cons] at h ⊢
    exact ⟨h.1, h.2⟩


theorem lookupId_eq_none_iff {id : Nat} {l : List (Nat × Order)} :
    lookupId id l = Option.none ↔ id ∉ l.map Prod.fst := by
  induction l with
  | nil => simp [lookupId]
  | cons e rest ih =>
    by_cases h1 : id = e.1
    · simp [lookupId, h1]
    · simp [lookupId, h1, ih]

theorem keys_upsertId_absent (id : Nat) (o : Order) (l : List (Nat × Order))
    (h : lookupId id l = Option.none) :
    (upsertId id o l).map Prod.fst = l.map Prod.fst ++ [id] := by
  induction l with
  | nil => simp [upsertId]
  | cons e rest ih =>
    by_cases h1 : id = e.1
    · rw [lookupId, if_pos h1] at h
      exact absurd h (by simp)
    · rw [lookupId, if_neg h1] at h
      simp [upsertId, h1, ih h]

theorem opposite_ne (s : Side) : opposite s ≠ s := by
  cases s <;> simp [opposite]

theorem ladderOcc_nil (id : Nat) : ladderOcc id [] = 0 := rfl

theorem ladderOcc_cons (id : Nat) (e : Int × PriceLevelQueue) (L : Ladder) :
    ladderOcc id (e :: L) = e.2.orders_.count id + ladderOcc id L := by
  simp [ladderOcc]

theorem ladderOcc_eq_zero_iff {id : Nat} {L : Ladder} :
    ladderOcc id L = 0 ↔ ∀ e ∈ L, id ∉ e.2.orders_ := by
  induction L with
  | nil => simp [ladderOcc_nil]
  | cons e rest ih =>
    rw [ladderOcc_cons]
    simp [Nat.add_eq_zero, List.count_eq_zero, ih]

theorem ladderOcc_pos {id : Nat} {L : Ladder} {e : Int × PriceLevelQueue}
    (he : e ∈ L) (hid : id ∈ e.2.orders_) : 0 < ladderOcc id L := by
  rcases Nat.eq_zero_or_pos (ladderOcc id L) with h | h
  · exact absurd hid (ladderOcc_eq_zero_iff.mp h e he)
  · exact h

/-- Strictly ascending price levels carry pairwise distinct prices. -/
theorem sortedAsc_fst_nodup (L : Ladder) (h : sortedAsc L) : (L.map Prod.fst).Nodup := by
  have hc : (L.map Prod.fst).Chain' (fun a b => a < b) := (List.chain'_map Prod.fst).mpr h
  have hp := (@List.chain'_iff_pairwise Int (fun a b => a < b)
    ⟨fun a c d h1 h2 => lt_trans h1 h2⟩ (L.map Prod.fst)).mp hc
  exact hp.imp (fun h12 => ne_of_lt h12)

/-- Strictly descending price levels carry pairwise distinct prices. -/
theorem sortedDesc_fst_nodup (L : Ladder) (h : sortedDesc L) : (L.map Prod.fst).Nodup := by
  have hc : (L.map Prod.fst).Chain' (fun a b => b < a) := (List.chain'_map Prod.fst).mpr h
  have hp := (@List.chain'_iff_pairwise Int (fun a b => b < a)
    ⟨fun a c d h1 h2 => lt_trans h2 h1⟩ (L.map Prod.fst)).mp hc
  exact hp.imp (fun h12 => ne_of_gt h12)

theorem sortedAsc_of_keys_sublist {L1 L2 : Ladder}
    (h : List.Sublist (L1.map Prod.fst) (L2.map Prod.fst)) (hs : sortedAsc L2) :
    sortedAsc L1 := by
  have h2 : (L2.map Prod.fst).Chain' (fun a b => a < b) := (List.chain'_map Prod.fst).mpr hs
  have hp2 := (@List.chain'_iff_pairwise Int (fun a b => a < b)
    ⟨fun a c d h1 h2 => lt_trans h1 h2⟩ (L2.map Prod.fst)).mp h2
  exact (List.chain'_map Prod.fst).mp (hp2.sublist h).chain'

theorem sortedDesc_of_keys_sublist {L1 L2 : Ladder}
    (h : List.Sublist (L1.map Prod.fst) (L2.map Prod.fst)) (hs : sortedDesc L2) :
    sortedDesc L1 := by
  have h2 : (L2.map Prod.fst).Chain' (fun a b => b < a) := (List.chain'_map Prod.fst).mpr hs
  have hp2 := (@List.chain'_iff_pairwise Int (fun a b => b < a)
    ⟨fun a c d h1 h2 => lt_trans h2 h1⟩ (L2.map Prod.fst)).mp h2
  exact (List.chain'_map Prod.fst).mp (hp2.sublist h).chain'

theorem sortedAsc_head_le {p0 : Int} {lvl0 : PriceLevelQueue} {rest : Ladder}
    (hs : sortedAsc ((p0, lvl0) :: rest)) :
    ∀ q ∈ ((p0, lvl0) :: rest).map Prod.fst, p0 ≤ q := by
  have h2 : ((((p0, lvl0) :: rest)).map Prod.fst).Chain' (fun a b => a < b) :=
    (List.chain'_map Prod.fst).mpr hs
  have hp := (@List.chain'_iff_pairwise Int (fun a b => a < b)
    ⟨fun a c d h1 h2 => lt_trans h1 h2⟩ _).mp h2
  simp only [List.map_cons] at hp
  intro q hq
  simp only [List.map_cons, List.mem_cons] at hq
  rcases hq with rfl | hmem
  · exact le_refl q
  · exact le_of_lt ((List.pairwise_cons.mp hp).1 q hmem)

theorem sortedDesc_head_ge {p0 : Int} {lvl0 : PriceLevelQueue} {rest : Ladder}
    (hs : sortedDesc ((p0, lvl0) :: rest)) :
    ∀ q ∈ ((p0, lvl0) :: rest).map Prod.fst, q ≤ p0 := by
  have h2 : ((((p0, lvl0) :: rest)).map Prod.fst).Chain' (fun a b => b < a) :=
    (List.chain'_map Prod.fst).mpr hs
  have hp := (@List.chain'_iff_pairwise Int (fun a b => b < a)
    ⟨fun a c d h1 h2 => lt_trans h2 h1⟩ _).mp h2
  simp only [List.map_cons] at hp
  intro q hq
  simp only [List.map_cons, List.mem_cons] at hq
  rcases hq with rfl | hmem
  · exact le_refl q
  · exact le_of_lt ((List.pairwise_cons.mp hp).1 q hmem)

theorem ladderAdd_keys_cases (before : Int → Int → Bool) (o : Order) (L : Ladder) :
    ∀ q ∈ (ladderAdd before o L).map Prod.fst, q = o.price ∨ q ∈ L.map Prod.fst := by
  induction L with
  | nil =>
    intro q hq
    simp only [ladderAdd, List.map_cons, List.map_nil, List.mem_singleton] at hq
    exact Or.inl hq
  | cons e rest ih =>
    intro q hq
    by_cases h1 : o.price = e.1
    · rw [ladderAdd, if_pos h1] at hq
      simp only [List.map_cons, List.mem_cons] at hq ⊢
      rcases hq with rfl | h
      · exact Or.inr (Or.inl rfl)
      · exact Or.inr (Or.inr h)
    · by_cases h2 : before o.price e.1
      · rw [ladderAdd, if_neg h1, if_pos h2] at hq
        simp only [List.map_cons, List.mem_cons] at hq ⊢
        rcases hq with rfl | hq
        · exact Or.inl rfl
        · rcases hq with rfl | h
          · exact Or.inr (Or.inl rfl)
          · exact Or.inr (Or.inr h)
      · rw [ladderAdd, if_neg h1, if_neg h2] at hq
        simp only [List.map_cons, List.mem_cons] at hq ⊢
        rcases hq with rfl | hq
        · exact Or.inr (Or.inl rfl)
        · rcases ih q hq with h | h
          · exact Or.inl h
          · exact Or.inr (Or.inr h)

theorem ladderAdd_chain' (R : Int → Int → Prop) (before : Int → Int → Bool)
    (hbt : ∀ a b, before a b = true → R a b)
    (hbf : ∀ a b, before a b = false → a ≠ b → R b a)
    (o : Order) (L : Ladder) (hs : L.Chain' (fun x y => R x.1 y.1)) :
    (ladderAdd before o L).Chain' (fun x y => R x.1 y.1) := by
  induction L with
  | nil => simp [ladderAdd]
  | cons e rest ih =>
    by_cases h1 : o.price = e.1
    · rw [ladderAdd, if_pos h1]
      rcases e with ⟨q0, lvl0⟩
      exact chain'_replace_head_level hs
    · by_cases h2 : before o.price e.1
      · rw [ladderAdd, if_neg h1, if_pos h2]
        exact List.chain'_cons.mpr ⟨hbt _ _ h2, hs⟩
      · rw [ladderAdd, if_neg h1, if_neg h2]
        have hre : R e.1 o.price :=
          hbf _ _ (Bool.of_not_eq_true h2) h1
        have htail := ih (List.chain'_cons'.mp hs).2
        refine List.chain'_cons'.mpr ⟨?_, htail⟩
        intro y hy
        cases rest with
        | nil =>
          simp only [ladderAdd, List.head?_cons, Option.mem_def, Option.some.injEq] at hy
          rw [← hy]
          exact hre
        | cons f rest2 =>
          by_cases h3 : o.price = f.1
          · rw [ladderAdd, if_pos h3, List.head?_cons, Option.mem_def,
              Option.some.injEq] at hy
            have := (List.chain'_cons.mp hs).1
            rw [← hy]
            exact h3 ▸ this
          · by_cases h4 : before o.price f.1
            · rw [ladderAdd, if_neg h3, if_pos h4, List.head?_cons, Option.mem_def,
                Option.some.injEq] at hy
              rw [← hy]
              exact hre
            · rw [ladderAdd, if_neg h3, if_neg h4, List.head?_cons, Option.mem_def,
                Option.some.injEq] at hy
              have := (List.chain'_cons.mp hs).1
              rw [← hy]
              exact this

theorem ladderOcc_ladderAdd (before : Int → Int → Bool) (o : Order) (L : Ladder) (id : Nat) :
    ladderOcc id (ladderAdd before o L) =
      ladderOcc id L + (if id = o.order_id then 1 else 0) := by
  induction L with
  | nil =>
    rw [show ladderAdd before o [] = [(o.price, PriceLevelQueue.add_order {} o)] from rfl]
    rw [ladderOcc_cons, ladderOcc_nil]
    simp only [PriceLevelQueue.add_order, List.nil_append, List.count_singleton']
    by_cases h : id = o.order_id
    · rw [if_pos h.symm, if_pos h]
    · rw [if_neg (fun hh => h hh.symm), if_neg h]
  | cons e rest ih =>
    by_cases h1 : o.price = e.1
    · rw [ladderAdd, if_pos h1]
      rw [ladderOcc_cons, ladderOcc_cons]
      simp only [PriceLevelQueue.add_order, List.count_append, List.count_singleton']
      by_cases h : id = o.order_id
      · rw [if_pos h.symm, if_pos h]
        omega
      · rw [if_neg (fun hh => h hh.symm), if_neg h]
        omega
    · by_cases h2 : before o.price e.1
      · rw [ladderAdd, if_neg h1, if_pos h2]
        simp only [ladderOcc_cons]
        simp only [PriceLevelQueue.add_order, List.nil_append, List.count_singleton']
        by_cases h : id = o.order_id
        · rw [if_pos h.symm, if_pos h]
          omega
        · rw [if_neg (fun hh => h hh.symm), if_neg h]
          omega
      · rw [ladderAdd, if_neg h1, if_neg h2]
        rw [ladderOcc_cons, ladderOcc_cons, ih]
        simp only [Prod.mk.eta]
        omega

theorem ladderAdd_ref_cases (before : Int → Int → Bool) (o : Order) (L : Ladder) :
    ∀ e ∈ ladderAdd before o L, ∀ id ∈ e.2.orders_,
      (id = o.order_id ∧ e.1 = o.price) ∨ ∃ f ∈ L, f.1 = e.1 ∧ id ∈ f.2.orders_ := by
  induction L with
  | nil =>
    intro e he id hid
    simp only [ladderAdd, List.mem_singleton] at he
    subst he
    simp only [PriceLevelQueue.add_order, List.nil_append, List.mem_singleton] at hid
    exact Or.inl ⟨hid, rfl⟩
  | cons f rest ih =>
    intro e he id hid
    by_cases h1 : o.price = f.1
    · rw [ladderAdd, if_pos h1] at he
      rcases List.mem_cons.mp he with rfl | he2
      · simp only [PriceLevelQueue.add_order, List.mem_append, List.mem_singleton] at hid
        rcases hid with h | rfl
        · exact Or.inr ⟨f, List.mem_cons_self _ _, rfl, h⟩
        · exact Or.inl ⟨rfl, h1.symm⟩
      · exact Or.inr ⟨e, List.mem_cons_of_mem _ he2, rfl, hid⟩
    · by_cases h2 : before o.price f.1
      · rw [ladderAdd, if_neg h1, if_pos h2] at he
        rcases List.mem_cons.mp he with rfl | he2
        · simp only [PriceLevelQueue.add_order, List.nil_append, List.mem_singleton] at hid
          exact Or.inl ⟨hid, rfl⟩
        · exact Or.inr ⟨e, he2, rfl, hid⟩
      · rw [ladderAdd, if_neg h1, if_neg h2] at he
        rcases List.mem_cons.mp he with rfl | he2
        · exact Or.inr ⟨f, List.mem_cons_self _ _, rfl, hid⟩
        · rcases ih e he2 id hid with h | ⟨g, hg, hge, hgid⟩
          · exact Or.inl h
          · exact Or.inr ⟨g, List.mem_cons_of_mem _ hg, hge, hgid⟩

theorem remove_order_mem {lvl : PriceLevelQueue} {o : Order} {id : Nat}
    (h : id ∈ (lvl.remove_order o).orders_) : id ∈ lvl.orders_ := by
  unfold PriceLevelQueue.remove_order at h
  by_cases hm : o.order_id ∈ lvl.orders_
  · rw [if_pos hm] at h
    exact List.mem_of_mem_erase h
  · rwa [if_neg hm] at h

theorem ladderOcc_cons' (id : Nat) (q : Int) (lvl : PriceLevelQueue) (L : Ladder) :
    ladderOcc id ((q, lvl) :: L) = lvl.orders_.count id + ladderOcc id L := by
  simp [ladderOcc]

theorem ladderRemove_keys_sublist (o : Order) (L : Ladder) :
    List.Sublist ((ladderRemove o L).map Prod.fst) (L.map Prod.fst) := by
  induction L with
  | nil => simp [ladderRemove]
  | cons e rest ih =>
    rcases e with ⟨q, lvl⟩
    by_cases h1 : o.price = q
    · rw [ladderRemove, if_pos h1]
      dsimp only
      by_cases h2 : (lvl.remove_order o).orders_ = []
      · rw [if_pos h2]
        exact (List.sublist_cons_self _ _)
      · rw [if_neg h2]
        simp only [List.map_cons]
        exact List.Sublist.refl _
    · rw [ladderRemove, if_neg h1]
      simp only [List.map_cons]
      exact ih.cons₂ _

theorem ladderRemove_ref_cases (o : Order) (L : Ladder) :
    ∀ e ∈ ladderRemove o L, ∀ id ∈ e.2.orders_, ∃ f ∈ L, f.1 = e.1 ∧ id ∈ f.2.orders_ := by
  induction L with
  | nil => simp [ladderRemove]
  | cons g rest ih =>
    rcases g with ⟨q, lvl⟩
    intro e he id hid
    by_cases h1 : o.price = q
    · rw [ladderRemove, if_pos h1] at he
      dsimp only at he
      by_cases h2 : (lvl.remove_order o).orders_ = []
      · rw [if_pos h2] at he
        exact ⟨e, List.mem_cons_of_mem _ he, rfl, hid⟩
      · rw [if_neg h2] at he
        rcases List.mem_cons.mp he with rfl | he2
        · exact ⟨(q, lvl), List.mem_cons_self _ _, rfl, remove_order_mem hid⟩
        · exact ⟨e, List.mem_cons_of_mem _ he2, rfl, hid⟩
    · rw [ladderRemove, if_neg h1] at he
      rcases List.mem_cons.mp he with rfl | he2
      · exact ⟨(q, lvl), List.mem_cons_self _ _, rfl, hid⟩
      · rcases ih e he2 id hid with ⟨f, hf, hfe, hfid⟩
        exact ⟨f, List.mem_cons_of_mem _ hf, hfe, hfid⟩

theorem ladderOcc_ladderRemove_ne {o : Order} {L : Ladder} {id : Nat}
    (hne : id ≠ o.order_id) :
    ladderOcc id (ladderRemove o L) = ladderOcc id L := by
  induction L with
  | nil => simp [ladderRemove]
  | cons e rest ih =>
    rcases e with ⟨q, lvl⟩
    by_cases h1 : o.price = q
    · rw [ladderRemove, if_pos h1]
      dsimp only
      have hcnt : (lvl.remove_order o).orders_.count id = lvl.orders_.count id := by
        unfold PriceLevelQueue.remove_order
        by_cases hm : o.order_id ∈ lvl.orders_
        · rw [if_pos hm]
          exact List.count_erase_of_ne hne _
        · rw [if_neg hm]
      by_cases h2 : (lvl.remove_order o).orders_ = []
      · rw [if_pos h2]
        rw [h2] at hcnt
        simp only [List.count_nil] at hcnt
        rw [ladderOcc_cons', ← hcnt]
        omega
      · rw [if_neg h2]
        rw [ladderOcc_cons', ladderOcc_cons', hcnt]
    · rw [ladderRemove, if_neg h1]
      rw [ladderOcc_cons', ladderOcc_cons', ih]

theorem ladderRemove_occ_zero {o : Order} {L : Ladder}
    (hnd : (L.map Prod.fst).Nodup)
    (hocc : ladderOcc o.order_id L = 1)
    (hone : ∀ e ∈ L, o.order_id ∈ e.2.orders_ → e.1 = o.price) :
    ladderOcc o.order_id (ladderRemove o L) = 0 := by
  induction L with
  | nil => simp [ladderOcc_nil] at hocc
  | cons e rest ih =>
    rcases e with ⟨q, lvl⟩
    rw [ladderOcc_cons'] at hocc
    simp only [List.map_cons, List.nodup_cons] at hnd
    by_cases h1 : o.price = q
    · rw [ladderRemove, if_pos h1]
      dsimp only
      have hrest : ladderOcc o.order_id rest = 0 := by
        rcases Nat.eq_zero_or_pos (ladderOcc o.order_id rest) with h | h
        · exact h
        · exfalso
          have hne : ¬ ∀ e ∈ rest, o.order_id ∉ e.2.orders_ := by
            intro hall
            rw [← ladderOcc_eq_zero_iff] at hall
            omega
          push_neg at hne
          obtain ⟨f, hf, hmem⟩ := hne
          have hfp : f.1 = o.price := hone f (List.mem_cons_of_mem _ hf) hmem
          refine hnd.1 ?_
          rw [← h1, ← hfp]
          exact List.mem_map_of_mem Prod.fst hf
      have hcl : lvl.orders_.count o.order_id = 1 := by omega
      have hm : o.order_id ∈ lvl.orders_ := by
        rw [← List.count_pos_iff, hcl]
        omega
      have hcnt : (lvl.remove_order o).orders_.count o.order_id = 0 := by
        unfold PriceLevelQueue.remove_order
        rw [if_pos hm]
        rw [List.count_erase_self, hcl]
      by_cases h2 : (lvl.remove_order o).orders_ = []
      · rw [if_pos h2]
        exact hrest
      · rw [if_neg h2]
        rw [ladderOcc_cons', hcnt, hrest]
    · rw [ladderRemove, if_neg h1]
      have hcl : lvl.orders_.count o.order_id = 0 := by
        rw [List.count_eq_zero]
        intro hmem
        exact h1 ((hone (q, lvl) (List.mem_cons_self _ _) hmem)).symm
      rw [ladderOcc_cons', hcl]
      rw [hcl] at hocc
      have := ih hnd.2 (by omega)
        (fun f hf hm => hone f (List.mem_cons_of_mem _ hf) hm)
      omega

/-! ### `AccWF` step helpers: the three ways the loop rewrites its state -/

/-- Dropping a head level whose queue is empty preserves the loop invariant. -/
theorem accWF_drop_head {s : Side} {own : Ladder} {acc acc' : MatchAcc} {p : Int}
    {lvl : PriceLevelQueue} {restLevels : Ladder}
    (hwf : AccWF s own acc) (hopp : acc.opp = (p, lvl) :: restLevels)
    (hq : lvl.orders_ = []) (hopp' : acc'.opp = restLevels) (hidx : acc'.index = acc.index) :
    AccWF s own acc' := by
  refine ⟨?_, ?_, ?_, ?_, ?_⟩
  · rw [hidx]; exact hwf.keys_nodup
  · rw [hidx]; exact hwf.keyed
  · rw [hidx]; exact hwf.own_live
  · rw [hopp', hidx]
    intro e he id hid
    exact hwf.opp_live e (by rw [hopp]; exact List.mem_cons_of_mem _ he) id hid
  · rw [hopp', hidx]
    intro id hs2
    have := hwf.occ_one id hs2
    rw [hopp, ladderOcc_cons', hq] at this
    simpa using this

/-- Popping the (live) front reference of the head level and deleting its
index entry preserves the loop invariant; the head level may carry any new
queue equal to the tail, and the index any list with the erased lookup
behaviour. -/
theorem accWF_pop {s : Side} {own : Ladder} {acc acc' : MatchAcc} {p : Int}
    {lvl lvl2 : PriceLevelQueue} {restLevels : Ladder} {oid : Nat} {qrest : List Nat}
    {resting : Order}
    (hwf : AccWF s own acc) (hopp : acc.opp = (p, lvl) :: restLevels)
    (hq : lvl.orders_ = oid :: qrest) (hlk : lookupId oid acc.index = some resting)
    (hq2 : lvl2.orders_ = qrest)
    (hopp' : acc'.opp = (p, lvl2) :: restLevels)
    (hlk' : ∀ id, id ≠ oid → lookupId id acc'.index = lookupId id acc.index)
    (hlk0 : lookupId oid acc'.index = Option.none)
    (hnd' : (acc'.index.map Prod.fst).Nodup)
    (hkey' : ∀ e ∈ acc'.index, e.2.order_id = e.1) :
    AccWF s own acc' := by
  have hocc1 : ladderOcc oid own + ladderOcc oid acc.opp = 1 :=
    hwf.occ_one oid (by rw [hlk]; rfl)
  have hfront : oid ∈ lvl.orders_ := by rw [hq]; exact List.mem_cons_self _ _
  have hocc_opp : 0 < ladderOcc oid acc.opp :=
    ladderOcc_pos (by rw [hopp]; exact List.mem_cons_self _ _) hfront
  have hown0 : ladderOcc oid own = 0 := by omega
  have hcnt1 : lvl.orders_.count oid + ladderOcc oid restLevels = 1 := by
    have h2 : ladderOcc oid acc.opp = lvl.orders_.count oid + ladderOcc oid restLevels := by
      rw [hopp, ladderOcc_cons']
    omega
  have hqcnt : qrest.count oid = 0 ∧ ladderOcc oid restLevels = 0 := by
    rw [hq] at hcnt1
    simp only [List.count_cons_self] at hcnt1
    constructor <;> omega
  obtain ⟨hqc0, hrl0⟩ := hqcnt
  refine ⟨hnd', hkey', ?_, ?_, ?_⟩
  · -- own side: no reference can be the popped id
    intro e he id hid
    have hne : id ≠ oid := by
      intro h
      subst h
      exact absurd (ladderOcc_pos he hid) (by omega)
    rw [hlk' id hne]
    exact hwf.own_live e he id hid
  · -- opposing side: surviving references are unchanged and still live
    rw [hopp']
    intro e he id hid
    rcases List.mem_cons.mp he with rfl | hrest
    · have hidq : id ∈ qrest := by
        have h2 : id ∈ lvl2.orders_ := hid
        rwa [hq2] at h2
      have hne : id ≠ oid := by
        intro hcontr
        subst hcontr
        rw [← List.count_pos_iff] at hidq
        omega
      rw [hlk' id hne]
      exact hwf.opp_live (p, lvl) (by rw [hopp]; exact List.mem_cons_self _ _) id
        (by rw [hq]; exact List.mem_cons_of_mem _ hidq)
    · have hne : id ≠ oid := by
        intro hcontr
        subst hcontr
        exact absurd (ladderOcc_pos hrest hid) (by omega)
      rw [hlk' id hne]
      exact hwf.opp_live e (by rw [hopp]; exact List.mem_cons_of_mem _ hrest) id hid
  · -- occurrence uniqueness
    intro id hs2
    by_cases hne : id = oid
    · subst hne
      rw [hlk0] at hs2
      exact absurd hs2 (by simp)
    · rw [hlk' id hne] at hs2
      have hold := hwf.occ_one id hs2
      rw [hopp, ladderOcc_cons', hq] at hold
      rw [hopp', ladderOcc_cons', hq2]
      rw [List.count_cons_of_ne hne] at hold
      exact hold

/-- Popping a dead front reference (no index entry) preserves the loop
invariant. -/
theorem accWF_pop_dead {s : Side} {own : Ladder} {acc acc' : MatchAcc} {p : Int}
    {lvl lvl2 : PriceLevelQueue} {restLevels : Ladder} {oid : Nat} {qrest : List Nat}
    (hwf : AccWF s own acc) (hopp : acc.opp = (p, lvl) :: restLevels)
    (hq : lvl.orders_ = oid :: qrest) (hdead : lookupId oid acc.index = Option.none)
    (hq2 : lvl2.orders_ = qrest)
    (hopp' : acc'.opp = (p, lvl2) :: restLevels)
    (hidx : acc'.index = acc.index) :
    AccWF s own acc' := by
  refine ⟨?_, ?_, ?_, ?_, ?_⟩
  · rw [hidx]; exact hwf.keys_nodup
  · rw [hidx]; exact hwf.keyed
  · rw [hidx]; exact hwf.own_live
  · rw [hopp', hidx]
    intro e he id hid
    rcases List.mem_cons.mp he with rfl | hrest
    · have hidq : id ∈ qrest := by
        have h2 : id ∈ lvl2.orders_ := hid
        rwa [hq2] at h2
      exact hwf.opp_live (p, lvl) (by rw [hopp]; exact List.mem_cons_self _ _) id
        (by rw [hq]; exact List.mem_cons_of_mem _ hidq)
    · exact hwf.opp_live e (by rw [hopp]; exact List.mem_cons_of_mem _ hrest) id hid
  · rw [hopp', hidx]
    intro id hs2
    have hne : id ≠ oid := by
      intro hcontr
      subst hcontr
      rw [hdead] at hs2
      exact absurd hs2 (by simp)
    have hold := hwf.occ_one id hs2
    rw [hopp, ladderOcc_cons', hq] at hold
    rw [ladderOcc_cons', hq2]
    rw [List.count_cons_of_ne hne] at hold
    exact hold

/-- Rewriting the head resting order's index entry in place (same id, side
and price, still positive remainder) preserves the loop invariant. -/
theorem accWF_upsert_front {s : Side} {own : Ladder} {acc acc' : MatchAcc} {p : Int}
    {lvl : PriceLevelQueue} {restLevels : Ladder} {oid : Nat} {qrest : List Nat}
    {resting resting' : Order}
    (hwf : AccWF s own acc) (hopp : acc.opp = (p, lvl) :: restLevels)
    (hq : lvl.orders_ = oid :: qrest) (hlk : lookupId oid acc.index = some resting)
    (hopp' : acc'.opp = acc.opp)
    (hidx : acc'.index = upsertId oid resting' acc.index)
    (hid' : resting'.order_id = resting.order_id)
    (hside' : resting'.side = resting.side)
    (hprice' : resting'.price = resting.price)
    (hrem' : 0 < resting'.remaining_quantity) :
    AccWF s own acc' := by
  have hocc1 : ladderOcc oid own + ladderOcc oid acc.opp = 1 :=
    hwf.occ_one oid (by rw [hlk]; rfl)
  have hfront : oid ∈ lvl.orders_ := by rw [hq]; exact List.mem_cons_self _ _
  have hocc_opp : 0 < ladderOcc oid acc.opp :=
    ladderOcc_pos (by rw [hopp]; exact List.mem_cons_self _ _) hfront
  have hkeys : (acc'.index.map Prod.fst) = acc.index.map Prod.fst := by
    rw [hidx]
    exact keys_upsertId_present _ _ _ (by rw [hlk]; rfl)
  have hrid : resting.order_id = oid := keyed_resting hwf.keyed hlk
  refine ⟨?_, ?_, ?_, ?_, ?_⟩
  · rw [hkeys]; exact hwf.keys_nodup
  · rw [hidx]
    exact keyed_upsertId hwf.keyed (by rw [hid', hrid])
  · intro e he id hid
    have hne : id ≠ oid := by
      intro h
      subst h
      exact absurd (ladderOcc_pos he hid) (by omega)
    rw [hidx, lookupId_upsertId_ne _ _ _ _ hne]
    exact hwf.own_live e he id hid
  · rw [hopp']
    intro e he id hid
    by_cases hne : id = oid
    · subst hne
      obtain ⟨o, hlko, hsid, hpr, _⟩ := hwf.opp_live e he id hid
      rw [hlko] at hlk
      injection hlk with hlk
      subst hlk
      refine ⟨resting', ?_, ?_, ?_, hrem'⟩
      · rw [hidx]; exact lookupId_upsertId_self _ _ _
      · rw [hside']; exact hsid
      · rw [hprice']; exact hpr
    · obtain ⟨o, hlko, hsid, hpr, hq0⟩ := hwf.opp_live e he id hid
      refine ⟨o, ?_, hsid, hpr, hq0⟩
      rw [hidx, lookupId_upsertId_ne _ _ _ _ hne]
      exact hlko
  · intro id hs2
    rw [hopp']
    have hsome : (lookupId id acc.index).isSome := by
      by_cases hne : id = oid
      · subst hne; rw [hlk]; rfl
      · rw [hidx, lookupId_upsertId_ne _ _ _ _ hne] at hs2; exact hs2
    exact hwf.occ_one id hsome

theorem upsertSym_lookup_self {α : Type} {s : Symbol} {v : α} {l : List (Symbol × α)}
    (h : lookupSym s l = some v) : upsertSym s v l = l := by
  induction l with
  | nil => simp [lookupSym] at h
  | cons e rest ih =>
    by_cases h1 : s = e.1
    · rw [lookupSym, if_pos h1] at h
      injection h with h
      subst h
      rw [upsertSym, if_pos h1]
    · rw [lookupSym, if_neg h1] at h
      rw [upsertSym, if_neg h1, ih h]

/-! ### Shape of the incoming order through the loop

`matchLoop` only ever rewrites `remaining_quantity`; every other field of the
incoming order survives to the return. -/

theorem matchLoop_order_shape (sym : Symbol) (stp : STPPolicy) (ts : Nat) (ord : Order)
    (acc : MatchAcc) :
    (matchLoop sym stp ts ord acc).2.1 =
      { ord with remaining_quantity := (matchLoop sym stp ts ord acc).2.1.remaining_quantity } := by
  induction ord, acc using matchLoop.induct sym stp ts with
  | case1 ord acc h =>
    rw [matchLoop_rem0 sym stp ts ord acc h]
  | case2 ord acc h0 hopp =>
    rw [matchLoop_oppEmpty sym stp ts ord acc h0 hopp]
  | case3 ord acc h0 p lvl restLevels hopp hc =>
    rw [matchLoop_crossExit sym stp ts ord acc p lvl restLevels h0 hopp hc]
  | case4 ord acc h0 p lvl restLevels hopp hnc hq ih =>
    rw [matchLoop_emptyLevel sym stp ts ord acc p lvl restLevels h0 hopp hnc hq]
    exact ih
  | case5 ord acc h0 p lvl restLevels hopp hnc oid qrest hq hlk ih =>
    rw [matchLoop_staleRef sym stp ts ord acc p lvl restLevels oid qrest h0 hopp hnc hq hlk]
    exact ih
  | case6 ord acc h0 p lvl restLevels hopp hnc oid qrest hq resting hlk hst hpol =>
    subst hpol
    simp [would_self_trade] at hst
  | case7 ord acc h0 p lvl restLevels hopp hnc oid qrest hq resting hlk hst hpol =>
    subst hpol
    rw [matchLoop_stpIncoming sym ts ord acc p lvl restLevels oid qrest resting h0 hopp hnc hq hlk hst]
  | case8 ord acc h0 p lvl restLevels hopp hnc oid qrest hq resting hlk hst hpol hg ih =>
    subst hpol
    rw [matchLoop_stpRestingSane sym ts ord acc p lvl restLevels oid qrest resting h0 hopp hnc hq hlk hst hg]
    exact ih
  | case9 ord acc h0 p lvl restLevels hopp hnc oid qrest hq resting hlk hst hpol hg =>
    subst hpol
    rw [matchLoop_stpRestingCorrupt sym ts ord acc p lvl restLevels oid qrest resting h0 hopp hnc hq hlk hst hg]
  | case10 ord acc h0 p lvl restLevels hopp hnc oid qrest hq resting hlk hst hpol hg =>
    subst hpol
    rw [matchLoop_stpBothSane sym ts ord acc p lvl restLevels oid qrest resting h0 hopp hnc hq hlk hst hg]
  | case11 ord acc h0 p lvl restLevels hopp hnc oid qrest hq resting hlk hst hpol hg =>
    subst hpol
    rw [matchLoop_stpBothCorrupt sym ts ord acc p lvl restLevels oid qrest resting h0 hopp hnc hq hlk hst hg]
  | case12 ord acc h0 p lvl restLevels hopp hnc oid qrest hq resting hlk hst tq ord' resting' hres hord =>
    have hres2 :
        resting.remaining_quantity - min ord.remaining_quantity resting.remaining_quantity = 0 :=
      hres
    have hord2 :
        ord.remaining_quantity - min ord.remaining_quantity resting.remaining_quantity = 0 :=
      hord
    rw [matchLoop_fill sym stp ts ord acc p lvl restLevels oid qrest resting h0 hopp hnc hq hlk hst]
    dsimp only
    rw [if_pos hres2, if_pos hord2]
  | case13 ord acc h0 p lvl restLevels hopp hnc oid qrest hq resting hlk hst tq ord' resting' acc1 hres lvl' acc2 hord ih =>
    have hres2 :
        resting.remaining_quantity - min ord.remaining_quantity resting.remaining_quantity = 0 :=
      hres
    have hord2 :
        ¬ ord.remaining_quantity - min ord.remaining_quantity resting.remaining_quantity = 0 :=
      hord
    rw [matchLoop_fill sym stp ts ord acc p lvl restLevels oid qrest resting h0 hopp hnc hq hlk hst]
    dsimp only
    rw [if_pos hres2, if_neg hord2]
    exact ih
  | case14 ord acc h0 p lvl restLevels hopp hnc oid qrest hq resting hlk hst tq resting' hres =>
    have hres2 :
        ¬ resting.remaining_quantity - min ord.remaining_quantity resting.remaining_quantity = 0 :=
      hres
    rw [matchLoop_fill sym stp ts ord acc p lvl restLevels oid qrest resting h0 hopp hnc hq hlk hst]
    dsimp only
    rw [if_neg hres2]

/-! ### The loop only consumes: ladder and index keys never grow -/

theorem matchLoop_opp_keys (sym : Symbol) (stp : STPPolicy) (ts : Nat) (ord : Order)
    (acc : MatchAcc) :
    List.Sublist ((matchLoop sym stp ts ord acc).1.opp.map Prod.fst)
      (acc.opp.map Prod.fst) := by
  induction ord, acc using matchLoop.induct sym stp ts with
  | case1 ord acc h =>
    rw [matchLoop_rem0 sym stp ts ord acc h]
  | case2 ord acc h0 hopp =>
    rw [matchLoop_oppEmpty sym stp ts ord acc h0 hopp]
  | case3 ord acc h0 p lvl restLevels hopp hc =>
    rw [matchLoop_crossExit sym stp ts ord acc p lvl restLevels h0 hopp hc]
  | case4 ord acc h0 p lvl restLevels hopp hnc hq ih =>
    rw [matchLoop_emptyLevel sym stp ts ord acc p lvl restLevels h0 hopp hnc hq]
    rw [hopp]
    simp only [List.map_cons]
    refine List.Sublist.trans ?_ (List.sublist_cons_self _ _)
    simpa using ih
  | case5 ord acc h0 p lvl restLevels hopp hnc oid qrest hq hlk ih =>
    rw [matchLoop_staleRef sym stp ts ord acc p lvl restLevels oid qrest h0 hopp hnc hq hlk]
    rw [hopp]
    simpa using ih
  | case6 ord acc h0 p lvl restLevels hopp hnc oid qrest hq resting hlk hst hpol =>
    subst hpol
    simp [would_self_trade] at hst
  | case7 ord acc h0 p lvl restLevels hopp hnc oid qrest hq resting hlk hst hpol =>
    subst hpol
    rw [matchLoop_stpIncoming sym ts ord acc p lvl restLevels oid qrest resting h0 hopp hnc hq hlk hst]
  | case8 ord acc h0 p lvl restLevels hopp hnc oid qrest hq resting hlk hst hpol hg ih =>
    subst hpol
    rw [matchLoop_stpRestingSane sym ts ord acc p lvl restLevels oid qrest resting h0 hopp hnc hq hlk hst hg]
    rw [hopp]
    by_cases hemp : (lvl.remove_order resting).orders_ = []
    · rw [if_pos hemp]
      rw [dif_pos hemp] at ih
      simp only [List.map_cons]
      refine List.Sublist.trans ?_ (List.sublist_cons_self _ _)
      simpa using ih
    · rw [if_neg hemp]
      rw [dif_neg hemp] at ih
      simpa using ih
  | case9 ord acc h0 p lvl restLevels hopp hnc oid qrest hq resting hlk hst hpol hg =>
    subst hpol
    rw [matchLoop_stpRestingCorrupt sym ts ord acc p lvl restLevels oid qrest resting h0 hopp hnc hq hlk hst hg]
  | case10 ord acc h0 p lvl restLevels hopp hnc oid qrest hq resting hlk hst hpol hg =>
    subst hpol
    rw [matchLoop_stpBothSane sym ts ord acc p lvl restLevels oid qrest resting h0 hopp hnc hq hlk hst hg]
    rw [hopp]
    by_cases hemp : (lvl.remove_order resting).orders_ = []
    · rw [if_pos hemp]
      simp only [List.map_cons]
      exact (List.sublist_cons_self _ _)
    · rw [if_neg hemp]
      simp only [List.map_cons]
      exact List.Sublist.refl _
  | case11 ord acc h0 p lvl restLevels hopp hnc oid qrest hq resting hlk hst hpol hg =>
    subst hpol
    rw [matchLoop_stpBothCorrupt sym ts ord acc p lvl restLevels oid qrest resting h0 hopp hnc hq hlk hst hg]
  | case12 ord acc h0 p lvl restLevels hopp hnc oid qrest hq resting hlk hst tq ord' resting' hres hord =>
    have hres2 :
        resting.remaining_quantity - min ord.remaining_quantity resting.remaining_quantity = 0 :=
      hres
    have hord2 :
        ord.remaining_quantity - min ord.remaining_quantity resting.remaining_quantity = 0 :=
      hord
    rw [matchLoop_fill sym stp ts ord acc p lvl restLevels oid qrest resting h0 hopp hnc hq hlk hst]
    dsimp only
    rw [if_pos hres2, if_pos hord2]
    rw [hopp]
    by_cases hemp : qrest = []
    · rw [if_pos hemp]
      simp only [List.map_cons]
      exact (List.sublist_cons_self _ _)
    · rw [if_neg hemp]
      simp only [List.map_cons]
      exact List.Sublist.refl _
  | case13 ord acc h0 p lvl restLevels hopp hnc oid qrest hq resting hlk hst tq ord' resting' acc1 hres lvl' acc2 hord ih =>
    have hres2 :
        resting.remaining_quantity - min ord.remaining_quantity resting.remaining_quantity = 0 :=
      hres
    have hord2 :
        ¬ ord.remaining_quantity - min ord.remaining_quantity resting.remaining_quantity = 0 :=
      hord
    rw [matchLoop_fill sym stp ts ord acc p lvl restLevels oid qrest resting h0 hopp hnc hq hlk hst]
    dsimp only
    rw [if_pos hres2, if_neg hord2]
    rw [hopp]
    unfold_let lvl' ord' acc2 tq acc1 resting' at ih
    simpa using ih
  | case14 ord acc h0 p lvl restLevels hopp hnc oid qrest hq resting hlk hst tq resting' hres =>
    have hres2 :
        ¬ resting.remaining_quantity - min ord.remaining_quantity resting.remaining_quantity = 0 :=
      hres
    rw [matchLoop_fill sym stp ts ord acc p lvl restLevels oid qrest resting h0 hopp hnc hq hlk hst]
    dsimp only
    rw [if_neg hres2]

theorem matchLoop_index_keys (sym : Symbol) (stp : STPPolicy) (ts : Nat) (ord : Order)
    (acc : MatchAcc) :
    List.Sublist ((matchLoop sym stp ts ord acc).1.index.map Prod.fst)
      (acc.index.map Prod.fst) := by
  induction ord, acc using matchLoop.induct sym stp ts with
  | case1 ord acc h =>
    rw [matchLoop_rem0 sym stp ts ord acc h]
  | case2 ord acc h0 hopp =>
    rw [matchLoop_oppEmpty sym stp ts ord acc h0 hopp]
  | case3 ord acc h0 p lvl restLevels hopp hc =>
    rw [matchLoop_crossExit sym stp ts ord acc p lvl restLevels h0 hopp hc]
  | case4 ord acc h0 p lvl restLevels hopp hnc hq ih =>
    rw [matchLoop_emptyLevel sym stp ts ord acc p lvl restLevels h0 hopp hnc hq]
    simpa using ih
  | case5 ord acc h0 p lvl restLevels hopp hnc oid qrest hq hlk ih =>
    rw [matchLoop_staleRef sym stp ts ord acc p lvl restLevels oid qrest h0 hopp hnc hq hlk]
    simpa using ih
  | case6 ord acc h0 p lvl restLevels hopp hnc oid qrest hq resting hlk hst hpol =>
    subst hpol
    simp [would_self_trade] at hst
  | case7 ord acc h0 p lvl restLevels hopp hnc oid qrest hq resting hlk hst hpol =>
    subst hpol
    rw [matchLoop_stpIncoming sym ts ord acc p lvl restLevels oid qrest resting h0 hopp hnc hq hlk hst]
  | case8 ord acc h0 p lvl restLevels hopp hnc oid qrest hq resting hlk hst hpol hg ih =>
    subst hpol
    rw [matchLoop_stpRestingSane sym ts ord acc p lvl restLevels oid qrest resting h0 hopp hnc hq hlk hst hg]
    by_cases hemp : (lvl.remove_order resting).orders_ = []
    · rw [if_pos hemp]
      rw [dif_pos hemp] at ih
      refine List.Sublist.trans ?_ (keys_eraseId_sublist resting.order_id acc.index)
      simpa using ih
    · rw [if_neg hemp]
      rw [dif_neg hemp] at ih
      refine List.Sublist.trans ?_ (keys_eraseId_sublist resting.order_id acc.index)
      simpa using ih
  | case9 ord acc h0 p lvl restLevels hopp hnc oid qrest hq resting hlk hst hpol hg =>
    subst hpol
    rw [matchLoop_stpRestingCorrupt sym ts ord acc p lvl restLevels oid qrest resting h0 hopp hnc hq hlk hst hg]
  | case10 ord acc h0 p lvl restLevels hopp hnc oid qrest hq resting hlk hst hpol hg =>
    subst hpol
    rw [matchLoop_stpBothSane sym ts ord acc p lvl restLevels oid qrest resting h0 hopp hnc hq hlk hst hg]
    exact keys_eraseId_sublist _ _
  | case11 ord acc h0 p lvl restLevels hopp hnc oid qrest hq resting hlk hst hpol hg =>
    subst hpol
    rw [matchLoop_stpBothCorrupt sym ts ord acc p lvl restLevels oid qrest resting h0 hopp hnc hq hlk hst hg]
  | case12 ord acc h0 p lvl restLevels hopp hnc oid qrest hq resting hlk hst tq ord' resting' hres hord =>
    have hres2 :
        resting.remaining_quantity - min ord.remaining_quantity resting.remaining_quantity = 0 :=
      hres
    have hord2 :
        ord.remaining_quantity - min ord.remaining_quantity resting.remaining_quantity = 0 :=
      hord
    rw [matchLoop_fill sym stp ts ord acc p lvl restLevels oid qrest resting h0 hopp hnc hq hlk hst]
    dsimp only
    rw [if_pos hres2, if_pos hord2]
    have hkeys : ((upsertId oid
        { resting with remaining_quantity :=
            resting.remaining_quantity - min ord.remaining_quantity resting.remaining_quantity }
        acc.index).map Prod.fst) = acc.index.map Prod.fst :=
      keys_upsertId_present _ _ _ (by rw [hlk]; rfl)
    have h1 := keys_eraseId_sublist resting.order_id (upsertId oid
        { resting with remaining_quantity :=
            resting.remaining_quantity - min ord.remaining_quantity resting.remaining_quantity }
        acc.index)
    rw [hkeys] at h1
    by_cases hemp : qrest = []
    · rw [if_pos hemp]
      exact h1
    · rw [if_neg hemp]
      exact h1
  | case13 ord acc h0 p lvl restLevels hopp hnc oid qrest hq resting hlk hst tq ord' resting' acc1 hres lvl' acc2 hord ih =>
    have hres2 :
        resting.remaining_quantity - min ord.remaining_quantity resting.remaining_quantity = 0 :=
      hres
    have hord2 :
        ¬ ord.remaining_quantity - min ord.remaining_quantity resting.remaining_quantity = 0 :=
      hord
    rw [matchLoop_fill sym stp ts ord acc p lvl restLevels oid qrest resting h0 hopp hnc hq hlk hst]
    dsimp only
    rw [if_pos hres2, if_neg hord2]
    unfold_let lvl' ord' acc2 tq acc1 resting' at ih
    have hkeys : ((upsertId oid
        { resting with remaining_quantity :=
            resting.remaining_quantity - min ord.remaining_quantity resting.remaining_quantity }
        acc.index).map Prod.fst) = acc.index.map Prod.fst :=
      keys_upsertId_present _ _ _ (by rw [hlk]; rfl)
    have h1 := keys_eraseId_sublist resting.order_id (upsertId oid
        { resting with remaining_quantity :=
            resting.remaining_quantity - min ord.remaining_quantity resting.remaining_quantity }
        acc.index)
    rw [hkeys] at h1
    refine List.Sublist.trans ?_ h1
    simpa using ih
  | case14 ord acc h0 p lvl restLevels hopp hnc oid qrest hq resting hlk hst tq resting' hres =>
    have hres2 :
        ¬ resting.remaining_quantity - min ord.remaining_quantity resting.remaining_quantity = 0 :=
      hres
    rw [matchLoop_fill sym stp ts ord acc p lvl restLevels oid qrest resting h0 hopp hnc hq hlk hst]
    dsimp only
    rw [if_neg hres2]
    rw [keys_upsertId_present _ _ _ (by rw [hlk]; rfl)]

/-! ### Preservation of the loop invariant and the exit condition -/

/-- The master loop lemma: `matchLoop` preserves the working-state invariant,
and on return either the incoming order is exhausted, or the opposing ladder
is empty, or (LIMIT only) the best surviving opposing level fails the price
cross test. -/
theorem matchLoop_accWF (sym : Symbol) (stp : STPPolicy) (ts : Nat) (own : Ladder)
    (ord : Order) (acc : MatchAcc) (hwf : AccWF ord.side own acc) :
    AccWF ord.side own (matchLoop sym stp ts ord acc).1 ∧
    ((matchLoop sym stp ts ord acc).2.1.remaining_quantity = 0 ∨
      (matchLoop sym stp ts ord acc).1.opp = [] ∨
      (ord.order_type = OrderType.limit ∧ ∃ p2 lvl2 rest2,
        (matchLoop sym stp ts ord acc).1.opp = (p2, lvl2) :: rest2 ∧
        crossFails ord p2 = true)) := by
  induction ord, acc using matchLoop.induct sym stp ts with
  | case1 ord acc h =>
    rw [matchLoop_rem0 sym stp ts ord acc h]
    exact ⟨hwf, Or.inl h⟩
  | case2 ord acc h0 hopp =>
    rw [matchLoop_oppEmpty sym stp ts ord acc h0 hopp]
    exact ⟨hwf, Or.inr (Or.inl hopp)⟩
  | case3 ord acc h0 p lvl restLevels hopp hc =>
    rw [matchLoop_crossExit sym stp ts ord acc p lvl restLevels h0 hopp hc]
    exact ⟨hwf, Or.inr (Or.inr ⟨hc.1, p, lvl, restLevels, hopp, hc.2⟩)⟩
  | case4 ord acc h0 p lvl restLevels hopp hnc hq ih =>
    rw [matchLoop_emptyLevel sym stp ts ord acc p lvl restLevels h0 hopp hnc hq]
    exact ih (accWF_drop_head hwf hopp hq rfl rfl)
  | case5 ord acc h0 p lvl restLevels hopp hnc oid qrest hq hlk ih =>
    rw [matchLoop_staleRef sym stp ts ord acc p lvl restLevels oid qrest h0 hopp hnc hq hlk]
    exact ih (accWF_pop_dead hwf hopp hq hlk rfl rfl rfl)
  | case6 ord acc h0 p lvl restLevels hopp hnc oid qrest hq resting hlk hst hpol =>
    subst hpol
    simp [would_self_trade] at hst
  | case7 ord acc h0 p lvl restLevels hopp hnc oid qrest hq resting hlk hst hpol =>
    subst hpol
    rw [matchLoop_stpIncoming sym ts ord acc p lvl restLevels oid qrest resting h0 hopp hnc hq hlk hst]
    exact ⟨hwf, Or.inl rfl⟩
  | case8 ord acc h0 p lvl restLevels hopp hnc oid qrest hq resting hlk hst hpol hg ih =>
    subst hpol
    rw [matchLoop_stpRestingSane sym ts ord acc p lvl restLevels oid qrest resting h0 hopp hnc hq hlk hst hg]
    have hq2 : (lvl.remove_order resting).orders_ = qrest := by
      unfold PriceLevelQueue.remove_order
      rw [if_pos (by rw [hg.1, hq]; exact List.mem_cons_self _ _)]
      rw [hg.1, hq]
      exact List.erase_cons_head _ _
    have hpop : AccWF ord.side own
        { acc with
            opp := (p, lvl.remove_order resting) :: restLevels
            index := eraseId resting.order_id acc.index } := by
      rw [hg.1]
      exact accWF_pop hwf hopp hq hlk hq2 rfl
        (fun id hne => lookupId_eraseId_ne _ _ _ hne)
        (lookupId_eraseId_self hwf.keys_nodup)
        (hwf.keys_nodup.sublist (keys_eraseId_sublist _ _))
        (keyed_eraseId hwf.keyed)
    by_cases hemp : (lvl.remove_order resting).orders_ = []
    · rw [dif_pos hemp] at ih
      rw [if_pos hemp]
      exact ih (accWF_drop_head hpop rfl hemp rfl rfl)
    · rw [dif_neg hemp] at ih
      rw [if_neg hemp]
      exact ih hpop
  | case9 ord acc h0 p lvl restLevels hopp hnc oid qrest hq resting hlk hst hpol hg =>
    subst hpol
    obtain ⟨o, hlko, hsid, hpr, _⟩ := hwf.opp_live (p, lvl)
      (by rw [hopp]; exact List.mem_cons_self _ _) oid
      (by rw [hq]; exact List.mem_cons_self _ _)
    rw [hlko] at hlk
    injection hlk with hlk
    subst hlk
    refine absurd ⟨keyed_resting hwf.keyed hlko, ?_, hpr⟩ hg
    rw [hsid]
    exact opposite_ne ord.side
  | case10 ord acc h0 p lvl restLevels hopp hnc oid qrest hq resting hlk hst hpol hg =>
    subst hpol
    rw [matchLoop_stpBothSane sym ts ord acc p lvl restLevels oid qrest resting h0 hopp hnc hq hlk hst hg]
    have hq2 : (lvl.remove_order resting).orders_ = qrest := by
      unfold PriceLevelQueue.remove_order
      rw [if_pos (by rw [hg.1, hq]; exact List.mem_cons_self _ _)]
      rw [hg.1, hq]
      exact List.erase_cons_head _ _
    have hpop : AccWF ord.side own
        { acc with
            opp := (p, lvl.remove_order resting) :: restLevels
            index := eraseId resting.order_id acc.index } := by
      rw [hg.1]
      exact accWF_pop hwf hopp hq hlk hq2 rfl
        (fun id hne => lookupId_eraseId_ne _ _ _ hne)
        (lookupId_eraseId_self hwf.keys_nodup)
        (hwf.keys_nodup.sublist (keys_eraseId_sublist _ _))
        (keyed_eraseId hwf.keyed)
    by_cases hemp : (lvl.remove_order resting).orders_ = []
    · rw [if_pos hemp]
      exact ⟨accWF_drop_head hpop rfl hemp rfl rfl, Or.inl rfl⟩
    · rw [if_neg hemp]
      exact ⟨hpop, Or.inl rfl⟩
  | case11 ord acc h0 p lvl restLevels hopp hnc oid qrest hq resting hlk hst hpol hg =>
    subst hpol
    rw [matchLoop_stpBothCorrupt sym ts ord acc p lvl restLevels oid qrest resting h0 hopp hnc hq hlk hst hg]
    exact ⟨hwf, Or.inl rfl⟩
  | case12 ord acc h0 p lvl restLevels hopp hnc oid qrest hq resting hlk hst tq ord' resting' hres hord =>
    have hres2 :
        resting.remaining_quantity - min ord.remaining_quantity resting.remaining_quantity = 0 :=
      hres
    have hord2 :
        ord.remaining_quantity - min ord.remaining_quantity resting.remaining_quantity = 0 :=
      hord
    rw [matchLoop_fill sym stp ts ord acc p lvl restLevels oid qrest resting h0 hopp hnc hq hlk hst]
    dsimp only
    rw [if_pos hres2, if_pos hord2]
    have hrid : resting.order_id = oid := keyed_resting hwf.keyed hlk
    have hupk : ((upsertId oid
        { resting with remaining_quantity :=
            resting.remaining_quantity - min ord.remaining_quantity resting.remaining_quantity }
        acc.index).map Prod.fst) = acc.index.map Prod.fst :=
      keys_upsertId_present _ _ _ (by rw [hlk]; rfl)
    have hpop : AccWF ord.side own
        { acc with
            opp := (p, { lvl with orders_ := qrest }) :: restLevels
            index := eraseId resting.order_id (upsertId oid
              { resting with remaining_quantity := resting.remaining_quantity - min ord.remaining_quantity resting.remaining_quantity }
              acc.index)
            next_trade_id_ := acc.next_trade_id_ + 1
            trade_count_ := acc.trade_count_ + 1
            total_volume_ := acc.total_volume_ + min ord.remaining_quantity resting.remaining_quantity } := by
      rw [hrid]
      rw [hrid] at hupk
      refine accWF_pop hwf hopp hq hlk rfl rfl
        (fun id hne => ?_) ?_ ?_ ?_
      · rw [lookupId_eraseId_ne _ _ _ hne, lookupId_upsertId_ne _ _ _ _ hne]
      · refine lookupId_eraseId_self ?_
        rw [hupk]
        exact hwf.keys_nodup
      · refine List.Nodup.sublist (keys_eraseId_sublist _ _) ?_
        rw [hupk]
        exact hwf.keys_nodup
      · exact keyed_eraseId (keyed_upsertId hwf.keyed rfl)
    refine ⟨?_, Or.inl hord2⟩
    by_cases hemp : qrest = []
    · rw [if_pos hemp]
      exact accWF_drop_head hpop rfl hemp rfl rfl
    · rw [if_neg hemp]
      exact hpop
  | case13 ord acc h0 p lvl restLevels hopp hnc oid qrest hq resting hlk hst tq ord' resting' acc1 hres lvl' acc2 hord ih =>
    have hres2 :
        resting.remaining_quantity - min ord.remaining_quantity resting.remaining_quantity = 0 :=
      hres
    have hord2 :
        ¬ ord.remaining_quantity - min ord.remaining_quantity resting.remaining_quantity = 0 :=
      hord
    rw [matchLoop_fill sym stp ts ord acc p lvl restLevels oid qrest resting h0 hopp hnc hq hlk hst]
    dsimp only
    rw [if_pos hres2, if_neg hord2]
    unfold_let tq resting' ord' acc1 lvl' acc2 at ih
    dsimp only at ih
    have hrid : resting.order_id = oid := keyed_resting hwf.keyed hlk
    have hupk : ((upsertId oid
        { resting with remaining_quantity :=
            resting.remaining_quantity - min ord.remaining_quantity resting.remaining_quantity }
        acc.index).map Prod.fst) = acc.index.map Prod.fst :=
      keys_upsertId_present _ _ _ (by rw [hlk]; rfl)
    have hpop : AccWF ord.side own
        { acc with
            opp := (p, { lvl with orders_ := qrest }) :: restLevels
            index := eraseId resting.order_id (upsertId oid
              { resting with remaining_quantity := resting.remaining_quantity - min ord.remaining_quantity resting.remaining_quantity }
              acc.index)
            next_trade_id_ := acc.next_trade_id_ + 1
            trade_count_ := acc.trade_count_ + 1
            total_volume_ := acc.total_volume_ + min ord.remaining_quantity resting.remaining_quantity } := by
      rw [hrid]
      rw [hrid] at hupk
      refine accWF_pop hwf hopp hq hlk rfl rfl
        (fun id hne => ?_) ?_ ?_ ?_
      · rw [lookupId_eraseId_ne _ _ _ hne, lookupId_upsertId_ne _ _ _ _ hne]
      · refine lookupId_eraseId_self ?_
        rw [hupk]
        exact hwf.keys_nodup
      · refine List.Nodup.sublist (keys_eraseId_sublist _ _) ?_
        rw [hupk]
        exact hwf.keys_nodup
      · exact keyed_eraseId (keyed_upsertId hwf.keyed rfl)
    exact ih hpop
  | case14 ord acc h0 p lvl restLevels hopp hnc oid qrest hq resting hlk hst tq resting' hres =>
    have hres2 :
        ¬ resting.remaining_quantity - min ord.remaining_quantity resting.remaining_quantity = 0 :=
      hres
    rw [matchLoop_fill sym stp ts ord acc p lvl restLevels oid qrest resting h0 hopp hnc hq hlk hst]
    dsimp only
    rw [if_neg hres2]
    dsimp only
    have hrem : 0 < resting.remaining_quantity -
        min ord.remaining_quantity resting.remaining_quantity := by omega
    refine ⟨?_, Or.inl (by omega)⟩
    exact accWF_upsert_front hwf hopp hq hlk rfl rfl rfl rfl rfl hrem

/-! ### Book-level well-formedness: preservation by the three operations -/

theorem sortedDesc_ladderAdd {L : Ladder} (o : Order) (hs : sortedDesc L) :
    sortedDesc (ladderAdd (fun x y => decide (y < x)) o L) := by
  have h := ladderAdd_chain' (fun a b => b < a) (fun x y => decide (y < x))
    (fun a b hb => of_decide_eq_true hb)
    (fun a b hb hne => by
      have := of_decide_eq_false hb
      omega)
    o L hs
  exact h

theorem sortedAsc_ladderAdd {L : Ladder} (o : Order) (hs : sortedAsc L) :
    sortedAsc (ladderAdd (fun x y => decide (x < y)) o L) := by
  have h := ladderAdd_chain' (fun a b => a < b) (fun x y => decide (x < y))
    (fun a b hb => of_decide_eq_true hb)
    (fun a b hb hne => by
      have := of_decide_eq_false hb
      omega)
    o L hs
  exact h

theorem ladderOcc_zero_of_none {L : Ladder} {index : List (Nat × Order)} {id : Nat}
    (hres : ∀ e ∈ L, ∀ i ∈ e.2.orders_, (lookupId i index).isSome)
    (hnone : lookupId id index = Option.none) : ladderOcc id L = 0 := by
  rw [ladderOcc_eq_zero_iff]
  intro e he hid
  have h := hres e he id hid
  rw [hnone] at h
  exact absurd h (by simp)

theorem bookWF_init (sym : Symbol) (stp : STPPolicy) : BookWF (OrderBook.init sym stp) := by
  refine ⟨?_, ?_, ?_, ?_, ?_, ?_, ?_, ?_⟩ <;>
    simp [OrderBook.init, sortedDesc, sortedAsc, allCross, lookupId, ladderOcc_nil]

/-- `add_order` preserves book well-formedness, provided the incoming id is
not already indexed (the data model's ids-identify-orders assumption). -/
theorem bookWF_add (b : OrderBook) (o : Order) (ts : Nat) (hwf : BookWF b)
    (hfresh : lookupId o.order_id b.orders_ = Option.none) :
    BookWF (b.add_order o ts).1 := by
  unfold OrderBook.add_order OrderBook.add_order_full OrderBook.match_order
  dsimp only
  cases hside : o.side with
  | buy =>
    dsimp only
    have hacc : AccWF o.side b.bids_
        { opp := b.asks_, index := b.orders_, next_trade_id_ := b.next_trade_id_, trade_count_ := b.trade_count_, total_volume_ := b.total_volume_ } := by
      rw [hside]
      exact ⟨hwf.keys_nodup, hwf.keyed,
        fun e he id hid => hwf.bids_live e he id hid,
        fun e he id hid => hwf.asks_live e he id hid,
        fun id hs => hwf.occ_one id hs⟩
    obtain ⟨hwf1, hexit⟩ := matchLoop_accWF b.symbol_ b.stp_policy_ ts b.bids_ o _ hacc
    have hshape := matchLoop_order_shape b.symbol_ b.stp_policy_ ts o
      { opp := b.asks_, index := b.orders_, next_trade_id_ := b.next_trade_id_, trade_count_ := b.trade_count_, total_volume_ := b.total_volume_ }
    have hopk := matchLoop_opp_keys b.symbol_ b.stp_policy_ ts o
      { opp := b.asks_, index := b.orders_, next_trade_id_ := b.next_trade_id_, trade_count_ := b.trade_count_, total_volume_ := b.total_volume_ }
    have hidk := matchLoop_index_keys b.symbol_ b.stp_policy_ ts o
      { opp := b.asks_, index := b.orders_, next_trade_id_ := b.next_trade_id_, trade_count_ := b.trade_count_, total_volume_ := b.total_volume_ }
    dsimp only at hopk hidk
    set r := matchLoop b.symbol_ b.stp_policy_ ts o
      { opp := b.asks_, index := b.orders_, next_trade_id_ := b.next_trade_id_, trade_count_ := b.trade_count_, total_volume_ := b.total_volume_ } with hr
    have hsortedOpp : sortedAsc r.1.opp := sortedAsc_of_keys_sublist hopk hwf.asks_sorted
    have hfr1 : lookupId o.order_id r.1.index = Option.none := by
      rw [lookupId_eq_none_iff] at hfresh ⊢
      exact fun hmem => hfresh (hidk.subset hmem)
    have hB1 : BookWF { b with asks_ := r.1.opp, orders_ := r.1.index, next_trade_id_ := r.1.next_trade_id_, trade_count_ := r.1.trade_count_, total_volume_ := r.1.total_volume_ } := by
      refine ⟨hwf1.keys_nodup, hwf1.keyed, hwf.bids_sorted, hsortedOpp, ?_, ?_, ?_, ?_⟩
      · intro e he id hid
        obtain ⟨o2, h1, h2, h3, h4⟩ := hwf1.own_live e he id hid
        refine ⟨o2, h1, ?_, h3, h4⟩
        rw [← hside]
        exact h2
      · intro e he id hid
        obtain ⟨o2, h1, h2, h3, h4⟩ := hwf1.opp_live e he id hid
        refine ⟨o2, h1, ?_, h3, h4⟩
        rw [hside] at h2
        exact h2
      · intro id hs
        exact hwf1.occ_one id hs
      · intro pb hpb pa hpa
        exact hwf.cross_ok pb hpb pa (hopk.subset hpa)
    split
    next hrem =>
      split
      next => exact hB1
      next =>
        split
        next => exact hB1
        next =>
          have hcrossb : ∀ pa ∈ r.1.opp.map Prod.fst, o.price < pa := by
            rcases hexit with h0 | hopp0 | ⟨hlim, p2, lvl2, rest2, hopp2, hcf⟩
            · omega
            · rw [hopp0]
              intro pa hpa
              simp at hpa
            · intro pa hpa
              unfold crossFails at hcf
              rw [hside] at hcf
              have hp2 : o.price < p2 := of_decide_eq_true hcf
              rw [hopp2] at hsortedOpp hpa
              have := sortedAsc_head_le hsortedOpp pa hpa
              omega
          have hocc_bids0 : ladderOcc o.order_id b.bids_ = 0 :=
            ladderOcc_zero_of_none
              (fun e he i hi => by
                obtain ⟨o2, h1, _⟩ := hwf.bids_live e he i hi
                rw [h1]; rfl)
              hfresh
          have hocc_asks0 : ladderOcc o.order_id r.1.opp = 0 :=
            ladderOcc_zero_of_none
              (fun e he i hi => by
                obtain ⟨o2, h1, _⟩ := hwf1.opp_live e he i hi
                rw [h1]; rfl)
              hfr1
          rw [hshape]
          unfold OrderBook.add_to_book
          dsimp only
          rw [hside]
          dsimp only
          refine ⟨?_, ?_, ?_, hsortedOpp, ?_, ?_, ?_, ?_⟩
          all_goals dsimp only
          · rw [keys_upsertId_absent _ _ _ hfr1, List.nodup_append]
            refine ⟨hwf1.keys_nodup, List.nodup_singleton _, ?_⟩
            intro x hx hx2
            simp only [List.mem_singleton] at hx2
            subst hx2
            exact (lookupId_eq_none_iff.mp hfr1) hx
          · exact keyed_upsertId hwf1.keyed rfl
          · exact sortedDesc_ladderAdd _ hwf.bids_sorted
          · intro e he id hid
            rcases ladderAdd_ref_cases _ _ _ e he id hid with ⟨rfl, hep⟩ | ⟨f, hf, hfe, hfid⟩
            · refine ⟨{ o with side := Side.buy, remaining_quantity := r.2.1.remaining_quantity },
                lookupId_upsertId_self o.order_id _ r.1.index, rfl, hep.symm, hrem⟩
            · obtain ⟨o2, h1, h2, h3, h4⟩ := hwf1.own_live f hf id hfid
              have hne : id ≠ o.order_id := by
                intro hcontr
                subst hcontr
                rw [h1] at hfr1
                exact Option.noConfusion hfr1
              refine ⟨o2, ?_, ?_, by rw [h3, hfe], h4⟩
              · rw [lookupId_upsertId_ne _ _ _ _ hne]
                exact h1
              · rw [← hside]
                exact h2
          · intro e he id hid
            obtain ⟨o2, h1, h2, h3, h4⟩ := hwf1.opp_live e he id hid
            have hne : id ≠ o.order_id := by
              intro hcontr
              subst hcontr
              rw [h1] at hfr1
              exact Option.noConfusion hfr1
            refine ⟨o2, ?_, ?_, h3, h4⟩
            · rw [lookupId_upsertId_ne _ _ _ _ hne]
              exact h1
            · rw [hside] at h2
              exact h2
          · intro id hs
            rw [ladderOcc_ladderAdd]
            by_cases hido : id = o.order_id
            · subst hido
              rw [if_pos rfl, hocc_bids0, hocc_asks0]
            · rw [if_neg hido]
              rw [lookupId_upsertId_ne _ _ _ _ hido] at hs
              exact hwf1.occ_one id hs
          · intro pb hpb pa hpa
            rcases ladderAdd_keys_cases _ _ _ pb hpb with hnew | hold
            · rw [hnew]
              exact hcrossb pa hpa
            · exact hwf.cross_ok pb hold pa (hopk.subset hpa)
    next hrem => exact hB1
  | sell =>
    dsimp only
    have hacc : AccWF o.side b.asks_
        { opp := b.bids_, index := b.orders_, next_trade_id_ := b.next_trade_id_, trade_count_ := b.trade_count_, total_volume_ := b.total_volume_ } := by
      rw [hside]
      exact ⟨hwf.keys_nodup, hwf.keyed,
        fun e he id hid => hwf.asks_live e he id hid,
        fun e he id hid => hwf.bids_live e he id hid,
        fun id hs => by
          have h2 := hwf.occ_one id hs
          dsimp only
          omega⟩
    obtain ⟨hwf1, hexit⟩ := matchLoop_accWF b.symbol_ b.stp_policy_ ts b.asks_ o _ hacc
    have hshape := matchLoop_order_shape b.symbol_ b.stp_policy_ ts o
      { opp := b.bids_, index := b.orders_, next_trade_id_ := b.next_trade_id_, trade_count_ := b.trade_count_, total_volume_ := b.total_volume_ }
    have hopk := matchLoop_opp_keys b.symbol_ b.stp_policy_ ts o
      { opp := b.bids_, index := b.orders_, next_trade_id_ := b.next_trade_id_, trade_count_ := b.trade_count_, total_volume_ := b.total_volume_ }
    have hidk := matchLoop_index_keys b.symbol_ b.stp_policy_ ts o
      { opp := b.bids_, index := b.orders_, next_trade_id_ := b.next_trade_id_, trade_count_ := b.trade_count_, total_volume_ := b.total_volume_ }
    dsimp only at hopk hidk
    set r := matchLoop b.symbol_ b.stp_policy_ ts o
      { opp := b.bids_, index := b.orders_, next_trade_id_ := b.next_trade_id_, trade_count_ := b.trade_count_, total_volume_ := b.total_volume_ } with hr
    have hsortedOpp : sortedDesc r.1.opp := sortedDesc_of_keys_sublist hopk hwf.bids_sorted
    have hfr1 : lookupId o.order_id r.1.index = Option.none := by
      rw [lookupId_eq_none_iff] at hfresh ⊢
      exact fun hmem => hfresh (hidk.subset hmem)
    have hB1 : BookWF { b with bids_ := r.1.opp, orders_ := r.1.index, next_trade_id_ := r.1.next_trade_id_, trade_count_ := r.1.trade_count_, total_volume_ := r.1.total_volume_ } := by
      refine ⟨hwf1.keys_nodup, hwf1.keyed, hsortedOpp, hwf.asks_sorted, ?_, ?_, ?_, ?_⟩
      · intro e he id hid
        obtain ⟨o2, h1, h2, h3, h4⟩ := hwf1.opp_live e he id hid
        refine ⟨o2, h1, ?_, h3, h4⟩
        rw [hside] at h2
        exact h2
      · intro e he id hid
        obtain ⟨o2, h1, h2, h3, h4⟩ := hwf1.own_live e he id hid
        refine ⟨o2, h1, ?_, h3, h4⟩
        rw [← hside]
        exact h2
      · intro id hs
        have h2 := hwf1.occ_one id hs
        dsimp only
        omega
      · intro pb hpb pa hpa
        exact hwf.cross_ok pb (hopk.subset hpb) pa hpa
    split
    next hrem =>
      split
      next => exact hB1
      next =>
        split
        next => exact hB1
        next =>
          have hcrossb : ∀ pb ∈ r.1.opp.map Prod.fst, pb < o.price := by
            rcases hexit with h0 | hopp0 | ⟨hlim, p2, lvl2, rest2, hopp2, hcf⟩
            · omega
            · rw [hopp0]
              intro pb hpb
              simp at hpb
            · intro pb hpb
              unfold crossFails at hcf
              rw [hside] at hcf
              have hp2 : p2 < o.price := of_decide_eq_true hcf
              rw [hopp2] at hsortedOpp hpb
              have := sortedDesc_head_ge hsortedOpp pb hpb
              omega
          have hocc_asks0 : ladderOcc o.order_id b.asks_ = 0 :=
            ladderOcc_zero_of_none
              (fun e he i hi => by
                obtain ⟨o2, h1, _⟩ := hwf.asks_live e he i hi
                rw [h1]; rfl)
              hfresh
          have hocc_bids0 : ladderOcc o.order_id r.1.opp = 0 :=
            ladderOcc_zero_of_none
              (fun e he i hi => by
                obtain ⟨o2, h1, _⟩ := hwf1.opp_live e he i hi
                rw [h1]; rfl)
              hfr1
          rw [hshape]
          unfold OrderBook.add_to_book
          dsimp only
          rw [hside]
          dsimp only
          refine ⟨?_, ?_, hsortedOpp, ?_, ?_, ?_, ?_, ?_⟩
          all_goals dsimp only
          · rw [keys_upsertId_absent _ _ _ hfr1, List.nodup_append]
            refine ⟨hwf1.keys_nodup, List.nodup_singleton _, ?_⟩
            intro x hx hx2
            simp only [List.mem_singleton] at hx2
            subst hx2
            exact (lookupId_eq_none_iff.mp hfr1) hx
          · exact keyed_upsertId hwf1.keyed rfl
          · exact sortedAsc_ladderAdd _ hwf.asks_sorted
          · intro e he id hid
            obtain ⟨o2, h1, h2, h3, h4⟩ := hwf1.opp_live e he id hid
            have hne : id ≠ o.order_id := by
              intro hcontr
              subst hcontr
              rw [h1] at hfr1
              exact Option.noConfusion hfr1
            refine ⟨o2, ?_, ?_, h3, h4⟩
            · rw [lookupId_upsertId_ne _ _ _ _ hne]
              exact h1
            · rw [hside] at h2
              exact h2
          · intro e he id hid
            rcases ladderAdd_ref_cases _ _ _ e he id hid with ⟨rfl, hep⟩ | ⟨f, hf, hfe, hfid⟩
            · refine ⟨{ o with side := Side.sell, remaining_quantity := r.2.1.remaining_quantity },
                lookupId_upsertId_self o.order_id _ r.1.index, rfl, hep.symm, hrem⟩
            · obtain ⟨o2, h1, h2, h3, h4⟩ := hwf1.own_live f hf id hfid
              have hne : id ≠ o.order_id := by
                intro hcontr
                subst hcontr
                rw [h1] at hfr1
                exact Option.noConfusion hfr1
              refine ⟨o2, ?_, ?_, by rw [h3, hfe], h4⟩
              · rw [lookupId_upsertId_ne _ _ _ _ hne]
                exact h1
              · rw [← hside]
                exact h2
          · intro id hs
            rw [ladderOcc_ladderAdd]
            by_cases hido : id = o.order_id
            · subst hido
              rw [if_pos rfl, hocc_bids0, hocc_asks0]
            · rw [if_neg hido]
              rw [lookupId_upsertId_ne _ _ _ _ hido] at hs
              have h2 := hwf1.occ_one id hs
              omega
          · intro pb hpb pa hpa
            rcases ladderAdd_keys_cases _ _ _ pa hpa with hnew | hold
            · rw [hnew]
              exact hcrossb pb hpb
            · exact hwf.cross_ok pb (hopk.subset hpb) pa hold
    next hrem => exact hB1

/-- `cancel_order` preserves book well-formedness. -/
theorem bookWF_cancel (b : OrderBook) (id : Nat) (hwf : BookWF b) :
    BookWF (b.cancel_order id).1 := by
  unfold OrderBook.cancel_order
  cases hlk : lookupId id b.orders_ with
  | none => exact hwf
  | some o =>
    dsimp only
    have hoid : o.order_id = id := keyed_resting hwf.keyed hlk
    unfold OrderBook.remove_from_book
    cases hos : o.side with
    | buy =>
      dsimp only
      have hocc1 := hwf.occ_one id (by rw [hlk]; rfl)
      have hone : ∀ e ∈ b.bids_, o.order_id ∈ e.2.orders_ → e.1 = o.price := by
        intro e he hm
        obtain ⟨o2, hl2, _, hp2, _⟩ := hwf.bids_live e he o.order_id hm
        rw [hoid, hlk] at hl2
        injection hl2 with hl2
        subst hl2
        exact hp2.symm
      have hocc_asks : ladderOcc id b.asks_ = 0 := by
        rw [ladderOcc_eq_zero_iff]
        intro e he hm
        obtain ⟨o2, hl2, hs2, _, _⟩ := hwf.asks_live e he id hm
        rw [hlk] at hl2
        injection hl2 with hl2
        subst hl2
        rw [hos] at hs2
        exact Side.noConfusion hs2
      have hocc_bids : ladderOcc o.order_id b.bids_ = 1 := by
        rw [hoid]
        omega
      have hrem0 : ladderOcc o.order_id (ladderRemove o b.bids_) = 0 :=
        ladderRemove_occ_zero (sortedDesc_fst_nodup _ hwf.bids_sorted) hocc_bids hone
      refine ⟨?_, keyed_eraseId hwf.keyed, ?_, hwf.asks_sorted, ?_, ?_, ?_, ?_⟩
      all_goals dsimp only
      · exact hwf.keys_nodup.sublist (keys_eraseId_sublist _ _)
      · exact sortedDesc_of_keys_sublist (ladderRemove_keys_sublist _ _) hwf.bids_sorted
      · intro e he id2 hid2
        have hne : id2 ≠ id := by
          intro hcontr
          subst hcontr
          have := ladderOcc_pos he hid2
          rw [← hoid] at this
          omega
        obtain ⟨f, hf, hfe, hfid⟩ := ladderRemove_ref_cases o b.bids_ e he id2 hid2
        obtain ⟨o2, h1, h2, h3, h4⟩ := hwf.bids_live f hf id2 hfid
        refine ⟨o2, ?_, h2, by rw [h3, hfe], h4⟩
        rw [lookupId_eraseId_ne _ _ _ hne]
        exact h1
      · intro e he id2 hid2
        obtain ⟨o2, h1, h2, h3, h4⟩ := hwf.asks_live e he id2 hid2
        have hne : id2 ≠ id := by
          intro hcontr
          subst hcontr
          rw [hlk] at h1
          injection h1 with h1
          subst h1
          rw [hos] at h2
          exact Side.noConfusion h2
        refine ⟨o2, ?_, h2, h3, h4⟩
        rw [lookupId_eraseId_ne _ _ _ hne]
        exact h1
      · intro id2 hs
        by_cases hne : id2 = id
        · subst hne
          rw [lookupId_eraseId_self hwf.keys_nodup] at hs
          exact absurd hs (by simp)
        · rw [lookupId_eraseId_ne _ _ _ hne] at hs
          have h2 := hwf.occ_one id2 hs
          rw [ladderOcc_ladderRemove_ne (by rw [hoid]; exact hne)]
          exact h2
      · intro pb hpb pa hpa
        exact hwf.cross_ok pb ((ladderRemove_keys_sublist _ _).subset hpb) pa hpa
    | sell =>
      dsimp only
      have hocc1 := hwf.occ_one id (by rw [hlk]; rfl)
      have hone : ∀ e ∈ b.asks_, o.order_id ∈ e.2.orders_ → e.1 = o.price := by
        intro e he hm
        obtain ⟨o2, hl2, _, hp2, _⟩ := hwf.asks_live e he o.order_id hm
        rw [hoid, hlk] at hl2
        injection hl2 with hl2
        subst hl2
        exact hp2.symm
      have hocc_bids : ladderOcc id b.bids_ = 0 := by
        rw [ladderOcc_eq_zero_iff]
        intro e he hm
        obtain ⟨o2, hl2, hs2, _, _⟩ := hwf.bids_live e he id hm
        rw [hlk] at hl2
        injection hl2 with hl2
        subst hl2
        rw [hos] at hs2
        exact Side.noConfusion hs2
      have hocc_asks : ladderOcc o.order_id b.asks_ = 1 := by
        rw [hoid]
        omega
      have hrem0 : ladderOcc o.order_id (ladderRemove o b.asks_) = 0 :=
        ladderRemove_occ_zero (sortedAsc_fst_nodup _ hwf.asks_sorted) hocc_asks hone
      refine ⟨?_, keyed_eraseId hwf.keyed, hwf.bids_sorted, ?_, ?_, ?_, ?_, ?_⟩
      all_goals dsimp only
      · exact hwf.keys_nodup.sublist (keys_eraseId_sublist _ _)
      · exact sortedAsc_of_keys_sublist (ladderRemove_keys_sublist _ _) hwf.asks_sorted
      · intro e he id2 hid2
        obtain ⟨o2, h1, h2, h3, h4⟩ := hwf.bids_live e he id2 hid2
        have hne : id2 ≠ id := by
          intro hcontr
          subst hcontr
          rw [hlk] at h1
          injection h1 with h1
          subst h1
          rw [hos] at h2
          exact Side.noConfusion h2
        refine ⟨o2, ?_, h2, h3, h4⟩
        rw [lookupId_eraseId_ne _ _ _ hne]
        exact h1
      · intro e he id2 hid2
        have hne : id2 ≠ id := by
          intro hcontr
          subst hcontr
          have := ladderOcc_pos he hid2
          rw [← hoid] at this
          omega
        obtain ⟨f, hf, hfe, hfid⟩ := ladderRemove_ref_cases o b.asks_ e he id2 hid2
        obtain ⟨o2, h1, h2, h3, h4⟩ := hwf.asks_live f hf id2 hfid
        refine ⟨o2, ?_, h2, by rw [h3, hfe], h4⟩
        rw [lookupId_eraseId_ne _ _ _ hne]
        exact h1
      · intro id2 hs
        by_cases hne : id2 = id
        · subst hne
          rw [lookupId_eraseId_self hwf.keys_nodup] at hs
          exact absurd hs (by simp)
        · rw [lookupId_eraseId_ne _ _ _ hne] at hs
          have h2 := hwf.occ_one id2 hs
          rw [ladderOcc_ladderRemove_ne (by rw [hoid]; exact hne)]
          exact h2
      · intro pb hpb pa hpa
        exact hwf.cross_ok pb hpb pa ((ladderRemove_keys_sublist _ _).subset hpa)

/-- `replace_order` of a resident id is cancel followed by add of the rebuilt
order. -/
theorem replace_order_as_cancel_add (b : OrderBook) (id : Nat) (new_price : Int)
    (new_quantity ts : Nat) {old : Order} (hlk : lookupId id b.orders_ = some old) :
    b.replace_order id new_price new_quantity ts =
      (b.cancel_order id).1.add_order
        { old with price := new_price, quantity := new_quantity, remaining_quantity := new_quantity } ts := by
  unfold OrderBook.replace_order OrderBook.cancel_order
  rw [hlk]

/-- `replace_order` preserves book well-formedness. -/
theorem bookWF_replace (b : OrderBook) (id : Nat) (new_price : Int)
    (new_quantity ts : Nat) (hwf : BookWF b) :
    BookWF (b.replace_order id new_price new_quantity ts).1 := by
  cases hlk : lookupId id b.orders_ with
  | none =>
    unfold OrderBook.replace_order
    rw [hlk]
    exact hwf
  | some old =>
    rw [replace_order_as_cancel_add b id new_price new_quantity ts hlk]
    refine bookWF_add _ _ _ (bookWF_cancel b id hwf) ?_
    show lookupId old.order_id (b.cancel_order id).1.orders_ = Option.none
    have hoid : old.order_id = id := keyed_resting hwf.keyed hlk
    unfold OrderBook.cancel_order OrderBook.remove_from_book
    rw [hlk]
    dsimp only
    cases old.side <;>
      · dsimp only
        rw [hoid]
        exact lookupId_eraseId_self hwf.keys_nodup

/-- One legal request preserves book well-formedness. -/
theorem bookWF_applyOp {b : OrderBook} {op : BookOp} (hwf : BookWF b)
    (hok : opFresh b op) : BookWF (applyOp b op) := by
  cases op with
  | add o ts => exact bookWF_add b o ts hwf hok
  | cancel id => exact bookWF_cancel b id hwf
  | replace id p q ts => exact bookWF_replace b id p q ts hwf

/-- A legal request stream preserves book well-formedness. -/
theorem bookWF_applyOps {b : OrderBook} {ops : List BookOp} (hwf : BookWF b)
    (hok : StreamOK b ops) : BookWF (applyOps b ops) := by
  induction ops generalizing b with
  | nil => exact hwf
  | cons op rest ih => exact ih (bookWF_applyOp hwf hok.1) hok.2

/-! ### Nat conservation through the loop -/

/-- Under the two STP policies that never zero the incoming order
(`NONE`, `CANCEL_RESTING`), every unit of remaining quantity the loop takes
from the incoming order appears in exactly one emitted trade. -/
theorem matchLoop_conservation (sym : Symbol) (stp : STPPolicy) (ts : Nat) (ord : Order)
    (acc : MatchAcc) (hstp : stp = STPPolicy.none ∨ stp = STPPolicy.cancelResting) :
    sumFills (matchLoop sym stp ts ord acc).2.2 +
      (matchLoop sym stp ts ord acc).2.1.remaining_quantity = ord.remaining_quantity := by
  induction ord, acc using matchLoop.induct sym stp ts with
  | case1 ord acc h =>
    rw [matchLoop_rem0 sym stp ts ord acc h]
    simp [sumFills]
  | case2 ord acc h0 hopp =>
    rw [matchLoop_oppEmpty sym stp ts ord acc h0 hopp]
    simp [sumFills]
  | case3 ord acc h0 p lvl restLevels hopp hc =>
    rw [matchLoop_crossExit sym stp ts ord acc p lvl restLevels h0 hopp hc]
    simp [sumFills]
  | case4 ord acc h0 p lvl restLevels hopp hnc hq ih =>
    rw [matchLoop_emptyLevel sym stp ts ord acc p lvl restLevels h0 hopp hnc hq]
    exact ih
  | case5 ord acc h0 p lvl restLevels hopp hnc oid qrest hq hlk ih =>
    rw [matchLoop_staleRef sym stp ts ord acc p lvl restLevels oid qrest h0 hopp hnc hq hlk]
    exact ih
  | case6 ord acc h0 p lvl restLevels hopp hnc oid qrest hq resting hlk hst hpol =>
    subst hpol
    simp [would_self_trade] at hst
  | case7 ord acc h0 p lvl restLevels hopp hnc oid qrest hq resting hlk hst hpol =>
    subst hpol
    rcases hstp with h | h <;> exact absurd h (by decide)
  | case8 ord acc h0 p lvl restLevels hopp hnc oid qrest hq resting hlk hst hpol hg ih =>
    subst hpol
    rw [matchLoop_stpRestingSane sym ts ord acc p lvl restLevels oid qrest resting h0 hopp hnc hq hlk hst hg]
    exact ih
  | case9 ord acc h0 p lvl restLevels hopp hnc oid qrest hq resting hlk hst hpol hg =>
    subst hpol
    rw [matchLoop_stpRestingCorrupt sym ts ord acc p lvl restLevels oid qrest resting h0 hopp hnc hq hlk hst hg]
    simp [sumFills]
  | case10 ord acc h0 p lvl restLevels hopp hnc oid qrest hq resting hlk hst hpol hg =>
    subst hpol
    rcases hstp with h | h <;> exact absurd h (by decide)
  | case11 ord acc h0 p lvl restLevels hopp hnc oid qrest hq resting hlk hst hpol hg =>
    subst hpol
    rcases hstp with h | h <;> exact absurd h (by decide)
  | case12 ord acc h0 p lvl restLevels hopp hnc oid qrest hq resting hlk hst tq ord' resting' hres hord =>
    have hres2 :
        resting.remaining_quantity - min ord.remaining_quantity resting.remaining_quantity = 0 :=
      hres
    have hord2 :
        ord.remaining_quantity - min ord.remaining_quantity resting.remaining_quantity = 0 :=
      hord
    rw [matchLoop_fill sym stp ts ord acc p lvl restLevels oid qrest resting h0 hopp hnc hq hlk hst]
    dsimp only
    rw [if_pos hres2, if_pos hord2]
    have hmin : min ord.remaining_quantity resting.remaining_quantity ≤ ord.remaining_quantity :=
      Nat.min_le_left _ _
    simp only [sumFills, List.map_cons, List.map_nil, List.sum_cons, List.sum_nil, create_trade]
    omega
  | case13 ord acc h0 p lvl restLevels hopp hnc oid qrest hq resting hlk hst tq ord' resting' acc1 hres lvl' acc2 hord ih =>
    have hres2 :
        resting.remaining_quantity - min ord.remaining_quantity resting.remaining_quantity = 0 :=
      hres
    have hord2 :
        ¬ ord.remaining_quantity - min ord.remaining_quantity resting.remaining_quantity = 0 :=
      hord
    rw [matchLoop_fill sym stp ts ord acc p lvl restLevels oid qrest resting h0 hopp hnc hq hlk hst]
    dsimp only
    rw [if_pos hres2, if_neg hord2]
    have hmin : min ord.remaining_quantity resting.remaining_quantity ≤ ord.remaining_quantity :=
      Nat.min_le_left _ _
    have ih2 :
        sumFills (matchLoop sym stp ts
            { ord with remaining_quantity :=
                ord.remaining_quantity - min ord.remaining_quantity resting.remaining_quantity }
            { opp := (p, { lvl with orders_ := qrest }) :: restLevels
              index := eraseId resting.order_id
                (upsertId oid
                  { resting with remaining_quantity :=
                      resting.remaining_quantity - min ord.remaining_quantity resting.remaining_quantity }
                  acc.index)
              next_trade_id_ := acc.next_trade_id_ + 1
              trade_count_ := acc.trade_count_ + 1
              total_volume_ := acc.total_volume_ +
                min ord.remaining_quantity resting.remaining_quantity }).2.2 +
          (matchLoop sym stp ts
            { ord with remaining_quantity :=
                ord.remaining_quantity - min ord.remaining_quantity resting.remaining_quantity }
            { opp := (p, { lvl with orders_ := qrest }) :: restLevels
              index := eraseId resting.order_id
                (upsertId oid
                  { resting with remaining_quantity :=
                      resting.remaining_quantity - min ord.remaining_quantity resting.remaining_quantity }
                  acc.index)
              next_trade_id_ := acc.next_trade_id_ + 1
              trade_count_ := acc.trade_count_ + 1
              total_volume_ := acc.total_volume_ +
                min ord.remaining_quantity resting.remaining_quantity }).2.1.remaining_quantity =
          ord.remaining_quantity - min ord.remaining_quantity resting.remaining_quantity := ih
    simp only [sumFills, List.map_cons, List.sum_cons, create_trade] at ih2 ⊢
    omega
  | case14 ord acc h0 p lvl restLevels hopp hnc oid qrest hq resting hlk hst tq resting' hres =>
    have hres2 :
        ¬ resting.remaining_quantity - min ord.remaining_quantity resting.remaining_quantity = 0 :=
      hres
    rw [matchLoop_fill sym stp ts ord acc p lvl restLevels oid qrest resting h0 hopp hnc hq hlk hst]
    dsimp only
    rw [if_neg hres2]
    have hmin : min ord.remaining_quantity resting.remaining_quantity ≤ ord.remaining_quantity :=
      Nat.min_le_left _ _
    simp only [sumFills, List.map_cons, List.map_nil, List.sum_cons, List.sum_nil, create_trade]
    omega

/-- `add_order` hands back the matched order unchanged in every branch. -/
theorem add_order_full_order_eq (b : OrderBook) (o : Order) (ts : Nat) :
    (b.add_order_full o ts).2.2 = (b.match_order o ts).2.1 := by
  unfold OrderBook.add_order_full
  dsimp only
  split_ifs <;> rfl

/-- Conservation lifted to `match_order`. -/
theorem match_order_conservation (b : OrderBook) (o : Order) (ts : Nat)
    (hstp : b.stp_policy_ = STPPolicy.none ∨ b.stp_policy_ = STPPolicy.cancelResting) :
    sumFills (b.match_order o ts).2.2 + (b.match_order o ts).2.1.remaining_quantity =
      o.remaining_quantity := by
  unfold OrderBook.match_order
  dsimp only
  exact matchLoop_conservation _ _ _ _ _ hstp

/-- The incoming order keeps every field but `remaining_quantity` through
`match_order`. -/
theorem match_order_order_shape (b : OrderBook) (o : Order) (ts : Nat) :
    (b.match_order o ts).2.1 =
      { o with remaining_quantity := (b.match_order o ts).2.1.remaining_quantity } := by
  unfold OrderBook.match_order
  dsimp only
  exact matchLoop_order_shape _ _ _ _ _

/-- A freshly added order sits at the back of the FIFO queue at its price. -/
theorem ladderAdd_back (before : Int → Int → Bool) (o : Order) (L : Ladder) :
    (queueAt (ladderAdd before o L) o.price).getLast? = some o.order_id := by
  induction L with
  | nil => simp [ladderAdd, queueAt, ladderFind, PriceLevelQueue.add_order]
  | cons e rest ih =>
    obtain ⟨q, lvl⟩ := e
    by_cases h1 : o.price = q
    · simp [ladderAdd, h1, queueAt, ladderFind, PriceLevelQueue.add_order]
    · by_cases h2 : before o.price q
      · simp [ladderAdd, h1, h2, queueAt, ladderFind, PriceLevelQueue.add_order]
      · simpa [ladderAdd, h1, h2, queueAt, ladderFind] using ih

/-- A loop on an empty opposing ladder emits no trades. -/
theorem matchLoop_trades_nil_of_opp_nil (sym : Symbol) (stp : STPPolicy) (ts : Nat)
    (ord : Order) (acc : MatchAcc) (h : acc.opp = []) :
    (matchLoop sym stp ts ord acc).2.2 = [] := by
  by_cases h0 : ord.remaining_quantity = 0
  · rw [matchLoop_rem0 sym stp ts ord acc h0]
  · rw [matchLoop_oppEmpty sym stp ts ord acc h0 h]

/-- The trade ids of one matching call are consecutive, starting at the
book's `next_trade_id_` (hence strictly increasing). -/
theorem matchLoop_trade_ids (sym : Symbol) (stp : STPPolicy) (ts : Nat) (ord : Order)
    (acc : MatchAcc) :
    (matchLoop sym stp ts ord acc).2.2.map (fun t => t.trade_id) =
      List.range' acc.next_trade_id_ (matchLoop sym stp ts ord acc).2.2.length := by
  induction ord, acc using matchLoop.induct sym stp ts with
  | case1 ord acc h =>
    rw [matchLoop_rem0 sym stp ts ord acc h]
    simp
  | case2 ord acc h0 hopp =>
    rw [matchLoop_oppEmpty sym stp ts ord acc h0 hopp]
    simp
  | case3 ord acc h0 p lvl restLevels hopp hc =>
    rw [matchLoop_crossExit sym stp ts ord acc p lvl restLevels h0 hopp hc]
    simp
  | case4 ord acc h0 p lvl restLevels hopp hnc hq ih =>
    rw [matchLoop_emptyLevel sym stp ts ord acc p lvl restLevels h0 hopp hnc hq]
    exact ih
  | case5 ord acc h0 p lvl restLevels hopp hnc oid qrest hq hlk ih =>
    rw [matchLoop_staleRef sym stp ts ord acc p lvl restLevels oid qrest h0 hopp hnc hq hlk]
    exact ih
  | case6 ord acc h0 p lvl restLevels hopp hnc oid qrest hq resting hlk hst hpol =>
    subst hpol
    simp [would_self_trade] at hst
  | case7 ord acc h0 p lvl restLevels hopp hnc oid qrest hq resting hlk hst hpol =>
    subst hpol
    rw [matchLoop_stpIncoming sym ts ord acc p lvl restLevels oid qrest resting h0 hopp hnc hq hlk hst]
    simp
  | case8 ord acc h0 p lvl restLevels hopp hnc oid qrest hq resting hlk hst hpol hg ih =>
    subst hpol
    rw [matchLoop_stpRestingSane sym ts ord acc p lvl restLevels oid qrest resting h0 hopp hnc hq hlk hst hg]
    exact ih
  | case9 ord acc h0 p lvl restLevels hopp hnc oid qrest hq resting hlk hst hpol hg =>
    subst hpol
    rw [matchLoop_stpRestingCorrupt sym ts ord acc p lvl restLevels oid qrest resting h0 hopp hnc hq hlk hst hg]
    simp
  | case10 ord acc h0 p lvl restLevels hopp hnc oid qrest hq resting hlk hst hpol hg =>
    subst hpol
    rw [matchLoop_stpBothSane sym ts ord acc p lvl restLevels oid qrest resting h0 hopp hnc hq hlk hst hg]
    simp
  | case11 ord acc h0 p lvl restLevels hopp hnc oid qrest hq resting hlk hst hpol hg =>
    subst hpol
    rw [matchLoop_stpBothCorrupt sym ts ord acc p lvl restLevels oid qrest resting h0 hopp hnc hq hlk hst hg]
    simp
  | case12 ord acc h0 p lvl restLevels hopp hnc oid qrest hq resting hlk hst tq ord' resting' hres hord =>
    have hres2 :
        resting.remaining_quantity - min ord.remaining_quantity resting.remaining_quantity = 0 :=
      hres
    have hord2 :
        ord.remaining_quantity - min ord.remaining_quantity resting.remaining_quantity = 0 :=
      hord
    rw [matchLoop_fill sym stp ts ord acc p lvl restLevels oid qrest resting h0 hopp hnc hq hlk hst]
    dsimp only
    rw [if_pos hres2, if_pos hord2]
    simp [create_trade, List.range']
  | case13 ord acc h0 p lvl restLevels hopp hnc oid qrest hq resting hlk hst tq ord' resting' acc1 hres lvl' acc2 hord ih =>
    have hres2 :
        resting.remaining_quantity - min ord.remaining_quantity resting.remaining_quantity = 0 :=
      hres
    have hord2 :
        ¬ ord.remaining_quantity - min ord.remaining_quantity resting.remaining_quantity = 0 :=
      hord
    rw [matchLoop_fill sym stp ts ord acc p lvl restLevels oid qrest resting h0 hopp hnc hq hlk hst]
    dsimp only
    rw [if_pos hres2, if_neg hord2]
    simp only [List.map_cons, List.length_cons, List.range']
    exact List.cons_eq_cons.mpr ⟨rfl, ih⟩
  | case14 ord acc h0 p lvl restLevels hopp hnc oid qrest hq resting hlk hst tq resting' hres =>
    have hres2 :
        ¬ resting.remaining_quantity - min ord.remaining_quantity resting.remaining_quantity = 0 :=
      hres
    rw [matchLoop_fill sym stp ts ord acc p lvl restLevels oid qrest resting h0 hopp hnc hq hlk hst]
    dsimp only
    rw [if_neg hres2]
    simp [create_trade, List.range']

/-- Price-priority of the emitted trades, in terms of the order `lt` that
sorts the opposing ladder (ascending for asks, descending for bids): the
trade prices are `le`-monotone and bounded by the starting best price. -/
theorem matchLoop_prices_mono (lt le : Int → Int → Prop) (hrefl : ∀ a, le a a)
    (hcompat : ∀ a b c, lt a b → le b c → le a c)
    (sym : Symbol) (stp : STPPolicy) (ts : Nat) (ord : Order) (acc : MatchAcc)
    (hs : List.Chain' (fun x y => lt x.1 y.1) acc.opp) :
    ((matchLoop sym stp ts ord acc).2.2.map (fun t => t.price)).Chain' le ∧
    ∀ t ∈ (matchLoop sym stp ts ord acc).2.2, ∀ p0 lvl0 rest0,
      acc.opp = (p0, lvl0) :: rest0 → le p0 t.price := by
  induction ord, acc using matchLoop.induct sym stp ts with
  | case1 ord acc h =>
    rw [matchLoop_rem0 sym stp ts ord acc h]
    simp
  | case2 ord acc h0 hopp =>
    rw [matchLoop_oppEmpty sym stp ts ord acc h0 hopp]
    simp
  | case3 ord acc h0 p lvl restLevels hopp hc =>
    rw [matchLoop_crossExit sym stp ts ord acc p lvl restLevels h0 hopp hc]
    simp
  | case4 ord acc h0 p lvl restLevels hopp hnc hq ih =>
    rw [matchLoop_emptyLevel sym stp ts ord acc p lvl restLevels h0 hopp hnc hq]
    rw [hopp] at hs
    have ih2 := ih hs.tail
    refine ⟨ih2.1, fun t ht p0 lvl0 rest0 he => ?_⟩
    rw [hopp] at he
    injection he with hh ht2
    injection hh with hp hl
    subst hp
    cases hrl : restLevels with
    | nil =>
      rw [matchLoop_trades_nil_of_opp_nil sym stp ts ord _ (by simpa using hrl)] at ht
      simp at ht
    | cons e2 rest2 =>
      have hlt : lt p e2.1 := by
        rw [hrl] at hs
        exact (List.chain'_cons.mp hs).1
      exact hcompat _ _ _ hlt (ih2.2 t ht e2.1 e2.2 rest2 (by simp [hrl]))
  | case5 ord acc h0 p lvl restLevels hopp hnc oid qrest hq hlk ih =>
    rw [matchLoop_staleRef sym stp ts ord acc p lvl restLevels oid qrest h0 hopp hnc hq hlk]
    rw [hopp] at hs
    have ih2 := ih (chain'_replace_head_level hs)
    refine ⟨ih2.1, fun t ht p0 lvl0 rest0 he => ?_⟩
    rw [hopp] at he
    injection he with hh ht2
    injection hh with hp hl
    subst hp
    subst ht2
    exact ih2.2 t ht p _ restLevels rfl
  | case6 ord acc h0 p lvl restLevels hopp hnc oid qrest hq resting hlk hst hpol =>
    subst hpol
    simp [would_self_trade] at hst
  | case7 ord acc h0 p lvl restLevels hopp hnc oid qrest hq resting hlk hst hpol =>
    subst hpol
    rw [matchLoop_stpIncoming sym ts ord acc p lvl restLevels oid qrest resting h0 hopp hnc hq hlk hst]
    simp
  | case8 ord acc h0 p lvl restLevels hopp hnc oid qrest hq resting hlk hst hpol hg ih =>
    subst hpol
    rw [matchLoop_stpRestingSane sym ts ord acc p lvl restLevels oid qrest resting h0 hopp hnc hq hlk hst hg]
    rw [hopp] at hs
    by_cases hemp : (lvl.remove_order resting).orders_ = []
    · rw [dif_pos hemp] at ih
      rw [if_pos hemp]
      have ih2 := ih hs.tail
      refine ⟨ih2.1, fun t ht p0 lvl0 rest0 he => ?_⟩
      rw [hopp] at he
      injection he with hh ht2
      injection hh with hp hl
      subst hp
      cases hrl : restLevels with
      | nil =>
        rw [matchLoop_trades_nil_of_opp_nil sym _ ts ord _ (by simpa using hrl)] at ht
        simp at ht
      | cons e2 rest2 =>
        have hlt : lt p e2.1 := by
          rw [hrl] at hs
          exact (List.chain'_cons.mp hs).1
        exact hcompat _ _ _ hlt (ih2.2 t ht e2.1 e2.2 rest2 (by simp [hrl]))
    · rw [dif_neg hemp] at ih
      rw [if_neg hemp]
      have ih2 := ih (chain'_replace_head_level hs)
      refine ⟨ih2.1, fun t ht p0 lvl0 rest0 he => ?_⟩
      rw [hopp] at he
      injection he with hh ht2
      injection hh with hp hl
      subst hp
      subst ht2
      exact ih2.2 t ht p _ restLevels rfl
  | case9 ord acc h0 p lvl restLevels hopp hnc oid qrest hq resting hlk hst hpol hg =>
    subst hpol
    rw [matchLoop_stpRestingCorrupt sym ts ord acc p lvl restLevels oid qrest resting h0 hopp hnc hq hlk hst hg]
    simp
  | case10 ord acc h0 p lvl restLevels hopp hnc oid qrest hq resting hlk hst hpol hg =>
    subst hpol
    rw [matchLoop_stpBothSane sym ts ord acc p lvl restLevels oid qrest resting h0 hopp hnc hq hlk hst hg]
    simp
  | case11 ord acc h0 p lvl restLevels hopp hnc oid qrest hq resting hlk hst hpol hg =>
    subst hpol
    rw [matchLoop_stpBothCorrupt sym ts ord acc p lvl restLevels oid qrest resting h0 hopp hnc hq hlk hst hg]
    simp
  | case12 ord acc h0 p lvl restLevels hopp hnc oid qrest hq resting hlk hst tq ord' resting' hres hord =>
    have hres2 :
        resting.remaining_quantity - min ord.remaining_quantity resting.remaining_quantity = 0 :=
      hres
    have hord2 :
        ord.remaining_quantity - min ord.remaining_quantity resting.remaining_quantity = 0 :=
      hord
    rw [matchLoop_fill sym stp ts ord acc p lvl restLevels oid qrest resting h0 hopp hnc hq hlk hst]
    dsimp only
    rw [if_pos hres2, if_pos hord2]
    refine ⟨by simp, fun t ht p0 lvl0 rest0 he => ?_⟩
    rw [hopp] at he
    injection he with hh ht2
    injection hh with hp hl
    subst hp
    simp only [List.mem_singleton] at ht
    subst ht
    exact hrefl _
  | case13 ord acc h0 p lvl restLevels hopp hnc oid qrest hq resting hlk hst tq ord' resting' acc1 hres lvl' acc2 hord ih =>
    have hres2 :
        resting.remaining_quantity - min ord.remaining_quantity resting.remaining_quantity = 0 :=
      hres
    have hord2 :
        ¬ ord.remaining_quantity - min ord.remaining_quantity resting.remaining_quantity = 0 :=
      hord
    rw [matchLoop_fill sym stp ts ord acc p lvl restLevels oid qrest resting h0 hopp hnc hq hlk hst]
    dsimp only
    rw [if_pos hres2, if_neg hord2]
    rw [hopp] at hs
    have ih2 := ih (chain'_replace_head_level hs)
    constructor
    · simp only [List.map_cons]
      rw [List.chain'_cons']
      refine ⟨fun b hb => ?_, ih2.1⟩
      have hbmem := List.mem_of_mem_head? hb
      rcases List.mem_map.mp hbmem with ⟨t, ht, hb2⟩
      rw [← hb2]
      exact ih2.2 t ht p _ restLevels rfl
    · intro t ht p0 lvl0 rest0 he
      rw [hopp] at he
      injection he with hh ht2
      injection hh with hp hl
      subst hp
      rcases List.mem_cons.mp ht with rfl | ht
      · exact hrefl _
      · exact ih2.2 t ht p _ restLevels rfl
  | case14 ord acc h0 p lvl restLevels hopp hnc oid qrest hq resting hlk hst tq resting' hres =>
    have hres2 :
        ¬ resting.remaining_quantity - min ord.remaining_quantity resting.remaining_quantity = 0 :=
      hres
    rw [matchLoop_fill sym stp ts ord acc p lvl restLevels oid qrest resting h0 hopp hnc hq hlk hst]
    dsimp only
    rw [if_neg hres2]
    refine ⟨by simp, fun t ht p0 lvl0 rest0 he => ?_⟩
    rw [hopp] at he
    injection he with hh ht2
    injection hh with hp hl
    subst hp
    simp only [List.mem_singleton] at ht
    subst ht
    exact hrefl _

theorem queueAt_cons (p : Int) (lvl : PriceLevelQueue) (rest : Ladder) (pr : Int) :
    queueAt ((p, lvl) :: rest) pr = if pr = p then lvl.orders_ else queueAt rest pr := by
  by_cases h : pr = p <;> simp [queueAt, ladderFind, h]

theorem queueAt_eq_nil_of_not_mem {L : Ladder} {pr : Int} (h : pr ∉ L.map Prod.fst) :
    queueAt L pr = [] := by
  induction L with
  | nil => rfl
  | cons e rest ih =>
    obtain ⟨q, lvl⟩ := e
    simp only [List.map_cons, List.mem_cons, not_or] at h
    rw [queueAt_cons, if_neg h.1]
    exact ih h.2

/-- FIFO in-order consumption: the passive order ids of the trades struck at
any price form a subsequence of the FIFO queue that stood at that price when
the call began. -/
theorem matchLoop_fifo (sym : Symbol) (stp : STPPolicy) (ts : Nat) (ord : Order)
    (acc : MatchAcc) (hnd : (acc.opp.map Prod.fst).Nodup)
    (hkeyed : ∀ e ∈ acc.index, e.2.order_id = e.1) (pr : Int) :
    List.Sublist
      (((matchLoop sym stp ts ord acc).2.2.filter (fun t => t.price == pr)).map
        (fun t => t.passive_order_id))
      (queueAt acc.opp pr) := by
  induction ord, acc using matchLoop.induct sym stp ts with
  | case1 ord acc h =>
    rw [matchLoop_rem0 sym stp ts ord acc h]
    simp
  | case2 ord acc h0 hopp =>
    rw [matchLoop_oppEmpty sym stp ts ord acc h0 hopp]
    simp
  | case3 ord acc h0 p lvl restLevels hopp hc =>
    rw [matchLoop_crossExit sym stp ts ord acc p lvl restLevels h0 hopp hc]
    simp
  | case4 ord acc h0 p lvl restLevels hopp hnc hq ih =>
    rw [matchLoop_emptyLevel sym stp ts ord acc p lvl restLevels h0 hopp hnc hq]
    rw [hopp] at hnd ⊢
    simp only [List.map_cons] at hnd
    have ih2 := ih hnd.of_cons hkeyed
    rw [queueAt_cons]
    by_cases hpr : pr = p
    · subst hpr
      rw [if_pos rfl]
      have hq0 : queueAt restLevels pr = [] :=
        queueAt_eq_nil_of_not_mem (by simpa using (List.nodup_cons.mp hnd).1)
      rw [hq0] at ih2
      rw [hq, List.sublist_nil.mp ih2]
    · rw [if_neg hpr]
      exact ih2
  | case5 ord acc h0 p lvl restLevels hopp hnc oid qrest hq hlk ih =>
    rw [matchLoop_staleRef sym stp ts ord acc p lvl restLevels oid qrest h0 hopp hnc hq hlk]
    rw [hopp] at hnd ⊢
    have ih2 := ih (by simpa using hnd) hkeyed
    rw [queueAt_cons] at ih2 ⊢
    by_cases hpr : pr = p
    · rw [if_pos hpr] at ih2 ⊢
      rw [hq]
      exact ih2.trans (List.sublist_cons_self _ _)
    · rw [if_neg hpr] at ih2 ⊢
      exact ih2
  | case6 ord acc h0 p lvl restLevels hopp hnc oid qrest hq resting hlk hst hpol =>
    subst hpol
    simp [would_self_trade] at hst
  | case7 ord acc h0 p lvl restLevels hopp hnc oid qrest hq resting hlk hst hpol =>
    subst hpol
    rw [matchLoop_stpIncoming sym ts ord acc p lvl restLevels oid qrest resting h0 hopp hnc hq hlk hst]
    simp
  | case8 ord acc h0 p lvl restLevels hopp hnc oid qrest hq resting hlk hst hpol hg ih =>
    subst hpol
    rw [matchLoop_stpRestingSane sym ts ord acc p lvl restLevels oid qrest resting h0 hopp hnc hq hlk hst hg]
    rw [hopp] at hnd ⊢
    simp only [List.map_cons] at hnd
    have herase : (lvl.remove_order resting).orders_ = qrest := by
      unfold PriceLevelQueue.remove_order
      rw [if_pos (by rw [hq, hg.1]; exact List.mem_cons_self _ _)]
      rw [hq, hg.1]
      exact List.erase_cons_head _ _
    by_cases hemp : (lvl.remove_order resting).orders_ = []
    · rw [dif_pos hemp] at ih
      rw [if_pos hemp]
      have ih2 := ih hnd.of_cons (keyed_eraseId hkeyed)
      rw [queueAt_cons]
      by_cases hpr : pr = p
      · subst hpr
        rw [if_pos rfl]
        have hq0 : queueAt restLevels pr = [] :=
          queueAt_eq_nil_of_not_mem (by simpa using (List.nodup_cons.mp hnd).1)
        rw [hq0] at ih2
        rw [List.sublist_nil.mp ih2]
        exact List.nil_sublist _
      · rw [if_neg hpr]
        exact ih2
    · rw [dif_neg hemp] at ih
      rw [if_neg hemp]
      have ih2 := ih (by simpa using hnd) (keyed_eraseId hkeyed)
      rw [queueAt_cons] at ih2 ⊢
      by_cases hpr : pr = p
      · rw [if_pos hpr] at ih2 ⊢
        rw [herase] at ih2
        rw [hq]
        exact ih2.trans (List.sublist_cons_self _ _)
      · rw [if_neg hpr] at ih2 ⊢
        exact ih2
  | case9 ord acc h0 p lvl restLevels hopp hnc oid qrest hq resting hlk hst hpol hg =>
    subst hpol
    rw [matchLoop_stpRestingCorrupt sym ts ord acc p lvl restLevels oid qrest resting h0 hopp hnc hq hlk hst hg]
    simp
  | case10 ord acc h0 p lvl restLevels hopp hnc oid qrest hq resting hlk hst hpol hg =>
    subst hpol
    rw [matchLoop_stpBothSane sym ts ord acc p lvl restLevels oid qrest resting h0 hopp hnc hq hlk hst hg]
    simp
  | case11 ord acc h0 p lvl restLevels hopp hnc oid qrest hq resting hlk hst hpol hg =>
    subst hpol
    rw [matchLoop_stpBothCorrupt sym ts ord acc p lvl restLevels oid qrest resting h0 hopp hnc hq hlk hst hg]
    simp
  | case12 ord acc h0 p lvl restLevels hopp hnc oid qrest hq resting hlk hst tq ord' resting' hres hord =>
    have hres2 :
        resting.remaining_quantity - min ord.remaining_quantity resting.remaining_quantity = 0 :=
      hres
    have hord2 :
        ord.remaining_quantity - min ord.remaining_quantity resting.remaining_quantity = 0 :=
      hord
    rw [matchLoop_fill sym stp ts ord acc p lvl restLevels oid qrest resting h0 hopp hnc hq hlk hst]
    dsimp only
    rw [if_pos hres2, if_pos hord2]
    have hrid : resting.order_id = oid := keyed_resting hkeyed hlk
    rw [hopp]
    rw [queueAt_cons]
    by_cases hpr : pr = p
    · subst hpr
      rw [if_pos rfl, hq]
      have hsub : List.Sublist [oid] (oid :: qrest) := (List.nil_sublist _).cons₂ _
      simpa [create_trade, hrid] using hsub
    · rw [if_neg hpr]
      have hbf : ((create_trade sym acc ord resting
          (min ord.remaining_quantity resting.remaining_quantity) p ts).price == pr) = false := by
        simp only [create_trade, beq_eq_false_iff_ne, ne_eq]
        exact fun h => hpr h.symm
      simp only [List.filter_cons, hbf, Bool.false_eq_true, if_false, List.filter_nil,
        List.map_nil]
      exact List.nil_sublist _
  | case13 ord acc h0 p lvl restLevels hopp hnc oid qrest hq resting hlk hst tq ord' resting' acc1 hres lvl' acc2 hord ih =>
    have hres2 :
        resting.remaining_quantity - min ord.remaining_quantity resting.remaining_quantity = 0 :=
      hres
    have hord2 :
        ¬ ord.remaining_quantity - min ord.remaining_quantity resting.remaining_quantity = 0 :=
      hord
    rw [matchLoop_fill sym stp ts ord acc p lvl restLevels oid qrest resting h0 hopp hnc hq hlk hst]
    dsimp only
    rw [if_pos hres2, if_neg hord2]
    have hrid : resting.order_id = oid := keyed_resting hkeyed hlk
    have hkeyed2 : ∀ e ∈ eraseId resting.order_id
        (upsertId oid
          { resting with remaining_quantity :=
              resting.remaining_quantity - min ord.remaining_quantity resting.remaining_quantity }
          acc.index), e.2.order_id = e.1 :=
      keyed_eraseId (keyed_upsertId hkeyed hrid)
    rw [hopp] at hnd
    have ih2 := ih (by simpa using hnd) hkeyed2
    rw [hopp, queueAt_cons]
    rw [queueAt_cons] at ih2
    by_cases hpr : pr = p
    · subst hpr
      rw [if_pos rfl] at ih2
      rw [if_pos rfl, hq]
      have hbt : ((pr : Int) == pr) = true := by simp
      simp only [List.filter_cons, create_trade, hbt, eq_self_iff_true, if_true, List.map_cons]
      rw [hrid]
      unfold_let lvl' ord' acc2 tq acc1 resting' at ih2
      rw [hrid] at ih2
      dsimp only at ih2
      exact List.Sublist.cons₂ _ ih2
    · rw [if_neg hpr] at ih2
      rw [if_neg hpr]
      have hbf : ((p : Int) == pr) = false := by
        simp only [beq_eq_false_iff_ne, ne_eq]
        exact fun h => hpr h.symm
      simp only [List.filter_cons, create_trade, hbf, Bool.false_eq_true, if_false]
      unfold_let lvl' ord' acc2 tq acc1 resting' at ih2
      dsimp only at ih2
      exact ih2
  | case14 ord acc h0 p lvl restLevels hopp hnc oid qrest hq resting hlk hst tq resting' hres =>
    have hres2 :
        ¬ resting.remaining_quantity - min ord.remaining_quantity resting.remaining_quantity = 0 :=
      hres
    rw [matchLoop_fill sym stp ts ord acc p lvl restLevels oid qrest resting h0 hopp hnc hq hlk hst]
    dsimp only
    rw [if_neg hres2]
    have hrid : resting.order_id = oid := keyed_resting hkeyed hlk
    rw [hopp]
    rw [queueAt_cons]
    by_cases hpr : pr = p
    · subst hpr
      rw [if_pos rfl, hq]
      have hsub : List.Sublist [oid] (oid :: qrest) := (List.nil_sublist _).cons₂ _
      simpa [create_trade, hrid] using hsub
    · rw [if_neg hpr]
      have hbf : ((create_trade sym acc ord resting
          (min ord.remaining_quantity resting.remaining_quantity) p ts).price == pr) = false := by
        simp only [create_trade, beq_eq_false_iff_ne, ne_eq]
        exact fun h => hpr h.symm
      simp only [List.filter_cons, hbf, Bool.false_eq_true, if_false, List.filter_nil,
        List.map_nil]
      exact List.nil_sublist _

/-- The trades `add_order` returns are either exactly the matching loop's
trades or `[]` (the FOK discard path). -/
theorem add_order_trades_cases (b : OrderBook) (o : Order) (ts : Nat) :
    (b.add_order o ts).2 = [] ∨
    (b.add_order o ts).2 =
      (matchLoop b.symbol_ b.stp_policy_ ts o
        { opp := match o.side with | Side.buy => b.asks_ | Side.sell => b.bids_
          index := b.orders_
          next_trade_id_ := b.next_trade_id_
          trade_count_ := b.trade_count_
          total_volume_ := b.total_volume_ }).2.2 := by
  unfold OrderBook.add_order OrderBook.add_order_full OrderBook.match_order
  dsimp only
  split
  · split
    · right; rfl
    · split
      · left; rfl
      · right; rfl
  · right; rfl

/-- Claim C1: within one `OrderBook.add_order` call the trades come out in
strict price priority then time priority: the trade ids strictly increase
along the returned list, the trade prices are non-decreasing when the
aggressor buys and non-increasing when it sells (the best opposing level is
consumed first), and at every price the passive order ids form a sublist of
that price level's resting FIFO queue as it stood at call start (oldest
first, none skipped out of order). -/
theorem c1_add_order_price_time_priority (b : OrderBook) (o : Order) (ts : Nat)
    (hbs : sortedDesc b.bids_) (has : sortedAsc b.asks_)
    (hkeyed : ∀ e ∈ b.orders_, e.2.order_id = e.1) :
    ((b.add_order o ts).2.map (fun t => t.trade_id)).Chain' (fun a c => a < c) ∧
    (o.side = Side.buy →
      ((b.add_order o ts).2.map (fun t => t.price)).Chain' (fun a c => a ≤ c)) ∧
    (o.side = Side.sell →
      ((b.add_order o ts).2.map (fun t => t.price)).Chain' (fun a c => c ≤ a)) ∧
    ∀ pr : Int, List.Sublist
      (((b.add_order o ts).2.filter (fun t => t.price == pr)).map
        (fun t => t.passive_order_id))
      (queueAt (match o.side with | Side.buy => b.asks_ | Side.sell => b.bids_) pr) := by
  rcases add_order_trades_cases b o ts with h | h
  · rw [h]
    exact ⟨List.chain'_nil, fun _ => List.chain'_nil, fun _ => List.chain'_nil,
      fun pr => List.nil_sublist _⟩
  · rw [h]
    cases hside : o.side with
    | buy =>
      refine ⟨?_, fun _ => ?_, fun hcon => Side.noConfusion hcon, fun pr => ?_⟩
      · rw [matchLoop_trade_ids]
        exact (List.pairwise_lt_range' _ _).chain'
      · exact (matchLoop_prices_mono (fun a c => a < c) (fun a c => a ≤ c)
          (fun a => le_refl a) (fun a c d h1 h2 => le_trans (le_of_lt h1) h2)
          b.symbol_ b.stp_policy_ ts o
          { opp := b.asks_
            index := b.orders_
            next_trade_id_ := b.next_trade_id_
            trade_count_ := b.trade_count_
            total_volume_ := b.total_volume_ } has).1
      · exact matchLoop_fifo b.symbol_ b.stp_policy_ ts o _
          (sortedAsc_fst_nodup b.asks_ has) hkeyed pr
    | sell =>
      refine ⟨?_, fun hcon => Side.noConfusion hcon, fun _ => ?_, fun pr => ?_⟩
      · rw [matchLoop_trade_ids]
        exact (List.pairwise_lt_range' _ _).chain'
      · exact (matchLoop_prices_mono (fun a c => c < a) (fun a c => c ≤ a)
          (fun a => le_refl a) (fun a c d h1 h2 => le_trans h2 (le_of_lt h1))
          b.symbol_ b.stp_policy_ ts o
          { opp := b.bids_
            index := b.orders_
            next_trade_id_ := b.next_trade_id_
            trade_count_ := b.trade_count_
            total_volume_ := b.total_volume_ } hbs).1
      · exact matchLoop_fifo b.symbol_ b.stp_policy_ ts o _
          (sortedDesc_fst_nodup b.bids_ hbs) hkeyed pr

/-- Witness for C1 at a concrete input: a book holding two resting SELL
orders at 10000 then 10100, hit by a BUY 150 that walks both levels. -/
theorem c1_add_order_price_time_priority_witness :
    (sortedDesc ((((OrderBook.init [84] STPPolicy.none).add_order
        (mkOrder 1 100 Side.sell OrderType.limit 10000 100 TimeInForce.day 1) 1).1.add_order
        (mkOrder 2 101 Side.sell OrderType.limit 10100 100 TimeInForce.day 2) 2).1.bids_)) ∧
    (((((OrderBook.init [84] STPPolicy.none).add_order
        (mkOrder 1 100 Side.sell OrderType.limit 10000 100 TimeInForce.day 1) 1).1.add_order
        (mkOrder 2 101 Side.sell OrderType.limit 10100 100 TimeInForce.day 2) 2).1.add_order
        (mkOrder 3 102 Side.buy OrderType.limit 10100 150 TimeInForce.day 3) 3).2.map
        (fun t => t.trade_id)).Chain' (fun a c => a < c) := by
  have hb := c1_add_order_price_time_priority
    ((((OrderBook.init [84] STPPolicy.none).add_order
        (mkOrder 1 100 Side.sell OrderType.limit 10000 100 TimeInForce.day 1) 1).1.add_order
        (mkOrder 2 101 Side.sell OrderType.limit 10100 100 TimeInForce.day 2) 2).1)
    (mkOrder 3 102 Side.buy OrderType.limit 10100 150 TimeInForce.day 3) 3
    (by decide) (by decide) (by decide)
  exact ⟨by decide, hb.1⟩

/-- Claim C4: for any legal request stream (each new order id fresh at its
submission, the data model's standing assumption) applied from a fresh book —
`add_order` with LIMIT or MARKET orders of any time-in-force, `cancel_order`,
`replace_order`, under every STP policy — whenever both a best bid and a best
ask exist afterwards, the best bid is strictly below the best ask: the book
is never crossed after matching completes. -/
theorem c4_never_crossed (sym : Symbol) (stp : STPPolicy) (ops : List BookOp)
    (hok : StreamOK (OrderBook.init sym stp) ops) (pb pa : Int)
    (hb : (applyOps (OrderBook.init sym stp) ops).get_best_bid = some pb)
    (ha : (applyOps (OrderBook.init sym stp) ops).get_best_ask = some pa) :
    pb < pa := by
  have hwf := bookWF_applyOps (bookWF_init sym stp) hok
  unfold OrderBook.get_best_bid at hb
  unfold OrderBook.get_best_ask at ha
  rcases Option.map_eq_some'.mp hb with ⟨eb, heb, hpb⟩
  rcases Option.map_eq_some'.mp ha with ⟨ea, hea, hpa⟩
  subst hpb
  subst hpa
  exact hwf.cross_ok _ (List.mem_map_of_mem Prod.fst (List.mem_of_mem_head? heb)) _
    (List.mem_map_of_mem Prod.fst (List.mem_of_mem_head? hea))

/-- Witness for C4: a stream resting a bid at 9900 and an ask at 10000 is
legal, and the theorem yields 9900 < 10000 for the resulting book. -/
theorem c4_never_crossed_witness :
    StreamOK (OrderBook.init [84] STPPolicy.none)
        [BookOp.add (mkOrder 1 100 Side.buy OrderType.limit 9900 10 TimeInForce.day 1) 1,
          BookOp.add (mkOrder 2 101 Side.sell OrderType.limit 10000 10 TimeInForce.day 2) 2] ∧
    (9900 : Int) < 10000 := by
  refine ⟨⟨rfl, rfl, trivial⟩, ?_⟩
  exact c4_never_crossed [84] STPPolicy.none
    [BookOp.add (mkOrder 1 100 Side.buy OrderType.limit 9900 10 TimeInForce.day 1) 1,
      BookOp.add (mkOrder 2 101 Side.sell OrderType.limit 10000 10 TimeInForce.day 2) 2]
    ⟨rfl, rfl, trivial⟩ 9900 10000 rfl rfl

/-- Claim C10: `add_order` performs no duplicate-id check.  The one-to-one
index/queue correspondence (`BookWF`, whose `occ_one` field states it) is
preserved by the operation under the precondition that the resting id is not
already indexed; and concretely, resting a DAY order whose id 1 already rests
on the opposite side overwrites the index entry (the stored SELL order is
destroyed, the lookup now returns the new BUY order) while both queue
occurrences of id 1 remain — two queue slots against one index entry. -/
theorem c10_duplicate_id_overwrites (b : OrderBook) (o : Order) (ts : Nat)
    (hwf : BookWF b) (hfresh : lookupId o.order_id b.orders_ = Option.none) :
    BookWF (b.add_order o ts).1 ∧
    (ladderOcc 1 (((OrderBook.init [84] STPPolicy.none).add_order (mkOrder 1 100 Side.sell OrderType.limit 10000 50 TimeInForce.day 1) 1).1.add_order (mkOrder 1 101 Side.buy OrderType.limit 9000 30 TimeInForce.day 2) 2).1.bids_ + ladderOcc 1 (((OrderBook.init [84] STPPolicy.none).add_order (mkOrder 1 100 Side.sell OrderType.limit 10000 50 TimeInForce.day 1) 1).1.add_order (mkOrder 1 101 Side.buy OrderType.limit 9000 30 TimeInForce.day 2) 2).1.asks_ = 2 ∧
      (((OrderBook.init [84] STPPolicy.none).add_order (mkOrder 1 100 Side.sell OrderType.limit 10000 50 TimeInForce.day 1) 1).1.add_order (mkOrder 1 101 Side.buy OrderType.limit 9000 30 TimeInForce.day 2) 2).1.orders_.map Prod.fst = [1] ∧
      lookupId 1 (((OrderBook.init [84] STPPolicy.none).add_order (mkOrder 1 100 Side.sell OrderType.limit 10000 50 TimeInForce.day 1) 1).1.add_order (mkOrder 1 101 Side.buy OrderType.limit 9000 30 TimeInForce.day 2) 2).1.orders_ =
        some (mkOrder 1 101 Side.buy OrderType.limit 9000 30 TimeInForce.day 2)) :=
  ⟨bookWF_add b o ts hwf hfresh, rfl, rfl, rfl⟩

/-- Witness for C10 at a concrete input: the empty book is well-formed, id 7
is fresh in it, and the theorem applies. -/
theorem c10_duplicate_id_overwrites_witness :
    lookupId 7 (OrderBook.init [84] STPPolicy.none).orders_ = Option.none ∧
    BookWF ((OrderBook.init [84] STPPolicy.none).add_order
      (mkOrder 7 100 Side.buy OrderType.limit 9000 10 TimeInForce.day 1) 1).1 := by
  have h := c10_duplicate_id_overwrites (OrderBook.init [84] STPPolicy.none)
    (mkOrder 7 100 Side.buy OrderType.limit 9000 10 TimeInForce.day 1) 1
    (bookWF_init [84] STPPolicy.none) rfl
  exact ⟨rfl, h.1⟩

/-- Claim C2 (the code contradicts it; the repository's own
`docs/design.md` agrees with the claim: "FOK … Pre-check: Is sufficient
liquidity available? … Never partially filled").  Failing input evaluated:
book with a resting SELL 50@10000, incoming FOK BUY 100@10000.  The call
does return no trades and the order does not rest — but the book is *not*
unchanged: the partial match ran before the FOK test, the resting order was
consumed and destroyed (best ask gone, index empty) and a trade id was
burned, so the behaviour is not equivalent to a fillability pre-check. -/
theorem c2_fok_failing_input_evaluation :
    (((OrderBook.init [84] STPPolicy.none).add_order
        (mkOrder 1 100 Side.sell OrderType.limit 10000 50 TimeInForce.day 1) 1).1.add_order
        (mkOrder 2 101 Side.buy OrderType.limit 10000 100 TimeInForce.fok 2) 2).2 = [] ∧
    (((OrderBook.init [84] STPPolicy.none).add_order
        (mkOrder 1 100 Side.sell OrderType.limit 10000 50 TimeInForce.day 1) 1).1.add_order
        (mkOrder 2 101 Side.buy OrderType.limit 10000 100 TimeInForce.fok 2) 2).1.orders_ = [] ∧
    ((OrderBook.init [84] STPPolicy.none).add_order
        (mkOrder 1 100 Side.sell OrderType.limit 10000 50 TimeInForce.day 1) 1).1.get_best_ask
      = some 10000 ∧
    (((OrderBook.init [84] STPPolicy.none).add_order
        (mkOrder 1 100 Side.sell OrderType.limit 10000 50 TimeInForce.day 1) 1).1.add_order
        (mkOrder 2 101 Side.buy OrderType.limit 10000 100 TimeInForce.fok 2) 2).1.get_best_ask
      = Option.none ∧
    (((OrderBook.init [84] STPPolicy.none).add_order
        (mkOrder 1 100 Side.sell OrderType.limit 10000 50 TimeInForce.day 1) 1).1.add_order
        (mkOrder 2 101 Side.buy OrderType.limit 10000 100 TimeInForce.fok 2) 2).1.next_trade_id_
      = 2 := by
  decide

/-- Claim C6 (the code contradicts it; the repository's own `docs/design.md`
and `docs/determinism.md` agree with the claim: "MARKET Order … Never rests
on book").  Failing input evaluated: an empty book and a DAY MARKET BUY of
10.  The call returns zero trades, but the order *rests*: it is inserted
into the index and onto the bid ladder at its (meaningless) `price` field. -/
theorem c6_market_day_failing_input_evaluation :
    ((OrderBook.init [84] STPPolicy.none).add_order
        (mkOrder 2 101 Side.buy OrderType.market 0 10 TimeInForce.day 2) 2).2 = [] ∧
    ((OrderBook.init [84] STPPolicy.none).add_order
        (mkOrder 2 101 Side.buy OrderType.market 0 10 TimeInForce.day 2) 2).1.get_best_bid
      = some 0 ∧
    (lookupId 2 ((OrderBook.init [84] STPPolicy.none).add_order
        (mkOrder 2 101 Side.buy OrderType.market 0 10 TimeInForce.day 2) 2).1.orders_).isSome
      = true := by
  decide

/-- Claim C3 as stated is false: under `CANCEL_INCOMING` self-trade
prevention the incoming order's remaining quantity is zeroed without a fill.
Concrete input: a resting SELL 100@10000 of trader 7, then an incoming BUY
100@10000 of the same trader under `CANCEL_INCOMING`: no trades are
returned and the order's final remaining quantity is 0, so fills (0) plus
remaining (0) is not the original quantity (100). -/
theorem c3_counterexample :
    ¬ (sumFills (((OrderBook.init [84] STPPolicy.cancelIncoming).add_order
          (mkOrder 1 7 Side.sell OrderType.limit 10000 100 TimeInForce.day 1) 1).1.add_order_full
          (mkOrder 2 7 Side.buy OrderType.limit 10000 100 TimeInForce.day 2) 2).2.1 +
        (((OrderBook.init [84] STPPolicy.cancelIncoming).add_order
          (mkOrder 1 7 Side.sell OrderType.limit 10000 100 TimeInForce.day 1) 1).1.add_order_full
          (mkOrder 2 7 Side.buy OrderType.limit 10000 100 TimeInForce.day 2) 2).2.2.remaining_quantity
      = 100) := by
  decide

/-- Claim C3, amended as the counterexample forces: the fill/remainder
conservation `Σ fills + remaining_after = original_quantity` holds for every
incoming order provided (a) the book's STP policy is `NONE` or
`CANCEL_RESTING` (under `CANCEL_INCOMING`/`CANCEL_BOTH` a self-trade zeroes
`remaining_quantity` with no fill) and (b) the order is not killed by the
FOK branch (which discards the produced trades from the returned list). -/
theorem c3_amended_conservation (b : OrderBook) (o : Order) (ts : Nat)
    (hstp : b.stp_policy_ = STPPolicy.none ∨ b.stp_policy_ = STPPolicy.cancelResting)
    (hq : o.remaining_quantity = o.quantity)
    (hfok : ¬ (o.time_in_force = TimeInForce.fok ∧
        0 < (b.add_order_full o ts).2.2.remaining_quantity)) :
    sumFills (b.add_order_full o ts).2.1 +
      (b.add_order_full o ts).2.2.remaining_quantity = o.quantity := by
  have hc := match_order_conservation b o ts hstp
  rw [hq] at hc
  rw [add_order_full_order_eq] at hfok ⊢
  have hshape := match_order_order_shape b o ts
  unfold OrderBook.add_order_full
  dsimp only
  split_ifs with h1 h2 h3
  · exact hc
  · exfalso
    refine hfok ⟨?_, h1⟩
    have : (b.match_order o ts).2.1.time_in_force = o.time_in_force := by
      rw [hshape]
    rw [← this]
    exact h3
  · exact hc
  · exact hc

/-- Witness for C3 amended: a lone DAY order on an empty `NONE`-policy book
(no match, rests whole). -/
theorem c3_amended_conservation_witness :
    sumFills (((OrderBook.init [84] STPPolicy.none).add_order_full
        (mkOrder 1 5 Side.buy OrderType.limit 100 10 TimeInForce.day 1) 1)).2.1 +
      (((OrderBook.init [84] STPPolicy.none).add_order_full
        (mkOrder 1 5 Side.buy OrderType.limit 100 10 TimeInForce.day 1) 1)).2.2.remaining_quantity
      = (mkOrder 1 5 Side.buy OrderType.limit 100 10 TimeInForce.day 1).quantity :=
  c3_amended_conservation (OrderBook.init [84] STPPolicy.none)
    (mkOrder 1 5 Side.buy OrderType.limit 100 10 TimeInForce.day 1) 1
    (Or.inl rfl) rfl (by decide)

/-- Claim C7: for a resident order id, `replace_order` is exactly
`cancel_order` followed by `add_order` of a fresh order that carries the new
price and quantity and inherits every other attribute (side, trader, symbol,
type, time in force, even the original timestamp) from the original; and when
the replacement rests, it joins the *back* of the FIFO queue at its new price
on its side — time priority is lost.  (`hkey` is the book's key = stored-id
invariant, which `add_order` establishes for every entry it creates.) -/
theorem c7_replace_eq_cancel_then_add (b : OrderBook) (id : Nat) (new_price : Int)
    (new_quantity : Nat) (ts : Nat) (o : Order)
    (h : lookupId id b.orders_ = some o) (hkey : o.order_id = id) :
    b.replace_order id new_price new_quantity ts =
      (b.cancel_order id).1.add_order
        { o with price := new_price, quantity := new_quantity, remaining_quantity := new_quantity } ts ∧
    (0 < ((b.cancel_order id).1.add_order_full
          { o with price := new_price, quantity := new_quantity, remaining_quantity := new_quantity } ts).2.2.remaining_quantity →
      o.time_in_force ≠ TimeInForce.ioc → o.time_in_force ≠ TimeInForce.fok →
      (queueAt
          (match o.side with
            | Side.buy => (b.replace_order id new_price new_quantity ts).1.bids_
            | Side.sell => (b.replace_order id new_price new_quantity ts).1.asks_)
          new_price).getLast? = some id) := by
  have hrepl :
      b.replace_order id new_price new_quantity ts =
        (b.cancel_order id).1.add_order
          { o with price := new_price, quantity := new_quantity, remaining_quantity := new_quantity } ts := by
    simp only [OrderBook.replace_order, OrderBook.cancel_order, h]
  refine ⟨hrepl, fun hrem hioc hfok => ?_⟩
  rw [hrepl]
  set b1 := (b.cancel_order id).1 with hb1
  set newo : Order :=
    { o with price := new_price, quantity := new_quantity, remaining_quantity := new_quantity }
    with hnewo
  have hshape := match_order_order_shape b1 newo ts
  have ho1 := add_order_full_order_eq b1 newo ts
  rw [ho1] at hrem
  have htifI : ¬ (b1.match_order newo ts).2.1.time_in_force = TimeInForce.ioc := by
    rw [hshape]
    exact hioc
  have htifF : ¬ (b1.match_order newo ts).2.1.time_in_force = TimeInForce.fok := by
    rw [hshape]
    exact hfok
  have hside : (b1.match_order newo ts).2.1.side = o.side := by rw [hshape]
  have hprice : (b1.match_order newo ts).2.1.price = new_price := by rw [hshape]
  have hid : (b1.match_order newo ts).2.1.order_id = id := by
    rw [hshape]
    exact hkey
  unfold OrderBook.add_order OrderBook.add_order_full
  dsimp only
  rw [if_pos hrem, if_neg htifI, if_neg htifF]
  unfold OrderBook.add_to_book
  cases hs : o.side with
  | buy =>
    rw [hs] at hside
    simp only [hside]
    rw [← hprice, ← hid]
    exact ladderAdd_back _ _ _
  | sell =>
    rw [hs] at hside
    simp only [hside]
    rw [← hprice, ← hid]
    exact ladderAdd_back _ _ _



/-- Witness for C7 at a concrete input: a book holding one resting BUY
10@10000 under id 3; replacing it to 5@10100 equals cancel-then-add and the
replacement sits at the back (here: only slot) of the 10100 bid queue. -/
theorem c7_replace_eq_cancel_then_add_witness :
    lookupId 3 (((OrderBook.init [84] STPPolicy.none).add_order
        (mkOrder 3 100 Side.buy OrderType.limit 10000 10 TimeInForce.day 1) 1).1).orders_ =
      some (mkOrder 3 100 Side.buy OrderType.limit 10000 10 TimeInForce.day 1) ∧
    (((OrderBook.init [84] STPPolicy.none).add_order
        (mkOrder 3 100 Side.buy OrderType.limit 10000 10 TimeInForce.day 1) 1).1.replace_order
        3 10100 5 2 =
      ((((OrderBook.init [84] STPPolicy.none).add_order
        (mkOrder 3 100 Side.buy OrderType.limit 10000 10 TimeInForce.day 1) 1).1.cancel_order
        3).1.add_order
        { mkOrder 3 100 Side.buy OrderType.limit 10000 10 TimeInForce.day 1 with
            price := 10100, quantity := 5, remaining_quantity := 5 } 2)) ∧
    (queueAt ((((OrderBook.init [84] STPPolicy.none).add_order
        (mkOrder 3 100 Side.buy OrderType.limit 10000 10 TimeInForce.day 1) 1).1.replace_order
        3 10100 5 2).1.bids_) 10100).getLast? = some 3 := by
  have h := c7_replace_eq_cancel_then_add
    (((OrderBook.init [84] STPPolicy.none).add_order
      (mkOrder 3 100 Side.buy OrderType.limit 10000 10 TimeInForce.day 1) 1).1)
    3 10100 5 2
    (mkOrder 3 100 Side.buy OrderType.limit 10000 10 TimeInForce.day 1)
    rfl rfl
  exact ⟨rfl, h.1, h.2 (by decide) (by decide) (by decide)⟩

/-- Counterexample for C8's engine half: an engine with symbol "T"
registered and an empty book.  A `ReplaceRequest` for the unknown order id 42
passes validation, touches nothing — and yet `handle(ReplaceRequest)` emits
an `OrderReplacedEvent` and reports `SUCCESS`, so the outcome is *not*
conveyed only via the empty trade list and the no-lifecycle-event part of the
claim is false. -/
theorem c8_counterexample :
    ((MatchingEngine.add_symbol { } { symbol := [84], tick_size := 1, lot_size := 1, min_quantity := 1, stp_policy := STPPolicy.none }).1.handleReplace { order_id := 42, symbol := [84], new_price := 100, new_quantity := 5 } 7).2.trades = [] ∧
    ((MatchingEngine.add_symbol { } { symbol := [84], tick_size := 1, lot_size := 1, min_quantity := 1, stp_policy := STPPolicy.none }).1.handleReplace { order_id := 42, symbol := [84], new_price := 100, new_quantity := 5 } 7).2.result = ResultCode.SUCCESS ∧
    ((MatchingEngine.add_symbol { } { symbol := [84], tick_size := 1, lot_size := 1, min_quantity := 1, stp_policy := STPPolicy.none }).1.handleReplace { order_id := 42, symbol := [84], new_price := 100, new_quantity := 5 } 7).2.replaces ≠ [] := by
  exact ⟨rfl, rfl, by decide⟩

/-- Claim C8, amended: `replace_order` of an unknown id returns an empty
trade list and leaves the book untouched, and the engine's replace handler
for such an id produces no trade and leaves every book unchanged — but it
does emit an `OrderReplacedEvent` (with `++sequence_number` stamp) and
reports `SUCCESS`, rather than staying silent as the claim stated. -/
theorem c8_replace_unknown_id_amended (b : OrderBook) (id : Nat) (p : Int) (q ts : Nat)
    (hmiss : lookupId id b.orders_ = Option.none)
    (e : MatchingEngine) (req : ReplaceRequest) (ts2 : Nat)
    (hv : e.validate_replace req = ResultCode.SUCCESS)
    (hbook : lookupSym req.symbol e.order_books_ = some b)
    (hmiss2 : lookupId req.order_id b.orders_ = Option.none) :
    b.replace_order id p q ts = (b, []) ∧
    (e.handleReplace req ts2).2.trades = [] ∧
    (e.handleReplace req ts2).2.result = ResultCode.SUCCESS ∧
    (e.handleReplace req ts2).1.order_books_ = e.order_books_ ∧
    (e.handleReplace req ts2).2.replaces =
      [{ old_order_id := req.order_id, new_order_id := req.order_id, symbol := req.symbol, new_price := req.new_price, new_quantity := req.new_quantity, timestamp := ts2, sequence_number := e.sequence_number_ + 1 }] := by
  have hrepl1 : b.replace_order id p q ts = (b, []) := by
    unfold OrderBook.replace_order
    rw [hmiss]
  have hrepl2 : b.replace_order req.order_id req.new_price req.new_quantity ts2 = (b, []) := by
    unfold OrderBook.replace_order
    rw [hmiss2]
  have hHR : e.handleReplace req ts2 =
      ({ e with order_books_ := upsertSym req.symbol b e.order_books_, sequence_number_ := e.sequence_number_ + 1 + ([] : List TradeEvent).length },
        { order_id := req.order_id, result := ResultCode.SUCCESS, replaces := [{ old_order_id := req.order_id, new_order_id := req.order_id, symbol := req.symbol, new_price := req.new_price, new_quantity := req.new_quantity, timestamp := ts2, sequence_number := e.sequence_number_ + 1 }], trades := ([] : List TradeEvent).enum.map (fun it => { it.2 with sequence_number := e.sequence_number_ + 1 + 1 + it.1 }) }) := by
    unfold MatchingEngine.handleReplace
    rw [if_neg (by rw [hv]; simp)]
    dsimp only
    rw [hbook]
    dsimp only [Option.getD]
    rw [hrepl2]
  refine ⟨hrepl1, ?_, ?_, ?_, ?_⟩
  · rw [hHR]
    rfl
  · rw [hHR]
  · rw [hHR]
    dsimp only
    exact upsertSym_lookup_self hbook
  · rw [hHR]

/-- Witness for C8's amended theorem at a concrete input: an engine holding
the fresh book for symbol "T", a replace of the unknown id 42. -/
theorem c8_replace_unknown_id_amended_witness :
    (OrderBook.init [84] STPPolicy.none).replace_order 5 100 7 3 =
      (OrderBook.init [84] STPPolicy.none, []) ∧
    ((MatchingEngine.add_symbol { } { symbol := [84], tick_size := 1, lot_size := 1, min_quantity := 1, stp_policy := STPPolicy.none }).1.handleReplace { order_id := 42, symbol := [84], new_price := 100, new_quantity := 5 } 7).2.trades = [] ∧
    ((MatchingEngine.add_symbol { } { symbol := [84], tick_size := 1, lot_size := 1, min_quantity := 1, stp_policy := STPPolicy.none }).1.handleReplace { order_id := 42, symbol := [84], new_price := 100, new_quantity := 5 } 7).1.order_books_ =
      (MatchingEngine.add_symbol { } { symbol := [84], tick_size := 1, lot_size := 1, min_quantity := 1, stp_policy := STPPolicy.none }).1.order_books_ := by
  have h := c8_replace_unknown_id_amended (OrderBook.init [84] STPPolicy.none) 5 100 7 3 rfl
    (MatchingEngine.add_symbol { } { symbol := [84], tick_size := 1, lot_size := 1, min_quantity := 1, stp_policy := STPPolicy.none }).1
    { order_id := 42, symbol := [84], new_price := 100, new_quantity := 5 } 7
    rfl rfl rfl
  exact ⟨h.1, h.2.1, h.2.2.2.1⟩

/-! ### The binary codec: byte-string arithmetic -/

theorem beBytes_length (n v : Nat) : (beBytes n v).length = n := by
  induction n generalizing v with
  | zero => rfl
  | succ n ih => simp [beBytes, ih]

theorem beVal_append_byte (l : List Nat) (b : Nat) :
    beVal (l ++ [b]) = (beVal l) * 256 + b % 256 := by
  unfold beVal
  rw [List.foldl_append]
  rfl

theorem beVal_beBytes {n v : Nat} (h : v < 2 ^ (8 * n)) : beVal (beBytes n v) = v := by
  induction n generalizing v with
  | zero =>
    simp only [Nat.mul_zero, pow_zero, Nat.lt_one_iff] at h
    subst h
    rfl
  | succ n ih =>
    rw [beBytes, beVal_append_byte]
    have hpow : 2 ^ (8 * (n + 1)) = 2 ^ (8 * n) * 256 := by
      rw [Nat.mul_succ, pow_add]
      norm_num
    rw [hpow] at h
    have hdiv : v / 256 < 2 ^ (8 * n) := by omega
    rw [ih hdiv]
    omega

theorem priceToU64_lt (p : Int) : priceToU64 p < 2 ^ 64 := by
  unfold priceToU64
  have e0 : p.emod (2 ^ 64) = p % 18446744073709551616 := rfl
  rw [e0]
  have : (2 : Nat) ^ 64 = 18446744073709551616 := by norm_num
  rw [this]
  omega

theorem u64ToPrice_priceToU64 (p : Int) (h1 : -2 ^ 63 ≤ p) (h2 : p < 2 ^ 63) :
    u64ToPrice (priceToU64 p) = p := by
  unfold u64ToPrice priceToU64
  have e0 : p.emod (2 ^ 64) = p % 18446744073709551616 := rfl
  rw [e0]
  have e3 : (2 : Nat) ^ 63 = 9223372036854775808 := by norm_num
  have e4 : (2 : Int) ^ 64 = 18446744073709551616 := by norm_num
  have e5 : (2 : Int) ^ 63 = 9223372036854775808 := by norm_num
  rw [e3, e4]
  rw [e5] at h2
  split <;> omega

theorem encodeLevel_length (lvl : PriceLevel) : (encodeLevel lvl).length = 16 := by
  simp [encodeLevel, beBytes_length]

theorem flatten_encode_length (ls : List PriceLevel) :
    ((ls.map encodeLevel).flatten).length = 16 * ls.length := by
  induction ls with
  | nil => rfl
  | cons l rest ih =>
    simp only [List.map_cons, List.flatten_cons, List.length_append, encodeLevel_length, ih,
      List.length_cons]
    omega

theorem readLevels_flatten (ls : List PriceLevel) (tail : List Nat)
    (hq : ∀ l ∈ ls, l.quantity < 2 ^ 64)
    (hp : ∀ l ∈ ls, -2 ^ 63 ≤ l.price ∧ l.price < 2 ^ 63) :
    readLevels ls.length ((ls.map encodeLevel).flatten ++ tail) =
      ls.map (fun l => { price := l.price, quantity := l.quantity, order_count := 0 }) := by
  induction ls with
  | nil => rfl
  | cons l rest ih =>
    simp only [List.map_cons, List.flatten_cons, List.length_cons]
    rw [readLevels]
    have hlen : ¬ ((encodeLevel l ++ (rest.map encodeLevel).flatten) ++ tail).length < 16 := by
      simp [List.length_append, encodeLevel_length]
    rw [List.append_assoc]
    rw [if_neg (by simpa [List.append_assoc] using hlen)]
    have htake8 : ((encodeLevel l ++ ((rest.map encodeLevel).flatten ++ tail)).take 8) =
        beBytes 8 (priceToU64 l.price) := by
      unfold encodeLevel
      rw [List.append_assoc]
      exact List.take_left' (beBytes_length _ _)
    have hdrop8 : ((encodeLevel l ++ ((rest.map encodeLevel).flatten ++ tail)).drop 8) =
        beBytes 8 l.quantity ++ ((rest.map encodeLevel).flatten ++ tail) := by
      unfold encodeLevel
      rw [List.append_assoc]
      exact List.drop_left' (beBytes_length _ _)
    have hdrop16 : ((encodeLevel l ++ ((rest.map encodeLevel).flatten ++ tail)).drop 16) =
        (rest.map encodeLevel).flatten ++ tail := by
      have h16 : (encodeLevel l).length = 16 := encodeLevel_length l
      exact List.drop_left' h16
    rw [htake8, hdrop8, hdrop16]
    rw [List.take_left' (beBytes_length _ _)]
    rw [beVal_beBytes (by have := priceToU64_lt l.price; simpa using this)]
    rw [beVal_beBytes (by simpa using hq l (List.mem_cons_self _ _))]
    rw [u64ToPrice_priceToU64 l.price (hp l (List.mem_cons_self _ _)).1
      (hp l (List.mem_cons_self _ _)).2]
    rw [ih (fun x hx => hq x (List.mem_cons_of_mem _ hx))
      (fun x hx => hp x (List.mem_cons_of_mem _ hx))]

set_option maxRecDepth 8000 in
/-- Counterexample for C9 as stated over *every* snapshot: the symbol length
is written as a single truncated byte (`% 256`), so a 256-byte symbol decodes
to the empty string and the round-trip fails on the `symbol` field. -/
theorem c9_counterexample :
    (DepthSnapshot.from_binary (DepthSnapshot.to_binary
        { symbol := List.replicate 256 65, bids := [], asks := [], timestamp := 0, sequence_number := 0 })).symbol ≠
      (List.replicate 256 65 : List Nat) := by
  decide

set_option maxRecDepth 4000 in
/-- Claim C9, amended: decoding the encoding recovers `symbol`, `timestamp`,
`sequence_number` and the two level lists on `price` and `quantity`, with
`order_count` reset to 0 — provided the snapshot fits the wire format: the
symbol is at most 255 bytes (its length is stored in one byte), the level
counts fit 32 bits, timestamp, sequence number and quantities fit 64 bits,
and prices fit a signed 64-bit integer. -/
theorem c9_roundtrip_amended (s : DepthSnapshot)
    (hsym : s.symbol.length ≤ 255)
    (hnb : s.bids.length < 2 ^ 32) (hna : s.asks.length < 2 ^ 32)
    (hts : s.timestamp < 2 ^ 64) (hseq : s.sequence_number < 2 ^ 64)
    (hbq : ∀ l ∈ s.bids, l.quantity < 2 ^ 64) (haq : ∀ l ∈ s.asks, l.quantity < 2 ^ 64)
    (hbp : ∀ l ∈ s.bids, -2 ^ 63 ≤ l.price ∧ l.price < 2 ^ 63)
    (hap : ∀ l ∈ s.asks, -2 ^ 63 ≤ l.price ∧ l.price < 2 ^ 63) :
    DepthSnapshot.from_binary (DepthSnapshot.to_binary s) =
      { symbol := s.symbol
        bids := s.bids.map (fun l => { price := l.price, quantity := l.quantity, order_count := 0 })
        asks := s.asks.map (fun l => { price := l.price, quantity := l.quantity, order_count := 0 })
        timestamp := s.timestamp
        sequence_number := s.sequence_number } := by
  have hdata : DepthSnapshot.to_binary s =
      76 :: 79 :: 66 :: 49 :: 0 :: 1 :: (s.symbol.length % 256) :: 0 ::
      (beBytes 4 s.bids.length ++ (beBytes 4 s.asks.length ++ (beBytes 8 s.timestamp ++
        (beBytes 8 s.sequence_number ++ (s.symbol ++ ((s.bids.map encodeLevel).flatten ++
        ((s.asks.map encodeLevel).flatten ++ [0, 0, 0, 0]))))))) := by
    unfold DepthSnapshot.to_binary
    rw [show beBytes 4 0x4C4F4231 = [76, 79, 66, 49] from rfl,
      show beBytes 2 1 = [0, 1] from rfl]
    simp only [List.cons_append, List.nil_append, List.append_assoc]
  rw [hdata]
  have hmod : s.symbol.length % 256 = s.symbol.length := Nat.mod_eq_of_lt (by omega)
  rw [hmod]
  unfold DepthSnapshot.from_binary
  rw [if_neg (by
    simp only [List.length_cons, List.length_append, beBytes_length]
    omega)]
  rw [if_neg (by
    rw [show ((76 : Nat) :: 79 :: 66 :: 49 :: 0 :: 1 :: s.symbol.length :: 0 ::
      (beBytes 4 s.bids.length ++ (beBytes 4 s.asks.length ++ (beBytes 8 s.timestamp ++
        (beBytes 8 s.sequence_number ++ (s.symbol ++ ((s.bids.map encodeLevel).flatten ++
        ((s.asks.map encodeLevel).flatten ++ [0, 0, 0, 0])))))))).take 4 = [76, 79, 66, 49]
      from rfl]
    decide)]
  dsimp only
  rw [show ∀ R : List Nat, ((76 : Nat) :: 79 :: 66 :: 49 :: 0 :: 1 ::
      s.symbol.length :: 0 :: R).getD 6 0 = s.symbol.length from fun R => rfl]
  rw [show ∀ R : List Nat, ((76 : Nat) :: 79 :: 66 :: 49 :: 0 :: 1 ::
      s.symbol.length :: 0 :: R).drop 8 = R from fun R => rfl]
  rw [← List.drop_drop]
  rw [show ∀ T : List Nat, ((76 : Nat) :: 79 :: 66 :: 49 :: 0 :: 1 :: s.symbol.length :: 0 :: T).drop 12 = T.drop 4 from fun T => rfl]
  rw [show ∀ T : List Nat, ((76 : Nat) :: 79 :: 66 :: 49 :: 0 :: 1 :: s.symbol.length :: 0 :: T).drop 16 = T.drop 8 from fun T => rfl]
  rw [show ∀ T : List Nat, ((76 : Nat) :: 79 :: 66 :: 49 :: 0 :: 1 :: s.symbol.length :: 0 :: T).drop 24 = T.drop 16 from fun T => rfl]
  rw [show ∀ T : List Nat, ((76 : Nat) :: 79 :: 66 :: 49 :: 0 :: 1 :: s.symbol.length :: 0 :: T).drop 32 = T.drop 24 from fun T => rfl]
  set BF := (List.map encodeLevel s.bids).flatten with hBF
  set AF := (List.map encodeLevel s.asks).flatten with hAF
  set R := beBytes 4 s.bids.length ++ (beBytes 4 s.asks.length ++ (beBytes 8 s.timestamp ++ (beBytes 8 s.sequence_number ++ (s.symbol ++ (BF ++ (AF ++ [0, 0, 0, 0])))))) with hRdef
  have hnb4 : s.bids.length < 2 ^ (8 * 4) := by
    have e : (2 : Nat) ^ (8 * 4) = 2 ^ 32 := by norm_num
    rw [e]
    exact hnb
  have hna4 : s.asks.length < 2 ^ (8 * 4) := by
    have e : (2 : Nat) ^ (8 * 4) = 2 ^ 32 := by norm_num
    rw [e]
    exact hna
  have hts8 : s.timestamp < 2 ^ (8 * 8) := by
    have e : (2 : Nat) ^ (8 * 8) = 2 ^ 64 := by norm_num
    rw [e]
    exact hts
  have hseq8 : s.sequence_number < 2 ^ (8 * 8) := by
    have e : (2 : Nat) ^ (8 * 8) = 2 ^ 64 := by norm_num
    rw [e]
    exact hseq
  have h4 : R.drop 4 = beBytes 4 s.asks.length ++ (beBytes 8 s.timestamp ++ (beBytes 8 s.sequence_number ++ (s.symbol ++ (BF ++ (AF ++ [0, 0, 0, 0]))))) := by
    rw [hRdef]
    exact List.drop_left' (beBytes_length _ _)
  have h8 : R.drop 8 = beBytes 8 s.timestamp ++ (beBytes 8 s.sequence_number ++ (s.symbol ++ (BF ++ (AF ++ [0, 0, 0, 0])))) := by
    have hsplit : R.drop 8 = (R.drop 4).drop 4 := (List.drop_drop 4 4 R).symm
    rw [hsplit, h4]
    exact List.drop_left' (beBytes_length _ _)
  have h16 : R.drop 16 = beBytes 8 s.sequence_number ++ (s.symbol ++ (BF ++ (AF ++ [0, 0, 0, 0]))) := by
    have hsplit : R.drop 16 = (R.drop 8).drop 8 := (List.drop_drop 8 8 R).symm
    rw [hsplit, h8]
    exact List.drop_left' (beBytes_length _ _)
  have h24 : R.drop 24 = s.symbol ++ (BF ++ (AF ++ [0, 0, 0, 0])) := by
    have hsplit : R.drop 24 = (R.drop 16).drop 8 := (List.drop_drop 8 16 R).symm
    rw [hsplit, h16]
    exact List.drop_left' (beBytes_length _ _)
  have htake4 : R.take 4 = beBytes 4 s.bids.length := by
    rw [hRdef]
    exact List.take_left' (beBytes_length _ _)
  rw [htake4, h4, h8, h16, h24]
  rw [List.take_left' (beBytes_length 4 s.asks.length),
    List.take_left' (beBytes_length 8 s.timestamp),
    List.take_left' (beBytes_length 8 s.sequence_number)]
  rw [beVal_beBytes hnb4, beVal_beBytes hna4, beVal_beBytes hts8, beVal_beBytes hseq8]
  rw [List.take_left, List.drop_left]
  rw [hBF]
  rw [readLevels_flatten s.bids (AF ++ [0, 0, 0, 0]) hbq hbp]
  rw [List.length_map]
  rw [List.drop_left' (flatten_encode_length s.bids)]
  rw [hAF]
  rw [readLevels_flatten s.asks [0, 0, 0, 0] haq hap]

/-- Witness for C9's amended round-trip at a concrete snapshot within all
wire-format bounds. -/
theorem c9_roundtrip_amended_witness :
    DepthSnapshot.from_binary (DepthSnapshot.to_binary
        { symbol := [84, 69], bids := [{ price := 10000, quantity := 60, order_count := 2 }], asks := [{ price := 10100, quantity := 7, order_count := 1 }], timestamp := 5, sequence_number := 3 }) =
      { symbol := [84, 69], bids := [{ price := 10000, quantity := 60, order_count := 0 }], asks := [{ price := 10100, quantity := 7, order_count := 0 }], timestamp := 5, sequence_number := 3 } := by
  have h := c9_roundtrip_amended
    { symbol := [84, 69], bids := [{ price := 10000, quantity := 60, order_count := 2 }], asks := [{ price := 10100, quantity := 7, order_count := 1 }], timestamp := 5, sequence_number := 3 }
    (by decide) (by decide) (by decide) (by decide) (by decide) (by decide) (by decide)
    (by decide) (by decide)
  rw [h]
  rfl

/-- Claim C5 (the code contradicts it; the repository's own
`docs/determinism.md` states the law — `assert(optimized_trades ==
reference_trades)` — and prescribes FIFO arrival-order matching within a
price level).  Two failing request streams, each applied identically to an
`OrderBook` and a `ReferenceOrderBook` built with the same symbol and STP
policy:
(1) two resting SELLs at one price whose `timestamp` fields are out of
arrival order, then a crossing BUY: the optimized book fills the first
arrival (passive id 1, FIFO queue order), the reference book fills the
smaller timestamp (passive id 2, its `find_best_match` compares the
`timestamp` field) — the trade tuples differ;
(2) a resting SELL 100 partially consumed by a BUY 40: the optimized book's
depth snapshot reports the stale cached level total 100 (neither
`pop_front` nor a partial fill updates `total_quantity_`) while the
reference book reports the true remainder 60. -/
theorem c5_cross_engine_failing_input :
    (((((OrderBook.init [84] STPPolicy.none).add_order (mkOrder 1 100 Side.sell OrderType.limit 10000 10 TimeInForce.day 5) 1).1.add_order (mkOrder 2 101 Side.sell OrderType.limit 10000 10 TimeInForce.day 3) 2).1.add_order (mkOrder 3 102 Side.buy OrderType.limit 10000 10 TimeInForce.day 7) 3).2.map tradeTuple ≠ ((((ReferenceOrderBook.init [84] STPPolicy.none).add_order (mkOrder 1 100 Side.sell OrderType.limit 10000 10 TimeInForce.day 5) 1).1.add_order (mkOrder 2 101 Side.sell OrderType.limit 10000 10 TimeInForce.day 3) 2).1.add_order (mkOrder 3 102 Side.buy OrderType.limit 10000 10 TimeInForce.day 7) 3).2.map tradeTuple ∧
      ((((OrderBook.init [84] STPPolicy.none).add_order (mkOrder 1 100 Side.sell OrderType.limit 10000 10 TimeInForce.day 5) 1).1.add_order (mkOrder 2 101 Side.sell OrderType.limit 10000 10 TimeInForce.day 3) 2).1.add_order (mkOrder 3 102 Side.buy OrderType.limit 10000 10 TimeInForce.day 7) 3).2.map (fun t => t.passive_order_id) = [1] ∧
      ((((ReferenceOrderBook.init [84] STPPolicy.none).add_order (mkOrder 1 100 Side.sell OrderType.limit 10000 10 TimeInForce.day 5) 1).1.add_order (mkOrder 2 101 Side.sell OrderType.limit 10000 10 TimeInForce.day 3) 2).1.add_order (mkOrder 3 102 Side.buy OrderType.limit 10000 10 TimeInForce.day 7) 3).2.map (fun t => t.passive_order_id) = [2]) ∧
    (((((OrderBook.init [84] STPPolicy.none).add_order (mkOrder 1 100 Side.sell OrderType.limit 10000 100 TimeInForce.day 1) 1).1.add_order (mkOrder 2 101 Side.buy OrderType.limit 10000 40 TimeInForce.day 2) 2).1.get_depth_snapshot 5 9).asks.map (fun l => l.quantity) = [100] ∧
      (((((ReferenceOrderBook.init [84] STPPolicy.none).add_order (mkOrder 1 100 Side.sell OrderType.limit 10000 100 TimeInForce.day 1) 1).1.add_order (mkOrder 2 101 Side.buy OrderType.limit 10000 40 TimeInForce.day 2) 2).1.get_depth_snapshot 5 9)).asks.map (fun l => l.quantity) = [60]) := by
  exact ⟨⟨by decide, rfl, rfl⟩, rfl, rfl⟩


end LOB
